import Mathlib

/-!
# Property store and reflective binder of `spring-core/spring-properties-default.go`

A shallow embedding of the Go source.

* Go strings are lists of characters (`Str`); `strings.ToLower`, `strings.HasPrefix`,
  `strings.HasSuffix`, `strings.TrimPrefix` and `strings.Split` are structural functions on them.
* A Go `map[string]T` is an association list `GoMap T`; the order of the list is the order in
  which `range` enumerates the map, `GoMap.find` is indexing and `GoMap.assign` is `m[k] = v`.
* `interface{}` property values are the closed algebra `Value`.
* Methods of `*defaultProperties` are written in state-passing style: they return their
  result together with the store they leave behind.
* `reflect.Type` is `Ty`, the contents of an addressable `reflect.Value` is `DVal`, its
  read-only flags are `Flags`, and a `panic` is `Outcome.abort`, which carries the
  destination as the panic left it.
* The registry `typeConverters` is a parameter of the binder: its declaration and
  `RegisterTypeConverter` are in another file of the package.
-/

set_option autoImplicit false

/-! ## Strings -/

/-- A Go string, as the list of its characters. -/
abbrev Str := List Char

namespace Str

/-- The function `strings.ToLower`, on the ASCII letters (other characters are kept). -/
def toLower (s : Str) : Str := s.map Char.toLower

/-- The function `strings.HasPrefix(s, pre)`. -/
def hasPrefix (s pre : Str) : Bool := pre.isPrefixOf s

/-- The function `strings.HasSuffix(s, suf)`. -/
def hasSuffix (s suf : Str) : Bool := suf.reverse.isPrefixOf s.reverse

/-- The function `strings.TrimPrefix(s, pre)`. -/
def trimPrefix (s pre : Str) : Str := if pre.isPrefixOf s then s.drop pre.length else s

/-- Worker of `split`: `skip` counts the characters of a separator that was just matched and
still has to be consumed. -/
def splitGo (sep : Str) : Str → Nat → List Str
  | [], _ => [[]]
  | _ :: cs, skip + 1 => splitGo sep cs skip
  | c :: cs, 0 =>
    if sep.isPrefixOf (c :: cs) then [] :: splitGo sep cs (sep.length - 1)
    else
      match splitGo sep cs 0 with
      | [] => [[c]]
      | part :: parts => (c :: part) :: parts

/-- The function `strings.Split(s, sep)` for a non-empty separator: all the pieces of `s`
between the non-overlapping occurrences of `sep`, found from the left. -/
def split (s sep : Str) : List Str := splitGo sep s 0

end Str

/-! ## Go maps and property values -/

/-- A Go map with string keys: its entries, in enumeration order. -/
abbrev GoMap (α : Type) := List (Str × α)

namespace GoMap

variable {α : Type}

/-- Indexing `m[k]` in its two-result form: `none` is `ok = false`. -/
def find : GoMap α → Str → Option α
  | [], _ => none
  | (k0, v) :: rest, k => if k0 = k then some v else find rest k

/-- The assignment `m[k] = v`: overwrites the entry of `k` or adds one. -/
def assign : GoMap α → Str → α → GoMap α
  | [], k, v => [(k, v)]
  | (k0, v0) :: rest, k, v => if k0 = k then (k, v) :: rest else (k0, v0) :: assign rest k v

/-- The keys of the map, in enumeration order. -/
def keys (m : GoMap α) : List Str := m.map Prod.fst

end GoMap

/-- A property value (`interface{}`) as the configuration loader produces it. -/
inductive Value where
  | nil
  | bool (b : Bool)
  | int (i : Int)
  | str (s : Str)
  | seq (xs : List Value)
  | map (m : List (Str × Value))

/-! ## The property store -/

/-- The struct `defaultProperties`. -/
structure defaultProperties where
  properties : GoMap Value

namespace defaultProperties

/-- The constructor `NewDefaultProperties`. -/
def NewDefaultProperties : defaultProperties := ⟨[]⟩

/-- The method `GetProperty`: `p.properties[strings.ToLower(key)]`, `nil` when absent. -/
def GetProperty (p : defaultProperties) (key : Str) : Value × defaultProperties :=
  ((GoMap.find p.properties (Str.toLower key)).getD Value.nil, p)

/-- The method `SetProperty`: `p.properties[strings.ToLower(key)] = value`. -/
def SetProperty (p : defaultProperties) (key : Str) (value : Value) : Unit × defaultProperties :=
  ((), ⟨GoMap.assign p.properties (Str.toLower key) value⟩)

/-- The method `GetDefaultProperty`. -/
def GetDefaultProperty (p : defaultProperties) (key : Str) (defaultValue : Value) :
    (Value × Bool) × defaultProperties :=
  match GoMap.find p.properties (Str.toLower key) with
  | some v => ((v, true), p)
  | none => ((defaultValue, false), p)

/-- The loop body test of `GetPrefixProperties`, for the lower-cased prefix. -/
def prefixMatch (pre k : Str) : Bool :=
  decide (k = pre) || Str.hasPrefix k (pre ++ ['.'])

/-- The method `GetPrefixProperties`: the loop visits the entries in enumeration order and
assigns each matching one into the fresh map `result`. -/
def GetPrefixProperties (p : defaultProperties) (pre : Str) :
    GoMap Value × defaultProperties :=
  (p.properties.foldl
    (fun result kv =>
      if prefixMatch (Str.toLower pre) kv.1 then GoMap.assign result kv.1 kv.2 else result) [],
   p)

/-- The method `GetProperties`. -/
def GetProperties (p : defaultProperties) : GoMap Value × defaultProperties :=
  (p.properties, p)

end defaultProperties

/-! ## Types, destinations and outcomes -/

/-- The kinds of `reflect.Kind` that carry no structure the binder looks into. -/
inductive BasicKind where
  | bool | int | int8 | int16 | int32 | int64
  | uint | uint8 | uint16 | uint32 | uint64
  | float32 | float64 | string
  | uintptr | complex64 | complex128 | array | chan | func | interface | ptr | unsafePointer
  deriving DecidableEq, Repr

/-- What `reflect.StructField` tells the binder about a field: its name, the result of
`Tag.Lookup("value")`, whether it is embedded and whether it is exported. -/
structure StructField where
  Name : Str
  Tag : Option Str
  Anonymous : Bool
  exported : Bool

/-- A `reflect.Type`, with the name `Name()` reports (empty for an unnamed type). -/
inductive Ty where
  | basic (name : Str) (k : BasicKind)
  | slice (name : Str) (elem : Ty)
  | map (name : Str) (key : Ty) (elem : Ty)
  | struct (name : Str) (fields : List (StructField × Ty))

/-- The method `Type.Name`. -/
def Ty.Name : Ty → Str
  | .basic n _ => n
  | .slice n _ => n
  | .map n _ _ => n
  | .struct n _ => n

/-- The contents of a destination. A float is kept as the property value it was cast from;
nil and empty slices and maps are not told apart. -/
inductive DVal where
  | bool (b : Bool)
  | int (i : Int)
  | uint (n : Nat)
  | float (src : Value)
  | str (s : Str)
  | slice (xs : List DVal)
  | map (m : List (Str × DVal))
  | struct (fields : List DVal)
  | other

/-- The panics of the binder. -/
inductive Err where
  /-- The tag does not look like `${...}`. -/
  | tagSyntax (fieldName : Str)
  /-- The target of a tagged field is a pointer. -/
  | pointerTarget (fieldName : Str)
  /-- The message `properties "..." not config`. -/
  | notConfig (fieldName fullPropName : Str)
  /-- A struct field carries a default value. -/
  | structDefault (fieldName : Str)
  /-- The message "not supported yet" of the element kinds left out. -/
  | notSupported
  /-- The message `isn't []map[string]interface{}`. -/
  | notSliceOfMaps (fullPropName : Str)
  /-- The message `isn't map[string]interface{}` about the key type of the field. -/
  | notStringKeyed (fieldName : Str)
  /-- The message `isn't map[string]string`. -/
  | notStringMap (fullPropName : Str)
  /-- The message `isn't map[string]map[string]interface{}`. -/
  | notMapOfMaps (fullPropName : Str)
  /-- The message `unsupported type`. -/
  | unsupportedType (fieldName : Str) (k : BasicKind)
  /-- The argument of `BindPropertyIf` is not a pointer. -/
  | notPointer
  /-- A registered converter panicked on its input. -/
  | converter
  /-- A run-time panic of `reflect`: a `Set` through a read-only value, `NumField` of a
  type that is not a struct, or a `Call` with an argument that is not a string. -/
  | reflectPanic
  /-- A run-time panic: index out of range. -/
  | indexOutOfRange

/-- The result of a binder call: it returns, or it panics; either way the destination holds
the value given. -/
inductive Outcome where
  | ok (v : DVal)
  | abort (e : Err) (v : DVal)

/-- The destination a call leaves behind. -/
def Outcome.dest : Outcome → DVal
  | .ok v => v
  | .abort _ v => v

/-- A registered converter `func(string) T`; `none` is a panic of the converter. -/
abbrev Converter := Str → Option DVal

/-- The package variable `typeConverters`: the registry, as its lookup. -/
abbrev TypeConverters := Ty → Option Converter

/-- The struct `bindOption`. -/
structure bindOption where
  propNamePrefix : Str
  fullPropName : Str
  fieldName : Str
  allAccess : Bool

/-- The two methods of the interface `Properties` that the binder calls. -/
structure Properties where
  GetDefaultProperty : Str → Value → Value × Bool
  GetPrefixProperties : Str → GoMap Value

/-- A `*defaultProperties` seen through the interface `Properties`. -/
def defaultProperties.asProperties (p : defaultProperties) : Properties where
  GetDefaultProperty := fun key defaultValue => (p.GetDefaultProperty key defaultValue).1
  GetPrefixProperties := fun pre => (p.GetPrefixProperties pre).1

/-- Two-complement wrap of an integer to `bits` bits, as `reflect.Value.SetInt` stores it. -/
def wrapInt (bits : Nat) (i : Int) : Int :=
  (i + 2 ^ (bits - 1)) % 2 ^ bits - 2 ^ (bits - 1)

/-- Wrap of an unsigned integer to `bits` bits, as `reflect.Value.SetUint` stores it. -/
def wrapUint (bits : Nat) (n : Nat) : Nat := n % 2 ^ bits

/-- The zero value of a type. -/
def zeroBasic : BasicKind → DVal
  | .bool => .bool false
  | .int | .int8 | .int16 | .int32 | .int64 => .int 0
  | .uint | .uint8 | .uint16 | .uint32 | .uint64 => .uint 0
  | .float32 | .float64 => .float Value.nil
  | .string => .str []
  | _ => .other

mutual
/-- The zero value of a type, as `reflect.New(t).Elem()` holds it. -/
def zeroVal : Ty → DVal
  | .basic _ k => zeroBasic k
  | .slice _ _ => .slice []
  | .map _ _ _ => .map []
  | .struct _ fields => .struct (zeroFields fields)
/-- The zero values of the fields of a struct type. -/
def zeroFields : List (StructField × Ty) → List DVal
  | [] => []
  | (_, t) :: rest => zeroVal t :: zeroFields rest
end

/-! ## The conversions of the package `cast`

The binder converts property values with `github.com/spf13/cast`. The functions below give
these conversions on `Value`: numbers are read from decimal literals, a string is never
decoded as JSON, and a conversion that reports an error yields what the non-`E` function of
`cast` returns then (the zero value or an empty slice). -/

namespace cast

/-- Value of a decimal digit. -/
def digitVal (c : Char) : Option Nat :=
  if 48 ≤ c.toNat ∧ c.toNat ≤ 57 then some (c.toNat - 48) else none

/-- Reads the digits of `s` after the value `acc` of the digits before them. -/
def parseDigits : Str → Nat → Option Nat
  | [], acc => some acc
  | c :: cs, acc =>
    match digitVal c with
    | some d => parseDigits cs (acc * 10 + d)
    | none => none

/-- A non-empty run of decimal digits, as `strconv.ParseUint` reads it. -/
def parseNat (s : Str) : Option Nat :=
  match s with
  | [] => none
  | _ :: _ => parseDigits s 0

/-- A decimal literal with an optional sign, as `strconv.ParseInt` reads it. -/
def parseInt (s : Str) : Option Int :=
  match s with
  | '-' :: cs => (parseNat cs).map (fun n => - (n : Int))
  | '+' :: cs => (parseNat cs).map (fun n => (n : Int))
  | _ => (parseNat s).map (fun n => (n : Int))

/-- The function `strconv.ParseBool`. -/
def parseBool (s : Str) : Option Bool :=
  if s = "1".toList ∨ s = "t".toList ∨ s = "T".toList ∨ s = "TRUE".toList ∨ s = "true".toList
      ∨ s = "True".toList then some true
  else if s = "0".toList ∨ s = "f".toList ∨ s = "F".toList ∨ s = "FALSE".toList
      ∨ s = "false".toList ∨ s = "False".toList then some false
  else none

/-- The function `strconv.Itoa`. -/
def itoa (i : Int) : Str :=
  match i with
  | Int.ofNat n => Nat.toDigits 10 n
  | Int.negSucc n => '-' :: Nat.toDigits 10 (n + 1)

/-- The function `cast.ToInt64E`. -/
def ToInt64E : Value → Option Int
  | .nil => some 0
  | .bool b => some (if b then 1 else 0)
  | .int i => some i
  | .str s =>
    match parseInt s with
    | some i => if - 2 ^ 63 ≤ i ∧ i < 2 ^ 63 then some i else none
    | none => none
  | .seq _ => none
  | .map _ => none

/-- The function `cast.ToInt64`. -/
def ToInt64 (v : Value) : Int := (ToInt64E v).getD 0

/-- The function `cast.ToUint64E`. -/
def ToUint64E : Value → Option Nat
  | .nil => some 0
  | .bool b => some (if b then 1 else 0)
  | .int i => if i < 0 then none else some i.toNat
  | .str s =>
    match parseNat s with
    | some n => if n < 2 ^ 64 then some n else none
    | none => none
  | .seq _ => none
  | .map _ => none

/-- The function `cast.ToUint64`. -/
def ToUint64 (v : Value) : Nat := (ToUint64E v).getD 0

/-- The function `cast.ToStringE`. -/
def ToStringE : Value → Option Str
  | .nil => some []
  | .bool b => some (if b then "true".toList else "false".toList)
  | .int i => some (itoa i)
  | .str s => some s
  | .seq _ => none
  | .map _ => none

/-- The function `cast.ToString`. -/
def ToString (v : Value) : Str := (ToStringE v).getD []

/-- The function `cast.ToBoolE`. -/
def ToBoolE : Value → Option Bool
  | .nil => some false
  | .bool b => some b
  | .int i => some (decide (i ≠ 0))
  | .str s => parseBool s
  | .seq _ => none
  | .map _ => none

/-- The function `cast.ToBool`. -/
def ToBool (v : Value) : Bool := (ToBoolE v).getD false

/-- All the elements converted, or `none` when one conversion fails. -/
def allE {α : Type} (f : Value → Option α) : List Value → Option (List α)
  | [] => some []
  | x :: xs =>
    match f x with
    | none => none
    | some y =>
      match allE f xs with
      | none => none
      | some ys => some (y :: ys)

/-- The function `cast.ToIntSlice`: an empty slice when the value is not a sequence of
values that convert to `int`. -/
def ToIntSlice : Value → List Int
  | .seq xs => (allE ToInt64E xs).getD []
  | _ => []

/-- The function `cast.ToBoolSlice`. -/
def ToBoolSlice : Value → List Bool
  | .seq xs => (allE ToBoolE xs).getD []
  | _ => []

/-- Worker of `fields`: `cur` is the current field, reversed. -/
def fieldsGo : Str → Str → List Str
  | [], cur => if cur = [] then [] else [cur.reverse]
  | c :: cs, cur =>
    if c.isWhitespace then
      (if cur = [] then fieldsGo cs [] else cur.reverse :: fieldsGo cs [])
    else fieldsGo cs (c :: cur)

/-- The function `strings.Fields`. -/
def fields (s : Str) : List Str := fieldsGo s []

/-- The function `cast.ToStringSlice`. -/
def ToStringSlice : Value → List Str
  | .seq xs => xs.map ToString
  | .str s => fields s
  | .nil => []
  | v => match ToStringE v with
    | some s => [s]
    | none => []

/-- The function `cast.ToStringMapE`. -/
def ToStringMapE : Value → Option (GoMap Value)
  | .map m => some m
  | _ => none

/-- The function `cast.ToStringMapStringE`: each entry is assigned, converted, into a
fresh map. -/
def ToStringMapStringE : Value → Option (GoMap Str)
  | .map m => some (m.foldl (fun r kv => GoMap.assign r kv.1 (ToString kv.2)) [])
  | _ => none

end cast

/-! ## The binder -/

/-- The closure `getPropValue` of `bindValue`: the stored value, else the default value,
else the non-empty map of the properties under the name, else a panic. -/
def getPropValue (p : Properties) (propName : Str) (defaultValue : Option Str)
    (opt : bindOption) : Except Err Value :=
  match p.GetDefaultProperty propName Value.nil with
  | (val, true) => .ok val
  | (_, false) =>
    match defaultValue with
    | some d => .ok (Value.str d)
    | none =>
      let prefixValue := p.GetPrefixProperties propName
      if prefixValue.length > 0 then .ok (Value.map prefixValue)
      else .error (Err.notConfig opt.fieldName opt.fullPropName)

/-- The call `fnValue.Call` of a converter on a property value. -/
def callConverter (fn : Converter) (propValue : Value) : Except Err DVal :=
  match propValue with
  | .str s =>
    match fn s with
    | some out => .ok out
    | none => .error Err.converter
  | _ => .error Err.reflectPanic

/-- The read-only flags of a `reflect.Value`: `flagStickyRO`, which a field value inherits
from its struct, and `flagEmbedRO`. -/
structure Flags where
  stickyRO : Bool
  embedRO : Bool

/-- The flags of a value that was not reached through an unexported field. -/
def noRO : Flags := ⟨false, false⟩

/-- The test `flag&flagRO != 0`. -/
def Flags.isRO (fl : Flags) : Bool := fl.stickyRO || fl.embedRO

/-- The methods `Set`, `SetInt`, ... of `reflect.Value`: a panic through a read-only value
or when the value is not assignable to the type of the destination. -/
def setValue (ro : Flags) (assignable : Bool) (v new : DVal) : Outcome :=
  if ro.isRO || !assignable then .abort Err.reflectPanic v else .ok new

/-- The flags of the field value `v.Field(i)`: `flagStickyRO` is inherited from the struct,
and an unexported field sets `flagEmbedRO` when it is embedded and `flagStickyRO` when it is
not. -/
def fieldFlags (ro : Flags) (ft : StructField) : Flags :=
  { stickyRO := ro.stickyRO || (!ft.exported && !ft.Anonymous),
    embedRO := !ft.exported && ft.Anonymous }

/-- The function `SpringUtils.ValuePatchIf` on the flags of a value: the read-only flags are
cleared when `allAccess` is set. -/
def ValuePatchIf (fl : Flags) (allAccess : Bool) : Flags :=
  if allAccess then noRO else fl

/-- Width in bits of an integer kind. -/
def BasicKind.bits : BasicKind → Nat
  | .int8 | .uint8 => 8
  | .int16 | .uint16 => 16
  | .int32 | .uint32 => 32
  | _ => 64

/-- The groups of kinds the `switch` statements of `bindValue` tell apart. -/
inductive KindClass where
  | uint | int | float | string | bool | other
  deriving DecidableEq

/-- The group of a basic kind. -/
def BasicKind.cls : BasicKind → KindClass
  | .uint64 | .uint32 | .uint16 | .uint8 | .uint => .uint
  | .int64 | .int32 | .int16 | .int8 | .int => .int
  | .float64 | .float32 => .float
  | .string => .string
  | .bool => .bool
  | _ => .other

/-- The group of the kind of a type. -/
def Ty.cls : Ty → KindClass
  | .basic _ k => k.cls
  | _ => .other

/-- Whether the type is the predeclared type of the given name and kind. -/
def Ty.isPredeclared (t : Ty) (name : Str) (k : BasicKind) : Bool :=
  match t with
  | .basic n k0 => decide (n = name) && decide (k0 = k)
  | _ => false

/-- The test `Kind() == reflect.Struct`. -/
def Ty.isStruct : Ty → Bool
  | .struct _ _ => true
  | _ => false

/-- The test `Kind() == reflect.Ptr`. -/
def Ty.isPtr : Ty → Bool
  | .basic _ .ptr => true
  | _ => false

/-- The fields of a struct value. -/
def DVal.fieldsOf : DVal → List DVal
  | .struct fs => fs
  | _ => []

/-- The scalar cases of the `switch k` of `bindValue`, and its `default` case. -/
def bindBasic (k : BasicKind) (ro : Flags) (v : DVal) (propValue : Value) (opt : bindOption) :
    Outcome :=
  match k.cls with
  | .uint => setValue ro true v (.uint (wrapUint k.bits (cast.ToUint64 propValue)))
  | .int => setValue ro true v (.int (wrapInt k.bits (cast.ToInt64 propValue)))
  | .float => setValue ro true v (.float propValue)
  | .string => setValue ro true v (.str (cast.ToString propValue))
  | .bool => setValue ro true v (.bool (cast.ToBool propValue))
  | .other => .abort (Err.unsupportedType opt.fieldName k) v

/-- The slicing `s[lo:hi]`, `none` when it is out of range. -/
def sliceStr (s : Str) (lo hi : Int) : Option Str :=
  if 0 ≤ lo ∧ lo ≤ hi ∧ hi ≤ s.length then some ((s.drop lo.toNat).take (hi.toNat - lo.toNat))
  else none

/-- The body of `bindStructField` up to its call of `bindValue`: the checks of the tag and
of the target, and the property name, default value and option the call receives. -/
def bindStructFieldArgs (isPtr : Bool) (tag : Str) (opt : bindOption) :
    Except Err (Str × Option Str × bindOption) :=
  if !(Str.hasPrefix tag "$\x7b".toList && Str.hasSuffix tag "\x7d".toList) then
    .error (Err.tagSyntax opt.fieldName)
  else if isPtr then .error (Err.pointerTarget opt.fieldName)
  else
    match sliceStr tag 2 ((tag.length : Int) - 1) with
    | none => .error Err.indexOutOfRange
    | some body =>
      match Str.split body ":=".toList with
      | [] => .error Err.indexOutOfRange
      | propName :: more =>
        let fullPropName :=
          if opt.fullPropName = [] then propName
          else if propName ≠ [] then opt.fullPropName ++ ['.'] ++ propName
          else opt.fullPropName
        let propName :=
          if opt.propNamePrefix ≠ [] then opt.propNamePrefix ++ ['.'] ++ propName
          else propName
        let defaultValue :=
          match more with
          | [] => none
          | d :: _ => some d
        .ok (propName, defaultValue, { opt with fullPropName := fullPropName })

/-- The converter branch of a slice: every string of the slice is converted. -/
def convertAll (fn : Converter) : List Str → Except Err (List DVal)
  | [] => .ok []
  | iv :: rest =>
    match fn iv with
    | none => .error Err.converter
    | some r =>
      match convertAll fn rest with
      | .error e => .error e
      | .ok rs => .ok (r :: rs)

/-- The converter branch of a map: every value is converted and stored under its key with
the prefix trimmed. -/
def convertMap (fn : Converter) (pre : Str) (keyOk : Bool) :
    GoMap Str → GoMap DVal → Except Err (GoMap DVal)
  | [], result => .ok result
  | (k0, v0) :: rest, result =>
    match fn v0 with
    | none => .error Err.converter
    | some r =>
      if keyOk then convertMap fn pre keyOk rest (GoMap.assign result (Str.trimPrefix k0 pre) r)
      else .error Err.reflectPanic

/-- The loop of the slice-of-struct branch: element `i` is cast to a map and bound by
`bindElem`, and the elements are collected in order. -/
def bindSliceElems (bindElem : GoMap Value → Nat → Outcome) (fullPropName : Str) :
    List Value → Nat → Except Err (List DVal)
  | [], _ => .ok []
  | si :: rest, i =>
    match cast.ToStringMapE si with
    | none => .error (Err.notSliceOfMaps fullPropName)
    | some sv =>
      match bindElem sv i with
      | .abort e _ => .error e
      | .ok ev =>
        match bindSliceElems bindElem fullPropName rest (i + 1) with
        | .error e => .error e
        | .ok evs => .ok (ev :: evs)

/-- One round of the regrouping loop of the map-of-struct branch. -/
def regroupStep (trimKey : Str) (temp : GoMap (GoMap Value)) (k0 : Str) (v0 : Value) :
    Except Err (GoMap (GoMap Value)) :=
  match Str.split (Str.trimPrefix k0 trimKey) ['.'] with
  | [] => .error Err.indexOutOfRange
  | sk0 :: more =>
    let temp1 := match GoMap.find temp sk0 with
      | some _ => temp
      | none => GoMap.assign temp sk0 []
    let item := (GoMap.find temp sk0).getD []
    match more with
    | [] => .error Err.indexOutOfRange
    | sk1 :: _ => .ok (GoMap.assign temp1 sk0 (GoMap.assign item sk1 v0))

/-- The regrouping loop of the map-of-struct branch, over the entries of `mapValue`. -/
def regroup (trimKey : Str) : GoMap Value → GoMap (GoMap Value) →
    Except Err (GoMap (GoMap Value))
  | [], temp => .ok temp
  | (k0, v0) :: rest, temp =>
    match regroupStep trimKey temp k0 v0 with
    | .error e => .error e
    | .ok temp1 => regroup trimKey rest temp1

/-- The second loop of the map-of-struct branch: every bucket is bound by `bindElem` and
stored under its key. -/
def bindMapElems (bindElem : Str → GoMap Value → Outcome) (keyOk : Bool) :
    GoMap (GoMap Value) → GoMap DVal → Except Err (GoMap DVal)
  | [], result => .ok result
  | (k1, v1) :: rest, result =>
    match bindElem k1 v1 with
    | .abort e _ => .error e
    | .ok ev =>
      if keyOk then bindMapElems bindElem keyOk rest (GoMap.assign result k1 ev)
      else .error Err.reflectPanic

/-- The string-element branch of a map: every key loses the prefix. -/
def trimKeys (pre : Str) : GoMap Str → GoMap DVal → GoMap DVal
  | [], result => result
  | (k0, v0) :: rest, result => trimKeys pre rest (GoMap.assign result (Str.trimPrefix k0 pre) (.str v0))

/-- The name `fmt.Sprintf("%s[%d]", propName, i)`. -/
def indexName (propName : Str) (i : Nat) : Str := propName ++ ['['] ++ Nat.toDigits 10 i ++ [']']

/-- The result of the field loop of `bindStruct`: the panic that stopped it, if any, and the
field values it leaves. -/
abbrev FieldsOutcome := Option Err × List DVal

/-- The outcome of a struct destination after the loop over its fields. -/
def structOutcome : FieldsOutcome → Outcome
  | (some e, fs) => .abort e (.struct fs)
  | (none, fs) => .ok (.struct fs)

/-- The converter branch of `bindValue`: the effective value goes through the converter
and the result is stored. -/
def bindConverted (fn : Converter) (p : Properties) (ro : Flags) (v : DVal) (propName : Str)
    (defaultValue : Option Str) (opt : bindOption) : Outcome :=
  match getPropValue p propName defaultValue opt with
  | .error e => .abort e v
  | .ok propValue =>
    match callConverter fn propValue with
    | .error e => .abort e v
    | .ok out => setValue ro true v out

/-- The case `reflect.Slice` of `bindValue`, after the effective value was fetched;
`bindElem sv i` is the call of `bindStruct` on a fresh element against the map `sv` of
index `i`. -/
def bindSliceCase (tc : TypeConverters) (elemType : Ty) (ro : Flags) (v : DVal)
    (propValue : Value) (opt : bindOption) (bindElem : GoMap Value → Nat → Outcome) : Outcome :=
  match elemType.cls with
  | .uint => .abort Err.notSupported v
  | .int =>
    setValue ro (elemType.isPredeclared "int".toList .int) v
      (.slice ((cast.ToIntSlice propValue).map DVal.int))
  | .float => .abort Err.notSupported v
  | .string =>
    setValue ro (elemType.isPredeclared "string".toList .string) v
      (.slice ((cast.ToStringSlice propValue).map DVal.str))
  | .bool =>
    setValue ro (elemType.isPredeclared "bool".toList .bool) v
      (.slice ((cast.ToBoolSlice propValue).map DVal.bool))
  | .other =>
    match tc elemType with
    | some fn =>
      match convertAll fn (cast.ToStringSlice propValue) with
      | .error e => .abort e v
      | .ok sv => setValue ro true v (.slice sv)
    | none =>
      match propValue with
      | .seq s =>
        match bindSliceElems bindElem opt.fullPropName s 0 with
        | .error e => .abort e v
        | .ok result => setValue ro true v (.slice result)
      | _ => .abort (Err.notSliceOfMaps opt.fullPropName) v

/-- The case `reflect.Map` of `bindValue`, after the effective value was fetched;
`bindElem k1 v1` is the call of `bindStruct` on a fresh element against the bucket `v1` of
key `k1`. -/
def bindMapCase (tc : TypeConverters) (keyType elemType : Ty) (ro : Flags) (v : DVal)
    (propName : Str) (propValue : Value) (opt : bindOption)
    (bindElem : Str → GoMap Value → Outcome) : Outcome :=
  if keyType.cls ≠ .string then .abort (Err.notStringKeyed opt.fieldName) v
  else
    match elemType.cls with
    | .uint => .abort Err.notSupported v
    | .int => .abort Err.notSupported v
    | .float => .abort Err.notSupported v
    | .bool => .abort Err.notSupported v
    | .string =>
      match cast.ToStringMapStringE propValue with
      | some mapValue =>
        setValue ro
          (keyType.isPredeclared "string".toList .string
            && elemType.isPredeclared "string".toList .string) v
          (.map (trimKeys (propName ++ ['.']) mapValue []))
      | none => .abort (Err.notStringMap opt.fullPropName) v
    | .other =>
      match tc elemType with
      | some fn =>
        match cast.ToStringMapStringE propValue with
        | some mapValue =>
          match convertMap fn (propName ++ ['.'])
              (keyType.isPredeclared "string".toList .string) mapValue [] with
          | .error e => .abort e v
          | .ok result => setValue ro true v (.map result)
        | none => .abort (Err.notStringMap opt.fullPropName) v
      | none =>
        match cast.ToStringMapE propValue with
        | some mapValue =>
          match regroup (propName ++ ['.']) mapValue [] with
          | .error e => .abort e v
          | .ok temp =>
            match bindMapElems bindElem (keyType.isPredeclared "string".toList .string)
                temp [] with
            | .error e => .abort e v
            | .ok result => setValue ro true v (.map result)
        | none => .abort (Err.notMapOfMaps opt.fullPropName) v

/-- The option `bindStruct` hands to a field. -/
def subOption (opt : bindOption) (ft : StructField) : bindOption :=
  { propNamePrefix := opt.propNamePrefix, fullPropName := opt.fullPropName,
    fieldName := opt.fieldName ++ ".$".toList ++ ft.Name, allAccess := opt.allAccess }

/-- One round of the loop of `bindStruct`, on the field `ft` of type `t` whose value is the
head of `vs`. A tagged field goes through the body of `bindStructField` and then `viaTag`
(the call of `bindValue`); an untagged field that is embedded or of struct kind goes through
`viaStruct` (the call of `bindStruct`); any other field is skipped. `next` is what the
rounds of the later fields do. -/
def fieldRound (ft : StructField) (t : Ty) (ro : Flags) (vs : List DVal) (opt : bindOption)
    (viaTag : Flags → DVal → Str → Option Str → bindOption → Outcome)
    (viaStruct : Flags → DVal → bindOption → Outcome) (next : FieldsOutcome) : FieldsOutcome :=
  match ft.Tag with
  | some tag =>
    match bindStructFieldArgs t.isPtr tag (subOption opt ft) with
    | .error e => (some e, vs.headD (zeroVal t) :: vs.tail)
    | .ok (propName, defaultValue, opt1) =>
      match viaTag (ValuePatchIf (fieldFlags ro ft) opt.allAccess) (vs.headD (zeroVal t))
          propName defaultValue opt1 with
      | .abort e fv1 => (some e, fv1 :: vs.tail)
      | .ok fv1 => (next.1, fv1 :: next.2)
  | none =>
    if ft.Anonymous || t.isStruct then
      match viaStruct (ValuePatchIf (fieldFlags ro ft) opt.allAccess) (vs.headD (zeroVal t))
          (subOption opt ft) with
      | .abort e fv1 => (some e, fv1 :: vs.tail)
      | .ok fv1 => (next.1, fv1 :: next.2)
    else (next.1, vs.headD (zeroVal t) :: next.2)

mutual
/-- The function `bindValue` on a destination of type `t` that holds `v`; `ro` holds the
read-only flags of the `reflect.Value`. Every case starts with the lookup of a converter for
the type of the destination, as the function does before it looks at the kind. -/
def bindValue (tc : TypeConverters) (p : Properties) (t : Ty) (ro : Flags) (v : DVal)
    (propName : Str) (defaultValue : Option Str) (opt : bindOption) : Outcome :=
  match t with
  | .struct name fields =>
    match tc (.struct name fields) with
    | some fn => bindConverted fn p ro v propName defaultValue opt
    | none =>
      match defaultValue with
      | some _ => .abort (Err.structDefault opt.fieldName) v
      | none =>
        structOutcome (bindFields tc p fields ro v.fieldsOf
          { propNamePrefix := propName, fullPropName := opt.fullPropName,
            fieldName := opt.fieldName, allAccess := opt.allAccess })
  | .basic name k =>
    match tc (.basic name k) with
    | some fn => bindConverted fn p ro v propName defaultValue opt
    | none =>
      match getPropValue p propName defaultValue opt with
      | .error e => .abort e v
      | .ok propValue => bindBasic k ro v propValue opt
  | .slice name elemType =>
    match tc (.slice name elemType) with
    | some fn => bindConverted fn p ro v propName defaultValue opt
    | none =>
      match getPropValue p propName defaultValue opt with
      | .error e => .abort e v
      | .ok propValue =>
        bindSliceCase tc elemType ro v propValue opt
          (fun sv i =>
            match elemType with
            | .struct _ efields =>
              structOutcome (bindFields tc (defaultProperties.asProperties ⟨sv⟩) efields noRO
                (zeroFields efields)
                { propNamePrefix := [], fullPropName := indexName propName i,
                  fieldName := opt.fieldName, allAccess := opt.allAccess })
            | _ => .abort Err.reflectPanic (zeroVal elemType))
  | .map name keyType elemType =>
    match tc (.map name keyType elemType) with
    | some fn => bindConverted fn p ro v propName defaultValue opt
    | none =>
      match getPropValue p propName defaultValue opt with
      | .error e => .abort e v
      | .ok propValue =>
        bindMapCase tc keyType elemType ro v propName propValue opt
          (fun k1 v1 =>
            match elemType with
            | .struct _ efields =>
              structOutcome (bindFields tc (defaultProperties.asProperties ⟨v1⟩) efields noRO
                (zeroFields efields)
                { propNamePrefix := [], fullPropName := propName ++ ['.'] ++ k1,
                  fieldName := opt.fieldName, allAccess := opt.allAccess })
            | _ => .abort Err.reflectPanic (zeroVal elemType))
/-- The loop of `bindStruct` over the fields of a struct type, `vs` being the values of the
fields: one round for the first field, then the rounds of the rest. -/
def bindFields (tc : TypeConverters) (p : Properties) (fields : List (StructField × Ty))
    (ro : Flags) (vs : List DVal) (opt : bindOption) : FieldsOutcome :=
  match fields with
  | [] => (none, vs)
  | (ft, t) :: rest =>
    fieldRound ft t ro vs opt
      (fun fro fv propName defaultValue opt1 =>
        bindValue tc p t fro fv propName defaultValue opt1)
      (fun fro fv subOpt =>
        match t with
        | .struct _ sub => structOutcome (bindFields tc p sub fro fv.fieldsOf subOpt)
        | _ => .abort Err.reflectPanic fv)
      (bindFields tc p rest ro vs.tail opt)
end

/-- The function `bindStruct` on a destination of type `t`: `NumField` panics when `t` is
not a struct type. -/
def bindStruct (tc : TypeConverters) (p : Properties) (t : Ty) (ro : Flags) (v : DVal)
    (opt : bindOption) : Outcome :=
  match t with
  | .struct _ fields => structOutcome (bindFields tc p fields ro v.fieldsOf opt)
  | _ => .abort Err.reflectPanic v

/-- The function `bindStructField`. -/
def bindStructField (tc : TypeConverters) (p : Properties) (t : Ty) (ro : Flags) (v : DVal)
    (tag : Str) (opt : bindOption) : Outcome :=
  match bindStructFieldArgs t.isPtr tag opt with
  | .error e => .abort e v
  | .ok (propName, defaultValue, opt1) => bindValue tc p t ro v propName defaultValue opt1

/-- The argument `i interface{}` of `BindProperty`: a pointer (not nil) to a destination of
type `elem`, or a value that is not a pointer. -/
inductive GoArg where
  | pointer (elem : Ty) (target : DVal)
  | value (t : Ty) (v : DVal)

/-- The method `BindPropertyIf`. -/
def defaultProperties.BindPropertyIf (tc : TypeConverters) (p : defaultProperties) (key : Str)
    (i : GoArg) (allAccess : Bool) : Outcome × defaultProperties :=
  match i with
  | .value _ v => (.abort Err.notPointer v, p)
  | .pointer t target =>
    let s := t.Name
    let s :=
      match t with
      | .map _ _ e => if s = [] then e.Name else s
      | .slice _ e => if s = [] then e.Name else s
      | _ => s
    (bindValue tc p.asProperties t noRO target key none
      { propNamePrefix := [], fullPropName := key, fieldName := s, allAccess := allAccess }, p)

/-- The method `BindProperty`. -/
def defaultProperties.BindProperty (tc : TypeConverters) (p : defaultProperties) (key : Str)
    (i : GoArg) : Outcome × defaultProperties :=
  p.BindPropertyIf tc key i false


/-! ## Vocabulary of the statements -/

/-- The tag `${body}`. -/
def tagOf (body : Str) : Str := "$\x7b".toList ++ body ++ "\x7d".toList

/-- The separator `:=` of a tag. -/
def assignSep : Str := ":=".toList

/-- The predeclared type `int`. -/
def tyInt : Ty := .basic "int".toList .int

/-- The predeclared type `string`. -/
def tyString : Ty := .basic "string".toList .string

/-- The empty converter registry. -/
def noConverters : TypeConverters := fun _ => none

/-- The lookup key `bindStructField` composes from the prefix of the option and the name of
the tag, as the source does: the prefix and a dot are prepended when the prefix is not
empty. -/
def lookupKey (propNamePrefix name : Str) : Str :=
  if propNamePrefix ≠ [] then propNamePrefix ++ ['.'] ++ name else name

/-- The full property name `bindStructField` composes for the diagnostics. -/
def fullName (fullPropName name : Str) : Str :=
  if fullPropName = [] then name
  else if name ≠ [] then fullPropName ++ ['.'] ++ name
  else fullPropName

/-- The option `bindStructField` passes on for a tag of the given name. -/
def tagOption (opt : bindOption) (name : Str) : bindOption :=
  { opt with fullPropName := fullName opt.fullPropName name }

/-- A tagged, exported, named field. -/
def taggedField (name body : Str) : StructField :=
  { Name := name, Tag := some (tagOf body), Anonymous := false, exported := true }

/-- An untagged, exported, named field. -/
def plainField (name : Str) : StructField :=
  { Name := name, Tag := none, Anonymous := false, exported := true }

/-- The struct `S` with the single field `V int` tagged `${}`. -/
def exEmptyName : Ty := .struct "S".toList [(taggedField "V".toList [], tyInt)]

/-- A chain of structs, each with one field, around the type `inner`: a layer gives the
field and the name of the struct type that holds it. -/
def nestTy : List (StructField × Str) → Ty → Ty
  | [], inner => inner
  | (ft, sn) :: layers, inner => .struct sn [(ft, nestTy layers inner)]

/-- The option that reaches the innermost struct of a chain. -/
def nestOpt : List (StructField × Str) → bindOption → bindOption
  | [], opt => opt
  | (ft, _) :: layers, opt => nestOpt layers (subOption opt ft)

/-- The read-only flag that reaches the innermost struct of a chain. -/
def nestRo : List (StructField × Str) → Bool → Flags → Flags
  | [], _, ro => ro
  | (ft, _) :: layers, allAccess, ro => nestRo layers allAccess (ValuePatchIf (fieldFlags ro ft) allAccess)

/-- The value of a chain of `depth` single-field structs around `v`. -/
def wrapVal : Nat → DVal → DVal
  | 0, v => v
  | depth + 1, v => .struct [wrapVal depth v]

/-- The outcome of a chain of `depth` single-field structs around a destination. -/
def nestOutcome (depth : Nat) : Outcome → Outcome
  | .ok v => .ok (wrapVal depth v)
  | .abort e v => .abort e (wrapVal depth v)

/-- The struct `Inner` with the field `Value int` tagged `${v}`. -/
def exInner : Ty := .struct "Inner".toList [(taggedField "Value".toList "v".toList, tyInt)]

/-- The struct `Outer` with the untagged field `Inner Inner`. -/
def exOuter : Ty := .struct "Outer".toList [(plainField "Inner".toList, exInner)]

/-- The struct `T` with the field `X int` tagged `${x}`. -/
def exConvT : Ty := .struct "T".toList [(taggedField "X".toList "x".toList, tyInt)]

/-- The struct `Outer` with the untagged field `T T`. -/
def exConvOuter : Ty := .struct "Outer".toList [(plainField "T".toList, exConvT)]

/-- A registry with a converter for the struct type `T`. -/
def exConverters : TypeConverters := fun t =>
  match t with
  | .struct n _ => if n = "T".toList then some (fun _ => some DVal.other) else none
  | _ => none

/-- The struct `Item` with the fields `Name string` tagged `${name}` and `Age int` tagged
`${age}`. -/
def exItem : Ty :=
  .struct "Item".toList
    [(taggedField "Name".toList "name".toList, tyString),
     (taggedField "Age".toList "age".toList, tyInt)]

/-- The store with `items = [{name: foo, age: 3}, {name: bar, age: 4}]`. -/
def exItems : defaultProperties :=
  ⟨[("items".toList,
      Value.seq
        [Value.map [("name".toList, Value.str "foo".toList), ("age".toList, Value.int 3)],
         Value.map [("name".toList, Value.str "bar".toList), ("age".toList, Value.int 4)]])]⟩

/-- The option under which element `i` of a slice of structs bound under `propName` is
bound. -/
def elemOption (propName : Str) (i : Nat) (opt : bindOption) : bindOption :=
  { propNamePrefix := [], fullPropName := indexName propName i,
    fieldName := opt.fieldName, allAccess := opt.allAccess }

/-- The flattened key `K.s.f`. -/
def flatKey (K s f : Str) : Str := K ++ ['.'] ++ s ++ ['.'] ++ f

/-- The entries `K.s.f = v` of a store, for the triples `(s, f, v)` in the order given. -/
def flatten (K : Str) (ps : List (Str × Str × Value)) : GoMap Value :=
  ps.map (fun t => (flatKey K t.1 t.2.1, t.2.2))

/-- The distinct elements of a list, in the order of their first occurrence. -/
def firstOcc (xs : List Str) : List Str :=
  xs.foldl (fun acc x => if x ∈ acc then acc else acc ++ [x]) []

/-- The distinct `s` of the triples `(s, f, v)`. -/
def subKeys (ps : List (Str × Str × Value)) : List Str := firstOcc (ps.map (fun t => t.1))

/-- The bucket of `s`: the entries `f = v` of the triples `(s, f, v)`. -/
def bucketOf (ps : List (Str × Str × Value)) (s : Str) : GoMap Value :=
  (ps.filter (fun t => decide (t.1 = s))).map (fun t => (t.2.1, t.2.2))

/-- The buckets of the triples, by their `s`. -/
def groups (ps : List (Str × Str × Value)) : GoMap (GoMap Value) :=
  (subKeys ps).map (fun s => (s, bucketOf ps s))

/-- The effect of one round of the regrouping loop on the entry `K.s.f = v`. -/
def groupStep (temp : GoMap (GoMap Value)) (t : Str × Str × Value) : GoMap (GoMap Value) :=
  GoMap.assign
    (match GoMap.find temp t.1 with
      | some _ => temp
      | none => GoMap.assign temp t.1 [])
    t.1 (GoMap.assign ((GoMap.find temp t.1).getD []) t.2.1 t.2.2)

/-- The option under which the element of key `s` of a map of structs bound under `propName`
is bound. -/
def bucketOption (propName s : Str) (opt : bindOption) : bindOption :=
  { propNamePrefix := [], fullPropName := propName ++ ['.'] ++ s,
    fieldName := opt.fieldName, allAccess := opt.allAccess }

/-- The binding of a fresh element of the struct type `E` against the bucket of `s`. -/
def bucketOutcome (tc : TypeConverters) (E : Ty) (K : Str) (ps : List (Str × Str × Value))
    (opt : bindOption) (s : Str) : Outcome :=
  bindStruct tc (defaultProperties.asProperties ⟨bucketOf ps s⟩) E noRO (zeroVal E)
    (bucketOption K s opt)

/-- The struct `Pair` with the fields `X int` tagged `${x}` and `Y int` tagged `${y}`. -/
def exPair : Ty :=
  .struct "Pair".toList
    [(taggedField "X".toList "x".toList, tyInt), (taggedField "Y".toList "y".toList, tyInt)]

/-- The entries `a.x = 1, a.y = 2, b.x = 3, b.y = 4` as triples. -/
def exSettingsTriples : List (Str × Str × Value) :=
  [("a".toList, "x".toList, Value.int 1), ("a".toList, "y".toList, Value.int 2),
   ("b".toList, "x".toList, Value.int 3), ("b".toList, "y".toList, Value.int 4)]

/-- The store `settings.a.x = 1, settings.a.y = 2, settings.b.x = 3, settings.b.y = 4`. -/
def exSettings : defaultProperties :=
  ⟨[("settings.a.x".toList, Value.int 1), ("settings.a.y".toList, Value.int 2),
    ("settings.b.x".toList, Value.int 3), ("settings.b.y".toList, Value.int 4)]⟩

/-- The same store, enumerated in the opposite order. -/
def exSettingsReversed : defaultProperties :=
  ⟨[("settings.b.y".toList, Value.int 4), ("settings.b.x".toList, Value.int 3),
    ("settings.a.y".toList, Value.int 2), ("settings.a.x".toList, Value.int 1)]⟩

/-- The map that binding a map of structs under `K` yields when every bucket binds: one
entry for each distinct `s`, the element bound against the bucket of `s`. -/
def mapOfStructResult (tc : TypeConverters) (E : Ty) (K : Str) (ps : List (Str × Str × Value))
    (opt : bindOption) : GoMap DVal :=
  (subKeys ps).map (fun s => (s, (bucketOutcome tc E K ps opt s).dest))

/-- The store with the nested value
`settings = {a: {x: 1, y: 2}, b: {x: 3, y: 4}}`. -/
def exSettingsNested : defaultProperties :=
  ⟨[("settings".toList,
      Value.map
        [("a".toList, Value.map [("x".toList, Value.int 1), ("y".toList, Value.int 2)]),
         ("b".toList, Value.map [("x".toList, Value.int 3), ("y".toList, Value.int 4)])])]⟩

/-- The predeclared type `uint32`. -/
def tyUint32 : Ty := .basic "uint32".toList .uint32

/-- A registry with a converter for every map type. -/
def exMapConverters : TypeConverters := fun t =>
  match t with
  | .map _ _ _ => some (fun _ => some (DVal.map []))
  | _ => none

/-- A registry with a converter for every slice type. -/
def exSliceConverters : TypeConverters := fun t =>
  match t with
  | .slice _ _ => some (fun _ => some (DVal.slice []))
  | _ => none

/-- The pointer type `*int`. -/
def tyIntPtr : Ty := .basic "*int".toList .ptr

/-- The struct of type name `E` with the single field `X int` tagged `${x}`. -/
def exOnlyX : Ty := .struct "E".toList [(taggedField "X".toList "x".toList, tyInt)]

/-- The store `m.a.x.p = 1, m.a.x.q = 2`. -/
def exDeep : defaultProperties :=
  ⟨[("m.a.x.p".toList, Value.int 1), ("m.a.x.q".toList, Value.int 2)]⟩

/-- The same store, enumerated in the opposite order. -/
def exDeepSwapped : defaultProperties :=
  ⟨[("m.a.x.q".toList, Value.int 2), ("m.a.x.p".toList, Value.int 1)]⟩

/-- The store `db.host = h, db.port = p`. -/
def exDb : defaultProperties :=
  ⟨[("db.host".toList, Value.str "h".toList), ("db.port".toList, Value.str "p".toList)]⟩

/-- The type `map[string]string`. -/
def tyStringMap : Ty := .map [] tyString tyString

/-- The struct `ItemN` with the single field `Name string` tagged `${name}`. -/
def exItemLower : Ty :=
  .struct "ItemN".toList [(taggedField "Name".toList "name".toList, tyString)]

/-- The struct `ItemN` with the single field `Name string` tagged `${Name}`. -/
def exItemUpper : Ty :=
  .struct "ItemN".toList [(taggedField "Name".toList "Name".toList, tyString)]

/-- The store `items = [{Name: foo}]`, the key of the element map in upper case. -/
def exItemsUpperKey : defaultProperties :=
  ⟨[("items".toList, Value.seq [Value.map [("Name".toList, Value.str "foo".toList)]])]⟩

/-- The store `items = [{name: foo}]`. -/
def exItemsLowerKey : defaultProperties :=
  ⟨[("items".toList, Value.seq [Value.map [("name".toList, Value.str "foo".toList)]])]⟩

/-! ## The depth of the recursion

The nesting depth of a type, and the depth of the chain of nested calls of `bindValue`,
`bindStruct` and `bindStructField` that a call opens. The depth functions follow the calls of
the binder one by one: a loop goes on to its next round only when the call of the round
before has returned, which the outcomes of `bindValue` and `bindStruct` tell. -/

mutual
/-- The nesting depth of a type: 0 for a type without component, and one more than the
deepest component for a slice, a map or a struct. -/
def Ty.depth : Ty → Nat
  | .basic _ _ => 0
  | .slice _ elem => elem.depth + 1
  | .map _ key elem => max key.depth elem.depth + 1
  | .struct _ fields => fieldsDepth fields + 1
/-- The depth of the deepest field type of a list of fields. -/
def fieldsDepth : List (StructField × Ty) → Nat
  | [] => 0
  | (_, t) :: rest => max t.depth (fieldsDepth rest)
end

/-- The deepest chain of calls opened by the loop of the slice-of-struct branch:
`elemDepth sv i` is the depth of the call `bindElem sv i`, and the loop stops at the first
element that is no map or whose call aborts. -/
def sliceElemsDepth (bindElem : GoMap Value → Nat → Outcome)
    (elemDepth : GoMap Value → Nat → Nat) : List Value → Nat → Nat
  | [], _ => 0
  | si :: rest, i =>
    match cast.ToStringMapE si with
    | none => 0
    | some sv =>
      match bindElem sv i with
      | .abort _ _ => elemDepth sv i
      | .ok _ => max (elemDepth sv i) (sliceElemsDepth bindElem elemDepth rest (i + 1))

/-- The deepest chain of calls opened by the second loop of the map-of-struct branch. -/
def mapElemsDepth (bindElem : Str → GoMap Value → Outcome)
    (elemDepth : Str → GoMap Value → Nat) (keyOk : Bool) : GoMap (GoMap Value) → Nat
  | [] => 0
  | (k1, v1) :: rest =>
    match bindElem k1 v1 with
    | .abort _ _ => elemDepth k1 v1
    | .ok _ =>
      if keyOk then max (elemDepth k1 v1) (mapElemsDepth bindElem elemDepth keyOk rest)
      else elemDepth k1 v1

/-- The deepest chain of calls opened by the case `reflect.Slice` of `bindValue`: only the
branch of an element without converter that is no scalar calls `bindStruct`. -/
def sliceCaseDepth (tc : TypeConverters) (elemType : Ty) (propValue : Value)
    (bindElem : GoMap Value → Nat → Outcome) (elemDepth : GoMap Value → Nat → Nat) : Nat :=
  match elemType.cls with
  | .other =>
    match tc elemType with
    | some _ => 0
    | none =>
      match propValue with
      | .seq s => sliceElemsDepth bindElem elemDepth s 0
      | _ => 0
  | _ => 0

/-- The deepest chain of calls opened by the case `reflect.Map` of `bindValue`. -/
def mapCaseDepth (tc : TypeConverters) (keyType elemType : Ty) (propName : Str)
    (propValue : Value) (bindElem : Str → GoMap Value → Outcome)
    (elemDepth : Str → GoMap Value → Nat) : Nat :=
  if keyType.cls ≠ .string then 0
  else
    match elemType.cls with
    | .other =>
      match tc elemType with
      | some _ => 0
      | none =>
        match cast.ToStringMapE propValue with
        | some mapValue =>
          match regroup (propName ++ ['.']) mapValue [] with
          | .error _ => 0
          | .ok temp =>
            mapElemsDepth bindElem elemDepth (keyType.isPredeclared "string".toList .string) temp
        | none => 0
    | _ => 0

/-- The deepest chain of calls opened by one round of the loop of `bindStruct` and by the
rounds after it (`next`): a tagged field opens a call of `bindStructField`, which calls
`bindValue` (of depth `tagDepth`) when the tag is well formed; an untagged field that is
embedded or of struct kind opens a call of `bindStruct` (of depth `structDepth`). -/
def fieldRoundDepth (ft : StructField) (t : Ty) (ro : Flags) (vs : List DVal)
    (opt : bindOption)
    (viaTag : Flags → DVal → Str → Option Str → bindOption → Outcome)
    (tagDepth : Flags → DVal → Str → Option Str → bindOption → Nat)
    (viaStruct : Flags → DVal → bindOption → Outcome)
    (structDepth : Flags → DVal → bindOption → Nat) (next : Nat) : Nat :=
  match ft.Tag with
  | some tag =>
    match bindStructFieldArgs t.isPtr tag (subOption opt ft) with
    | .error _ => 1
    | .ok (propName, defaultValue, opt1) =>
      match viaTag (ValuePatchIf (fieldFlags ro ft) opt.allAccess) (vs.headD (zeroVal t))
          propName defaultValue opt1 with
      | .abort _ _ =>
        1 + tagDepth (ValuePatchIf (fieldFlags ro ft) opt.allAccess) (vs.headD (zeroVal t))
          propName defaultValue opt1
      | .ok _ =>
        max (1 + tagDepth (ValuePatchIf (fieldFlags ro ft) opt.allAccess)
          (vs.headD (zeroVal t)) propName defaultValue opt1) next
  | none =>
    if ft.Anonymous || t.isStruct then
      match viaStruct (ValuePatchIf (fieldFlags ro ft) opt.allAccess) (vs.headD (zeroVal t))
          (subOption opt ft) with
      | .abort _ _ =>
        structDepth (ValuePatchIf (fieldFlags ro ft) opt.allAccess) (vs.headD (zeroVal t))
          (subOption opt ft)
      | .ok _ =>
        max (structDepth (ValuePatchIf (fieldFlags ro ft) opt.allAccess)
          (vs.headD (zeroVal t)) (subOption opt ft)) next
    else next

mutual
/-- The depth of the call `bindValue` on a destination of type `t`: the number of calls of
`bindValue`, `bindStruct` and `bindStructField` on the longest chain of nested calls it
opens, itself included. -/
def bindValueDepth (tc : TypeConverters) (p : Properties) (t : Ty) (ro : Flags) (v : DVal)
    (propName : Str) (defaultValue : Option Str) (opt : bindOption) : Nat :=
  match t with
  | .struct name fields =>
    match tc (.struct name fields) with
    | some _ => 1
    | none =>
      match defaultValue with
      | some _ => 1
      | none =>
        1 + (1 + bindFieldsDepth tc p fields ro v.fieldsOf
          { propNamePrefix := propName, fullPropName := opt.fullPropName,
            fieldName := opt.fieldName, allAccess := opt.allAccess })
  | .basic _ _ => 1
  | .slice name elemType =>
    match tc (.slice name elemType) with
    | some _ => 1
    | none =>
      match getPropValue p propName defaultValue opt with
      | .error _ => 1
      | .ok propValue =>
        1 + sliceCaseDepth tc elemType propValue
          (fun sv i =>
            bindStruct tc (defaultProperties.asProperties ⟨sv⟩) elemType noRO (zeroVal elemType)
              { propNamePrefix := [], fullPropName := indexName propName i,
                fieldName := opt.fieldName, allAccess := opt.allAccess })
          (fun sv i =>
            match elemType with
            | .struct _ efields =>
              1 + bindFieldsDepth tc (defaultProperties.asProperties ⟨sv⟩) efields noRO
                (zeroFields efields)
                { propNamePrefix := [], fullPropName := indexName propName i,
                  fieldName := opt.fieldName, allAccess := opt.allAccess }
            | _ => 1)
  | .map name keyType elemType =>
    match tc (.map name keyType elemType) with
    | some _ => 1
    | none =>
      match getPropValue p propName defaultValue opt with
      | .error _ => 1
      | .ok propValue =>
        1 + mapCaseDepth tc keyType elemType propName propValue
          (fun k1 v1 =>
            bindStruct tc (defaultProperties.asProperties ⟨v1⟩) elemType noRO (zeroVal elemType)
              { propNamePrefix := [], fullPropName := propName ++ ['.'] ++ k1,
                fieldName := opt.fieldName, allAccess := opt.allAccess })
          (fun k1 v1 =>
            match elemType with
            | .struct _ efields =>
              1 + bindFieldsDepth tc (defaultProperties.asProperties ⟨v1⟩) efields noRO
                (zeroFields efields)
                { propNamePrefix := [], fullPropName := propName ++ ['.'] ++ k1,
                  fieldName := opt.fieldName, allAccess := opt.allAccess }
            | _ => 1)
/-- The deepest chain of calls opened by the loop of `bindStruct` over the fields of a
struct type; the call of `bindStruct` itself is one more. -/
def bindFieldsDepth (tc : TypeConverters) (p : Properties) (fields : List (StructField × Ty))
    (ro : Flags) (vs : List DVal) (opt : bindOption) : Nat :=
  match fields with
  | [] => 0
  | (ft, t) :: rest =>
    fieldRoundDepth ft t ro vs opt
      (fun fro fv propName defaultValue opt1 =>
        bindValue tc p t fro fv propName defaultValue opt1)
      (fun fro fv propName defaultValue opt1 =>
        bindValueDepth tc p t fro fv propName defaultValue opt1)
      (fun fro fv subOpt => bindStruct tc p t fro fv subOpt)
      (fun fro fv subOpt =>
        match t with
        | .struct _ sub => 1 + bindFieldsDepth tc p sub fro fv.fieldsOf subOpt
        | _ => 1)
      (bindFieldsDepth tc p rest ro vs.tail opt)
end

/-- The depth of the call `bindStruct` on a destination of type `t`; on a type that is no
struct the call panics at `NumField` and opens no other call. -/
def bindStructDepth (tc : TypeConverters) (p : Properties) (t : Ty) (ro : Flags) (v : DVal)
    (opt : bindOption) : Nat :=
  match t with
  | .struct _ fields => 1 + bindFieldsDepth tc p fields ro v.fieldsOf opt
  | _ => 1

/-- The depth of the call `bindStructField`: the call itself, and the call of `bindValue` it
makes when the tag is well formed. -/
def bindStructFieldDepth (tc : TypeConverters) (p : Properties) (t : Ty) (ro : Flags)
    (v : DVal) (tag : Str) (opt : bindOption) : Nat :=
  match bindStructFieldArgs t.isPtr tag opt with
  | .error _ => 1
  | .ok (propName, defaultValue, opt1) =>
    1 + bindValueDepth tc p t ro v propName defaultValue opt1

/-! ## The binder under a budget of nested calls

The same functions, where every call of `bindValue`, `bindStruct` and `bindStructField`
takes one unit of a budget `fuel` and hands the rest to the calls it makes: the result is
`none` when a chain of nested calls is longer than the budget, and the outcome of the call
otherwise. Recursion is on the budget, so each function reads the registry and the kind of
the type in the order of the source. -/

/-- The loop of the slice-of-struct branch, the call of `bindStruct` being under a budget. -/
def bindSliceElemsFuel (bindElem : GoMap Value → Nat → Option Outcome) (fullPropName : Str) :
    List Value → Nat → Option (Except Err (List DVal))
  | [], _ => some (.ok [])
  | si :: rest, i =>
    match cast.ToStringMapE si with
    | none => some (.error (Err.notSliceOfMaps fullPropName))
    | some sv =>
      match bindElem sv i with
      | none => none
      | some (.abort e _) => some (.error e)
      | some (.ok ev) =>
        match bindSliceElemsFuel bindElem fullPropName rest (i + 1) with
        | none => none
        | some (.error e) => some (.error e)
        | some (.ok evs) => some (.ok (ev :: evs))

/-- The second loop of the map-of-struct branch, the call of `bindStruct` being under a
budget. -/
def bindMapElemsFuel (bindElem : Str → GoMap Value → Option Outcome) (keyOk : Bool) :
    GoMap (GoMap Value) → GoMap DVal → Option (Except Err (GoMap DVal))
  | [], result => some (.ok result)
  | (k1, v1) :: rest, result =>
    match bindElem k1 v1 with
    | none => none
    | some (.abort e _) => some (.error e)
    | some (.ok ev) =>
      if keyOk then bindMapElemsFuel bindElem keyOk rest (GoMap.assign result k1 ev)
      else some (.error Err.reflectPanic)

/-- The case `reflect.Slice` of `bindValue`, the call of `bindStruct` being under a
budget. -/
def bindSliceCaseFuel (tc : TypeConverters) (elemType : Ty) (ro : Flags) (v : DVal)
    (propValue : Value) (opt : bindOption) (bindElem : GoMap Value → Nat → Option Outcome) :
    Option Outcome :=
  match elemType.cls with
  | .uint => some (.abort Err.notSupported v)
  | .int =>
    some (setValue ro (elemType.isPredeclared "int".toList .int) v
      (.slice ((cast.ToIntSlice propValue).map DVal.int)))
  | .float => some (.abort Err.notSupported v)
  | .string =>
    some (setValue ro (elemType.isPredeclared "string".toList .string) v
      (.slice ((cast.ToStringSlice propValue).map DVal.str)))
  | .bool =>
    some (setValue ro (elemType.isPredeclared "bool".toList .bool) v
      (.slice ((cast.ToBoolSlice propValue).map DVal.bool)))
  | .other =>
    match tc elemType with
    | some fn =>
      match convertAll fn (cast.ToStringSlice propValue) with
      | .error e => some (.abort e v)
      | .ok sv => some (setValue ro true v (.slice sv))
    | none =>
      match propValue with
      | .seq s =>
        match bindSliceElemsFuel bindElem opt.fullPropName s 0 with
        | none => none
        | some (.error e) => some (.abort e v)
        | some (.ok result) => some (setValue ro true v (.slice result))
      | _ => some (.abort (Err.notSliceOfMaps opt.fullPropName) v)

/-- The case `reflect.Map` of `bindValue`, the call of `bindStruct` being under a budget. -/
def bindMapCaseFuel (tc : TypeConverters) (keyType elemType : Ty) (ro : Flags) (v : DVal)
    (propName : Str) (propValue : Value) (opt : bindOption)
    (bindElem : Str → GoMap Value → Option Outcome) : Option Outcome :=
  if keyType.cls ≠ .string then some (.abort (Err.notStringKeyed opt.fieldName) v)
  else
    match elemType.cls with
    | .uint => some (.abort Err.notSupported v)
    | .int => some (.abort Err.notSupported v)
    | .float => some (.abort Err.notSupported v)
    | .bool => some (.abort Err.notSupported v)
    | .string =>
      match cast.ToStringMapStringE propValue with
      | some mapValue =>
        some (setValue ro
          (keyType.isPredeclared "string".toList .string
            && elemType.isPredeclared "string".toList .string) v
          (.map (trimKeys (propName ++ ['.']) mapValue [])))
      | none => some (.abort (Err.notStringMap opt.fullPropName) v)
    | .other =>
      match tc elemType with
      | some fn =>
        match cast.ToStringMapStringE propValue with
        | some mapValue =>
          match convertMap fn (propName ++ ['.'])
              (keyType.isPredeclared "string".toList .string) mapValue [] with
          | .error e => some (.abort e v)
          | .ok result => some (setValue ro true v (.map result))
        | none => some (.abort (Err.notStringMap opt.fullPropName) v)
      | none =>
        match cast.ToStringMapE propValue with
        | some mapValue =>
          match regroup (propName ++ ['.']) mapValue [] with
          | .error e => some (.abort e v)
          | .ok temp =>
            match bindMapElemsFuel bindElem (keyType.isPredeclared "string".toList .string)
                temp [] with
            | none => none
            | some (.error e) => some (.abort e v)
            | some (.ok result) => some (setValue ro true v (.map result))
        | none => some (.abort (Err.notMapOfMaps opt.fullPropName) v)

/-- One round of the loop of `bindStruct` under a budget: `viaField` is the call of
`bindStructField`, `viaStruct` the call of `bindStruct`, and `next` what the rounds of the
later fields do. -/
def fieldRoundFuel (ft : StructField) (t : Ty) (ro : Flags) (vs : List DVal)
    (opt : bindOption) (viaField : Flags → DVal → Str → bindOption → Option Outcome)
    (viaStruct : Flags → DVal → bindOption → Option Outcome)
    (next : Option FieldsOutcome) : Option FieldsOutcome :=
  match ft.Tag with
  | some tag =>
    match viaField (ValuePatchIf (fieldFlags ro ft) opt.allAccess) (vs.headD (zeroVal t)) tag
        (subOption opt ft) with
    | none => none
    | some (.abort e fv1) => some (some e, fv1 :: vs.tail)
    | some (.ok fv1) =>
      match next with
      | none => none
      | some nx => some (nx.1, fv1 :: nx.2)
  | none =>
    if ft.Anonymous || t.isStruct then
      match viaStruct (ValuePatchIf (fieldFlags ro ft) opt.allAccess) (vs.headD (zeroVal t))
          (subOption opt ft) with
      | none => none
      | some (.abort e fv1) => some (some e, fv1 :: vs.tail)
      | some (.ok fv1) =>
        match next with
        | none => none
        | some nx => some (nx.1, fv1 :: nx.2)
    else
      match next with
      | none => none
      | some nx => some (nx.1, vs.headD (zeroVal t) :: nx.2)

/-- The loop of `bindStruct` over the fields under a budget: `callField t` is the call of
`bindStructField` and `callStruct t` the call of `bindStruct` on a field of type `t`. -/
def bindFieldsFuel (callField : Ty → Flags → DVal → Str → bindOption → Option Outcome)
    (callStruct : Ty → Flags → DVal → bindOption → Option Outcome) :
    List (StructField × Ty) → Flags → List DVal → bindOption → Option FieldsOutcome
  | [], _, vs, _ => some (none, vs)
  | (ft, t) :: rest, ro, vs, opt =>
    fieldRoundFuel ft t ro vs opt (callField t) (callStruct t)
      (bindFieldsFuel callField callStruct rest ro vs.tail opt)

mutual
/-- The function `bindValue` under the budget `fuel`. -/
def bindValueFuel (tc : TypeConverters) : Nat → Properties → Ty → Flags → DVal → Str →
    Option Str → bindOption → Option Outcome
  | 0, _, _, _, _, _, _, _ => none
  | fuel + 1, p, t, ro, v, propName, defaultValue, opt =>
    match tc t with
    | some fn => some (bindConverted fn p ro v propName defaultValue opt)
    | none =>
      match t with
      | .struct _ _ =>
        match defaultValue with
        | some _ => some (.abort (Err.structDefault opt.fieldName) v)
        | none =>
          bindStructFuel tc fuel p t ro v
            { propNamePrefix := propName, fullPropName := opt.fullPropName,
              fieldName := opt.fieldName, allAccess := opt.allAccess }
      | .basic _ k =>
        match getPropValue p propName defaultValue opt with
        | .error e => some (.abort e v)
        | .ok propValue => some (bindBasic k ro v propValue opt)
      | .slice _ elemType =>
        match getPropValue p propName defaultValue opt with
        | .error e => some (.abort e v)
        | .ok propValue =>
          bindSliceCaseFuel tc elemType ro v propValue opt
            (fun sv i =>
              bindStructFuel tc fuel (defaultProperties.asProperties ⟨sv⟩) elemType noRO
                (zeroVal elemType)
                { propNamePrefix := [], fullPropName := indexName propName i,
                  fieldName := opt.fieldName, allAccess := opt.allAccess })
      | .map _ keyType elemType =>
        match getPropValue p propName defaultValue opt with
        | .error e => some (.abort e v)
        | .ok propValue =>
          bindMapCaseFuel tc keyType elemType ro v propName propValue opt
            (fun k1 v1 =>
              bindStructFuel tc fuel (defaultProperties.asProperties ⟨v1⟩) elemType noRO
                (zeroVal elemType)
                { propNamePrefix := [], fullPropName := propName ++ ['.'] ++ k1,
                  fieldName := opt.fieldName, allAccess := opt.allAccess })
/-- The function `bindStruct` under the budget `fuel`. -/
def bindStructFuel (tc : TypeConverters) : Nat → Properties → Ty → Flags → DVal →
    bindOption → Option Outcome
  | 0, _, _, _, _, _ => none
  | fuel + 1, p, t, ro, v, opt =>
    match t with
    | .struct _ fields =>
      match bindFieldsFuel (fun fty fro fv tag subOpt =>
            bindStructFieldFuel tc fuel p fty fro fv tag subOpt)
          (fun fty fro fv subOpt => bindStructFuel tc fuel p fty fro fv subOpt)
          fields ro v.fieldsOf opt with
      | none => none
      | some r => some (structOutcome r)
    | _ => some (.abort Err.reflectPanic v)
/-- The function `bindStructField` under the budget `fuel`. -/
def bindStructFieldFuel (tc : TypeConverters) : Nat → Properties → Ty → Flags → DVal → Str →
    bindOption → Option Outcome
  | 0, _, _, _, _, _, _ => none
  | fuel + 1, p, t, ro, v, tag, opt =>
    match bindStructFieldArgs t.isPtr tag opt with
    | .error e => some (.abort e v)
    | .ok (propName, defaultValue, opt1) =>
      bindValueFuel tc fuel p t ro v propName defaultValue opt1
end

/-! ## A type declared in terms of itself -/

/-- A struct type whose declaration mentions the declared type: `fields self` are the
fields of the declaration, `self` standing for the declared type. -/
structure RecStruct where
  name : Str
  fields : Ty → List (StructField × Ty)

/-- The declaration unfolded `k` times. `reflect` answers for the declared type as for an
unfolding, down to the place where the unfolding stops (a struct of the same name without
fields); a run of the binder that gives the same result on every deeper unfolding has not
looked past that place. -/
def RecStruct.unfold (d : RecStruct) : Nat → Ty
  | 0 => .struct d.name []
  | k + 1 => .struct d.name (d.fields (d.unfold k))

/-- The declaration `type Node struct { Kids []Node "value:${kids}" }`. -/
def exNode : RecStruct :=
  { name := "Node".toList,
    fields := fun self => [(taggedField "Kids".toList "kids".toList, .slice [] self)] }

/-- The value that nests `n` levels: `[]` for 0 and `[{kids: the value of n}]` for `n + 1`. -/
def exKids : Nat → Value
  | 0 => .seq []
  | n + 1 => .seq [.map [("kids".toList, exKids n)]]

/-- The store with the single entry `kids`, whose value nests `n` levels. -/
def exKidsStore (n : Nat) : defaultProperties := ⟨[("kids".toList, exKids n)]⟩

/-- The slice of `Node` that the value of `n` levels binds to. -/
def exKidsResult : Nat → DVal
  | 0 => .slice []
  | n + 1 => .slice [.struct [exKidsResult n]]
/-! ## Lemmas on Go maps -/

namespace GoMap

variable {α : Type}

theorem find_nil (k : Str) : find ([] : GoMap α) k = none := rfl

theorem find_cons (k0 : Str) (v0 : α) (rest : GoMap α) (k : Str) :
    find ((k0, v0) :: rest) k = if k0 = k then some v0 else find rest k := rfl

theorem assign_nil (k : Str) (v : α) : assign ([] : GoMap α) k v = [(k, v)] := rfl

theorem assign_cons (k0 : Str) (v0 : α) (rest : GoMap α) (k : Str) (v : α) :
    assign ((k0, v0) :: rest) k v
      = if k0 = k then (k, v) :: rest else (k0, v0) :: assign rest k v := rfl

theorem keys_nil : keys ([] : GoMap α) = [] := rfl

theorem keys_cons (e : Str × α) (rest : GoMap α) : keys (e :: rest) = e.1 :: keys rest := rfl

theorem keys_append (m1 m2 : GoMap α) : keys (m1 ++ m2) = keys m1 ++ keys m2 := by
  simp [keys]

theorem find_assign_self (m : GoMap α) (k : Str) (v : α) : find (assign m k v) k = some v := by
  induction m with
  | nil => rw [assign_nil, find_cons, if_pos rfl]
  | cons e rest ih =>
    obtain ⟨k0, v0⟩ := e
    rw [assign_cons]
    by_cases h : k0 = k
    · rw [if_pos h, find_cons, if_pos rfl]
    · rw [if_neg h, find_cons, if_neg h, ih]

theorem find_assign_of_ne (m : GoMap α) (k k1 : Str) (v : α) (h : k ≠ k1) :
    find (assign m k v) k1 = find m k1 := by
  induction m with
  | nil => rw [assign_nil, find_cons, if_neg h]
  | cons e rest ih =>
    obtain ⟨k0, v0⟩ := e
    rw [assign_cons]
    by_cases h0 : k0 = k
    · rw [if_pos h0, find_cons, if_neg h, find_cons, if_neg (h0 ▸ h)]
    · rw [if_neg h0, find_cons, find_cons, ih]

theorem find_eq_none_iff (m : GoMap α) (k : Str) : find m k = none ↔ k ∉ keys m := by
  induction m with
  | nil => simp [find_nil, keys_nil]
  | cons e rest ih =>
    obtain ⟨k0, v0⟩ := e
    rw [find_cons, keys_cons, List.mem_cons, not_or]
    by_cases h : k0 = k
    · rw [if_pos h]
      constructor
      · intro h1
        cases h1
      · intro h1
        exact absurd h.symm h1.1
    · rw [if_neg h, ih]
      constructor
      · intro h1
        exact ⟨fun h2 => h h2.symm, h1⟩
      · intro h1
        exact h1.2

theorem mem_of_find_eq_some (m : GoMap α) (k : Str) (v : α) (h : find m k = some v) :
    (k, v) ∈ m := by
  induction m with
  | nil => cases h
  | cons e rest ih =>
    obtain ⟨k0, v0⟩ := e
    rw [find_cons] at h
    by_cases h0 : k0 = k
    · rw [if_pos h0] at h
      cases h
      rw [h0]
      exact List.mem_cons_self _ _
    · rw [if_neg h0] at h
      exact List.mem_cons_of_mem _ (ih h)

theorem mem_keys_of_mem (m : GoMap α) (k : Str) (v : α) (h : (k, v) ∈ m) : k ∈ keys m :=
  List.mem_map_of_mem Prod.fst h

theorem find_eq_some_of_mem (m : GoMap α) (k : Str) (v : α) (hnd : (keys m).Nodup)
    (h : (k, v) ∈ m) : find m k = some v := by
  induction m with
  | nil => cases h
  | cons e rest ih =>
    obtain ⟨k0, v0⟩ := e
    rw [keys_cons, List.nodup_cons] at hnd
    rw [find_cons]
    rcases List.mem_cons.1 h with h1 | h1
    · cases h1
      rw [if_pos rfl]
    · have hk : k0 ≠ k := by
        intro h2
        apply hnd.1
        rw [h2]
        exact mem_keys_of_mem _ _ _ h1
      rw [if_neg hk]
      exact ih hnd.2 h1

theorem assign_of_not_mem (m : GoMap α) (k : Str) (v : α) (h : k ∉ keys m) :
    assign m k v = m ++ [(k, v)] := by
  induction m with
  | nil => rfl
  | cons e rest ih =>
    obtain ⟨k0, v0⟩ := e
    rw [keys_cons, List.mem_cons, not_or] at h
    have h0 : ¬ k0 = k := fun h2 => h.1 h2.symm
    rw [assign_cons, if_neg h0, ih h.2]
    rfl

theorem keys_assign_of_mem (m : GoMap α) (k : Str) (v : α) (h : k ∈ keys m) :
    keys (assign m k v) = keys m := by
  induction m with
  | nil => cases h
  | cons e rest ih =>
    obtain ⟨k0, v0⟩ := e
    rw [assign_cons]
    by_cases h0 : k0 = k
    · rw [if_pos h0, keys_cons, keys_cons, h0]
    · rw [keys_cons, List.mem_cons] at h
      rcases h with h | h
      · exact absurd h.symm h0
      · rw [if_neg h0, keys_cons, keys_cons, ih h]

end GoMap

/-- With distinct keys, the loop of `GetPrefixProperties` keeps the matching entries in
their order. -/
theorem foldl_assign_filter (f : Str → Bool) (l acc : GoMap Value)
    (hnd : (GoMap.keys (acc ++ l)).Nodup) :
    l.foldl (fun result kv => if f kv.1 then GoMap.assign result kv.1 kv.2 else result) acc
      = acc ++ l.filter (fun kv => f kv.1) := by
  induction l generalizing acc with
  | nil => simp
  | cons e rest ih =>
    obtain ⟨k, v⟩ := e
    rw [GoMap.keys_append, GoMap.keys_cons, List.nodup_append] at hnd
    obtain ⟨hacc, hkr, hdis⟩ := hnd
    rw [List.nodup_cons] at hkr
    have hk : k ∉ GoMap.keys acc := fun hmem => hdis hmem (List.mem_cons_self _ _)
    have hdis2 : (GoMap.keys acc).Disjoint (GoMap.keys rest) :=
      fun a ha hb => hdis ha (List.mem_cons_of_mem _ hb)
    by_cases hf : f k = true
    · have hnd1 : (GoMap.keys ((acc ++ [(k, v)]) ++ rest)).Nodup := by
        rw [GoMap.keys_append, GoMap.keys_append, List.nodup_append]
        refine ⟨?_, hkr.2, ?_⟩
        · rw [List.nodup_append]
          refine ⟨hacc, List.nodup_singleton _, ?_⟩
          intro a ha hb
          rw [GoMap.keys_cons, GoMap.keys_nil, List.mem_singleton] at hb
          subst hb
          exact hk ha
        · intro a ha hb
          rcases List.mem_append.1 ha with h1 | h1
          · exact hdis2 h1 hb
          · rw [GoMap.keys_cons, GoMap.keys_nil, List.mem_singleton] at h1
            subst h1
            exact hkr.1 hb
      simp only [List.foldl_cons, hf, if_true, List.filter_cons]
      rw [GoMap.assign_of_not_mem _ _ _ hk, ih _ hnd1]
      simp
    · have hnd2 : (GoMap.keys (acc ++ rest)).Nodup := by
        rw [GoMap.keys_append, List.nodup_append]
        exact ⟨hacc, hkr.2, hdis2⟩
      simp only [List.foldl_cons, hf, List.filter_cons]
      simpa using ih acc hnd2

/-- With distinct keys, `GetPrefixProperties` is the filter of the store. -/
theorem GetPrefixProperties_eq_filter (p : defaultProperties) (pre : Str)
    (hnd : (GoMap.keys p.properties).Nodup) :
    (p.GetPrefixProperties pre).1
      = p.properties.filter (fun kv => defaultProperties.prefixMatch (Str.toLower pre) kv.1) := by
  have h := foldl_assign_filter (defaultProperties.prefixMatch (Str.toLower pre)) p.properties []
    (by simpa using hnd)
  simpa [defaultProperties.GetPrefixProperties] using h

theorem prefixMatch_iff (pre k : Str) :
    defaultProperties.prefixMatch pre k = true ↔ (k = pre ∨ (pre ++ ['.']) <+: k) := by
  simp [defaultProperties.prefixMatch, Str.hasPrefix, List.isPrefixOf_iff_prefix]

/-! ## The property store (C1, C2, C3) -/

/-- C1: the lookup of the property store is case-insensitive. For every store, value `v` and
keys `k1`, `k2` with equal lower-cased forms, `SetProperty(k1, v)` followed by
`GetProperty(k2)` returns `v`. -/
theorem SetProperty_GetProperty_caseInsensitive (p : defaultProperties) (k1 k2 : Str)
    (v : Value) (h : Str.toLower k1 = Str.toLower k2) :
    ((p.SetProperty k1 v).2.GetProperty k2).1 = v := by
  show (GoMap.find (GoMap.assign p.properties (Str.toLower k1) v) (Str.toLower k2)).getD
    Value.nil = v
  rw [← h, GoMap.find_assign_self]
  rfl

/-- C1 at `set("Foo.Bar", 1)` then `get("foo.bar")` on the empty store. -/
theorem SetProperty_GetProperty_caseInsensitive_witness :
    Str.toLower "Foo.Bar".toList = Str.toLower "foo.bar".toList ∧
    ((defaultProperties.NewDefaultProperties.SetProperty "Foo.Bar".toList (Value.int 1)).2.GetProperty
      "foo.bar".toList).1 = Value.int 1 :=
  ⟨by decide, SetProperty_GetProperty_caseInsensitive _ _ _ _ (by decide)⟩

/-- C2: for every store (a Go map, so with distinct keys) and every prefix,
`GetPrefixProperties(prefix)` returns exactly the entries of the store whose key equals
`lower(prefix)` or starts with `lower(prefix) + "."`: the entries of the result are those
entries of the store, indexing the result at such a key gives what the store gives and at
any other key gives nothing, and the store is left as it was. -/
theorem GetPrefixProperties_exact (p : defaultProperties) (pre : Str)
    (hnd : (GoMap.keys p.properties).Nodup) :
    (∀ k v, (k, v) ∈ (p.GetPrefixProperties pre).1 ↔
      ((k, v) ∈ p.properties ∧ (k = Str.toLower pre ∨ (Str.toLower pre ++ ['.']) <+: k))) ∧
    (∀ k, (k = Str.toLower pre ∨ (Str.toLower pre ++ ['.']) <+: k) →
      GoMap.find (p.GetPrefixProperties pre).1 k = GoMap.find p.properties k) ∧
    (∀ k, ¬ (k = Str.toLower pre ∨ (Str.toLower pre ++ ['.']) <+: k) →
      GoMap.find (p.GetPrefixProperties pre).1 k = none) ∧
    (p.GetPrefixProperties pre).2 = p := by
  have hmem : ∀ k v, (k, v) ∈ (p.GetPrefixProperties pre).1 ↔
      ((k, v) ∈ p.properties ∧ (k = Str.toLower pre ∨ (Str.toLower pre ++ ['.']) <+: k)) := by
    intro k v
    rw [GetPrefixProperties_eq_filter p pre hnd, List.mem_filter, prefixMatch_iff]
  have hnd2 : (GoMap.keys (p.GetPrefixProperties pre).1).Nodup := by
    rw [GetPrefixProperties_eq_filter p pre hnd]
    exact (List.filter_sublist _).map Prod.fst |>.nodup hnd
  refine ⟨hmem, ?_, ?_, rfl⟩
  · intro k hk
    cases hf : GoMap.find p.properties k with
    | none =>
      rw [GoMap.find_eq_none_iff] at hf ⊢
      intro hin
      obtain ⟨e, he, hek⟩ := List.mem_map.1 hin
      obtain ⟨k0, v0⟩ := e
      simp only at hek
      subst hek
      exact hf (GoMap.mem_keys_of_mem _ _ _ ((hmem _ _).1 he).1)
    | some v =>
      exact GoMap.find_eq_some_of_mem _ _ _ hnd2
        ((hmem k v).2 ⟨GoMap.mem_of_find_eq_some _ _ _ hf, hk⟩)
  · intro k hk
    rw [GoMap.find_eq_none_iff]
    intro hin
    obtain ⟨e, he, hek⟩ := List.mem_map.1 hin
    obtain ⟨k0, v0⟩ := e
    simp only at hek
    subst hek
    exact hk ((hmem _ _).1 he).2

/-- C2 on the store `ab = 1, a = 2, a.b = 3` and the prefix `a`: the key `ab` is not
returned. -/
theorem GetPrefixProperties_exact_witness :
    (GoMap.keys (defaultProperties.mk [("ab".toList, Value.int 1), ("a".toList, Value.int 2),
      ("a.b".toList, Value.int 3)]).properties).Nodup ∧
    GoMap.find ((defaultProperties.mk [("ab".toList, Value.int 1), ("a".toList, Value.int 2),
      ("a.b".toList, Value.int 3)]).GetPrefixProperties "a".toList).1 "ab".toList = none :=
  ⟨by decide,
   (GetPrefixProperties_exact
      (defaultProperties.mk [("ab".toList, Value.int 1), ("a".toList, Value.int 2),
        ("a.b".toList, Value.int 3)]) "a".toList (by decide)).2.2.1 "ab".toList (by decide)⟩

/-- C3: for every store, key and fallback, `GetDefaultProperty(key, fallback)` returns the
stored value and `true` when `lower(key)` is a key of the store, and the fallback and
`false` when it is not; the store is unchanged. -/
theorem GetDefaultProperty_spec (p : defaultProperties) (key : Str) (fallback : Value) :
    (Str.toLower key ∈ GoMap.keys p.properties →
      ∃ v, GoMap.find p.properties (Str.toLower key) = some v ∧
        p.GetDefaultProperty key fallback = ((v, true), p)) ∧
    (Str.toLower key ∉ GoMap.keys p.properties →
      p.GetDefaultProperty key fallback = ((fallback, false), p)) := by
  constructor
  · intro hin
    cases hf : GoMap.find p.properties (Str.toLower key) with
    | none => exact absurd hin ((GoMap.find_eq_none_iff _ _).1 hf)
    | some v => exact ⟨v, rfl, by simp [defaultProperties.GetDefaultProperty, hf]⟩
  · intro hout
    have hf := (GoMap.find_eq_none_iff _ _).2 hout
    simp [defaultProperties.GetDefaultProperty, hf]

/-- C3 on the store `a.b = 1`: the key `A.B` is found, the key `c` is not. -/
theorem GetDefaultProperty_spec_witness :
    (defaultProperties.mk [("a.b".toList, Value.int 1)]).GetDefaultProperty "A.B".toList
        (Value.int 9)
      = ((Value.int 1, true), defaultProperties.mk [("a.b".toList, Value.int 1)]) ∧
    (defaultProperties.mk [("a.b".toList, Value.int 1)]).GetDefaultProperty "c".toList
        (Value.int 9)
      = ((Value.int 9, false), defaultProperties.mk [("a.b".toList, Value.int 1)]) := by
  constructor
  · obtain ⟨v, hv, h⟩ := (GetDefaultProperty_spec
      (defaultProperties.mk [("a.b".toList, Value.int 1)]) "A.B".toList (Value.int 9)).1
      (by decide)
    have hv1 : v = Value.int 1 := by
      have h2 : GoMap.find [("a.b".toList, Value.int 1)] (Str.toLower "A.B".toList)
          = some (Value.int 1) := rfl
      exact Option.some.inj (hv.symm.trans h2)
    rw [h, hv1]
  · exact (GetDefaultProperty_spec
      (defaultProperties.mk [("a.b".toList, Value.int 1)]) "c".toList (Value.int 9)).2
      (by decide)

/-! ## Unfolding the binder -/

theorem bindValue_basic_eq (tc : TypeConverters) (p : Properties) (n : Str) (k : BasicKind)
    (ro : Flags) (v : DVal) (propName : Str) (dv : Option Str) (opt : bindOption) :
    bindValue tc p (.basic n k) ro v propName dv opt
      = match tc (.basic n k) with
        | some fn => bindConverted fn p ro v propName dv opt
        | none =>
          match getPropValue p propName dv opt with
          | .error e => .abort e v
          | .ok propValue => bindBasic k ro v propValue opt := rfl

theorem bindValue_struct_eq (tc : TypeConverters) (p : Properties) (n : Str)
    (fields : List (StructField × Ty)) (ro : Flags) (v : DVal) (propName : Str)
    (dv : Option Str) (opt : bindOption) :
    bindValue tc p (.struct n fields) ro v propName dv opt
      = match tc (.struct n fields) with
        | some fn => bindConverted fn p ro v propName dv opt
        | none =>
          match dv with
          | some _ => .abort (Err.structDefault opt.fieldName) v
          | none =>
            structOutcome (bindFields tc p fields ro v.fieldsOf
              { propNamePrefix := propName, fullPropName := opt.fullPropName,
                fieldName := opt.fieldName, allAccess := opt.allAccess }) := rfl

theorem bindValue_slice_eq (tc : TypeConverters) (p : Properties) (n : Str) (elemType : Ty)
    (ro : Flags) (v : DVal) (propName : Str) (dv : Option Str) (opt : bindOption) :
    bindValue tc p (.slice n elemType) ro v propName dv opt
      = match tc (.slice n elemType) with
        | some fn => bindConverted fn p ro v propName dv opt
        | none =>
          match getPropValue p propName dv opt with
          | .error e => .abort e v
          | .ok propValue =>
            bindSliceCase tc elemType ro v propValue opt
              (fun sv i => bindStruct tc (defaultProperties.asProperties ⟨sv⟩) elemType noRO
                (zeroVal elemType)
                { propNamePrefix := [], fullPropName := indexName propName i,
                  fieldName := opt.fieldName, allAccess := opt.allAccess }) := by
  cases elemType <;> rfl

theorem bindValue_map_eq (tc : TypeConverters) (p : Properties) (n : Str) (keyType elemType : Ty)
    (ro : Flags) (v : DVal) (propName : Str) (dv : Option Str) (opt : bindOption) :
    bindValue tc p (.map n keyType elemType) ro v propName dv opt
      = match tc (.map n keyType elemType) with
        | some fn => bindConverted fn p ro v propName dv opt
        | none =>
          match getPropValue p propName dv opt with
          | .error e => .abort e v
          | .ok propValue =>
            bindMapCase tc keyType elemType ro v propName propValue opt
              (fun k1 v1 => bindStruct tc (defaultProperties.asProperties ⟨v1⟩) elemType noRO
                (zeroVal elemType)
                { propNamePrefix := [], fullPropName := propName ++ ['.'] ++ k1,
                  fieldName := opt.fieldName, allAccess := opt.allAccess }) := by
  cases elemType <;> rfl

theorem bindFields_nil_eq (tc : TypeConverters) (p : Properties) (ro : Flags) (vs : List DVal)
    (opt : bindOption) : bindFields tc p [] ro vs opt = (none, vs) := rfl

theorem bindFields_cons_eq (tc : TypeConverters) (p : Properties) (ft : StructField) (t : Ty)
    (rest : List (StructField × Ty)) (ro : Flags) (vs : List DVal) (opt : bindOption) :
    bindFields tc p ((ft, t) :: rest) ro vs opt
      = fieldRound ft t ro vs opt
          (fun fro fv propName defaultValue opt1 =>
            bindValue tc p t fro fv propName defaultValue opt1)
          (fun fro fv subOpt => bindStruct tc p t fro fv subOpt)
          (bindFields tc p rest ro vs.tail opt) := by
  cases t <;> rfl

/-! ## The effective property value (C4) -/

theorem asProperties_GetDefaultProperty (p : defaultProperties) (key : Str) (d : Value) :
    p.asProperties.GetDefaultProperty key d
      = match GoMap.find p.properties (Str.toLower key) with
        | some v => (v, true)
        | none => (d, false) := by
  show (p.GetDefaultProperty key d).1 = _
  unfold defaultProperties.GetDefaultProperty
  cases GoMap.find p.properties (Str.toLower key) <;> rfl

theorem getPropValue_found (p : defaultProperties) (propName : Str) (dv : Option Str)
    (opt : bindOption) (val : Value)
    (h : GoMap.find p.properties (Str.toLower propName) = some val) :
    getPropValue p.asProperties propName dv opt = .ok val := by
  unfold getPropValue
  rw [asProperties_GetDefaultProperty, h]

theorem getPropValue_absent (p : defaultProperties) (propName : Str) (dv : Option Str)
    (opt : bindOption) (h : GoMap.find p.properties (Str.toLower propName) = none) :
    getPropValue p.asProperties propName dv opt
      = match dv with
        | some d => .ok (Value.str d)
        | none =>
          if (p.GetPrefixProperties propName).1.length > 0 then
            .ok (Value.map (p.GetPrefixProperties propName).1)
          else .error (Err.notConfig opt.fieldName opt.fullPropName) := by
  unfold getPropValue
  rw [asProperties_GetDefaultProperty, h]
  rfl

theorem bindValue_basic (tc : TypeConverters) (p : Properties) (n : Str) (k : BasicKind)
    (ro : Flags) (v : DVal) (propName : Str) (dv : Option Str) (opt : bindOption)
    (h : tc (.basic n k) = none) :
    bindValue tc p (.basic n k) ro v propName dv opt
      = match getPropValue p propName dv opt with
        | .error e => .abort e v
        | .ok propValue => bindBasic k ro v propValue opt := by
  rw [bindValue_basic_eq, h]

/-- C4: the effective property value follows a strict priority. If the store has the
resolved key, `getPropValue` yields the stored value whatever the default; otherwise it
yields the default literal when one is given; otherwise the map of the prefix-matching
entries when that map is not empty; and it fails, with the `not config` error, exactly when
the key is absent, no default is given and no entry matches the prefix. A scalar
destination without converter is bound from this value, and an `int` field tagged
`${x.y:=42}` bound against the empty store receives 42. -/
theorem getPropValue_priority (p : defaultProperties) (propName : Str) (opt : bindOption) :
    (∀ val dv, GoMap.find p.properties (Str.toLower propName) = some val →
      getPropValue p.asProperties propName dv opt = .ok val) ∧
    (∀ d, GoMap.find p.properties (Str.toLower propName) = none →
      getPropValue p.asProperties propName (some d) opt = .ok (Value.str d)) ∧
    (GoMap.find p.properties (Str.toLower propName) = none →
      (p.GetPrefixProperties propName).1 ≠ [] →
      getPropValue p.asProperties propName none opt
        = .ok (Value.map (p.GetPrefixProperties propName).1)) ∧
    (∀ dv e, getPropValue p.asProperties propName dv opt = .error e ↔
      (GoMap.find p.properties (Str.toLower propName) = none ∧ dv = none ∧
        (p.GetPrefixProperties propName).1 = [] ∧
        e = Err.notConfig opt.fieldName opt.fullPropName)) ∧
    (∀ tc n k ro v dv, tc (Ty.basic n k) = none →
      bindValue tc p.asProperties (.basic n k) ro v propName dv opt
        = match getPropValue p.asProperties propName dv opt with
          | .error e => .abort e v
          | .ok propValue => bindBasic k ro v propValue opt) ∧
    (∀ tc v, tc tyInt = none →
      bindStructField tc (defaultProperties.asProperties ⟨[]⟩) tyInt noRO v
        (tagOf "x.y:=42".toList) opt = .ok (.int 42)) := by
  refine ⟨?_, ?_, ?_, ?_, ?_, ?_⟩
  · intro val dv h
    exact getPropValue_found p propName dv opt val h
  · intro d h
    rw [getPropValue_absent p propName _ opt h]
  · intro h hne
    rw [getPropValue_absent p propName _ opt h]
    have hl : (p.GetPrefixProperties propName).1.length > 0 := List.length_pos.2 hne
    simp only [hl, if_true]
  · intro dv e
    cases hf : GoMap.find p.properties (Str.toLower propName) with
    | some val =>
      rw [getPropValue_found p propName dv opt val hf]
      simp
    | none =>
      rw [getPropValue_absent p propName dv opt hf]
      cases dv with
      | some d => simp
      | none =>
        by_cases hl : (p.GetPrefixProperties propName).1.length > 0
        · have hne : (p.GetPrefixProperties propName).1 ≠ [] := List.length_pos.1 hl
          simp [hl, hne]
        · have he : (p.GetPrefixProperties propName).1 = [] := by
            cases hm : (p.GetPrefixProperties propName).1 with
            | nil => rfl
            | cons a b => rw [hm] at hl; simp at hl
          rw [he]
          simp only [List.length_nil, gt_iff_lt, lt_self_iff_false, if_false, true_and]
          constructor
          · intro h1
            cases h1
            rfl
          · intro h1
            rw [h1]
  · intro tc n k ro v dv h
    exact bindValue_basic tc _ n k ro v propName dv opt h
  · intro tc v h
    have hargs : bindStructFieldArgs tyInt.isPtr (tagOf "x.y:=42".toList) opt
        = .ok (if opt.propNamePrefix ≠ [] then opt.propNamePrefix ++ ['.'] ++ "x.y".toList
                else "x.y".toList,
              some "42".toList,
              { opt with fullPropName :=
                  if opt.fullPropName = [] then "x.y".toList
                  else opt.fullPropName ++ ['.'] ++ "x.y".toList }) := by
      rfl
    unfold bindStructField
    rw [hargs]
    simp only []
    unfold tyInt at h ⊢
    rw [bindValue_basic tc _ _ _ _ _ _ _ _ h]
    have hg : ∀ nm o, getPropValue (defaultProperties.asProperties ⟨[]⟩) nm
        (some "42".toList) o = .ok (Value.str "42".toList) := by
      intro nm o
      rfl
    rw [hg]
    rfl

/-- C4 on the store `a = 1, b.c = 2`: a stored value wins over the default `9`, the default
is used for the absent key `z`, the prefix map is used for `b`, and `${x.y:=42}` on the
empty store gives 42. -/
theorem getPropValue_priority_witness :
    getPropValue (defaultProperties.asProperties
        ⟨[("a".toList, Value.int 1), ("b.c".toList, Value.int 2)]⟩) "a".toList
        (some "9".toList) ⟨[], [], [], false⟩ = .ok (Value.int 1) ∧
    getPropValue (defaultProperties.asProperties
        ⟨[("a".toList, Value.int 1), ("b.c".toList, Value.int 2)]⟩) "z".toList
        (some "9".toList) ⟨[], [], [], false⟩ = .ok (Value.str "9".toList) ∧
    getPropValue (defaultProperties.asProperties
        ⟨[("a".toList, Value.int 1), ("b.c".toList, Value.int 2)]⟩) "b".toList
        none ⟨[], [], [], false⟩ = .ok (Value.map [("b.c".toList, Value.int 2)]) ∧
    bindStructField noConverters (defaultProperties.asProperties ⟨[]⟩) tyInt noRO (.int 0)
        (tagOf "x.y:=42".toList) ⟨[], [], [], false⟩ = .ok (.int 42) :=
  ⟨(getPropValue_priority ⟨[("a".toList, Value.int 1), ("b.c".toList, Value.int 2)]⟩
      "a".toList ⟨[], [], [], false⟩).1 (Value.int 1) (some "9".toList) rfl,
   (getPropValue_priority ⟨[("a".toList, Value.int 1), ("b.c".toList, Value.int 2)]⟩
      "z".toList ⟨[], [], [], false⟩).2.1 "9".toList rfl,
   (getPropValue_priority ⟨[("a".toList, Value.int 1), ("b.c".toList, Value.int 2)]⟩
      "b".toList ⟨[], [], [], false⟩).2.2.1 rfl (List.cons_ne_nil _ _),
   (getPropValue_priority ⟨[]⟩ [] ⟨[], [], [], false⟩).2.2.2.2.2 noConverters (.int 0) rfl⟩

/-! ## Lemmas on `strings.Split` -/

namespace Str

theorem splitGo_ne_nil (sep : Str) (s : Str) (skip : Nat) : splitGo sep s skip ≠ [] := by
  induction s generalizing skip with
  | nil => simp [splitGo]
  | cons c cs ih =>
    cases skip with
    | succ n =>
      rw [splitGo]
      exact ih n
    | zero =>
      rw [splitGo]
      split
      · simp
      · split <;> simp

theorem splitGo_skip (sep xs r : Str) : splitGo sep (xs ++ r) xs.length = splitGo sep r 0 := by
  induction xs with
  | nil =>
    cases r <;> rfl
  | cons x xs ih =>
    show splitGo sep (x :: (xs ++ r)) (xs.length + 1) = _
    rw [splitGo]
    exact ih

/-- A separator at the front opens an empty piece. -/
theorem splitGo_sep (c : Char) (cs r : Str) :
    splitGo (c :: cs) ((c :: cs) ++ r) 0 = [] :: splitGo (c :: cs) r 0 := by
  show splitGo (c :: cs) (c :: (cs ++ r)) 0 = _
  rw [splitGo]
  have h : (c :: cs).isPrefixOf (c :: (cs ++ r)) = true := by
    rw [List.isPrefixOf_iff_prefix]
    exact List.prefix_append (c :: cs) r
  rw [if_pos h]
  have hl : (c :: cs).length - 1 = cs.length := by simp
  rw [hl, splitGo_skip]

/-- A character that does not start a separator goes to the first piece. -/
theorem splitGo_cons (sep : Str) (c : Char) (cs : Str) (h : ¬ sep <+: (c :: cs)) :
    splitGo sep (c :: cs) 0
      = (c :: (splitGo sep cs 0).headD []) :: (splitGo sep cs 0).tail := by
  rw [splitGo]
  have h1 : ¬ sep.isPrefixOf (c :: cs) = true := by
    rw [List.isPrefixOf_iff_prefix]
    exact h
  rw [if_neg h1]
  cases hs : splitGo sep cs 0 with
  | nil => exact absurd hs (splitGo_ne_nil sep cs 0)
  | cons a b => rfl

/-- The first piece ends at the first separator. -/
theorem splitGo_first (c : Char) (cs : Str) (n r : Str)
    (h : ∀ a b : Str, n = a ++ b → b ≠ [] → ¬ (c :: cs) <+: (b ++ (c :: cs) ++ r)) :
    splitGo (c :: cs) (n ++ (c :: cs) ++ r) 0 = n :: splitGo (c :: cs) r 0 := by
  induction n with
  | nil =>
    exact splitGo_sep c cs r
  | cons x xs ih =>
    have h0 := h [] (x :: xs) rfl (List.cons_ne_nil _ _)
    have ih1 := ih (fun a b hab hb => h (x :: a) b (by rw [hab]; rfl) hb)
    show splitGo (c :: cs) (x :: (xs ++ (c :: cs) ++ r)) 0 = _
    rw [splitGo_cons _ _ _ (by simpa using h0), ih1]
    rfl

/-- Without a separator there is one piece. -/
theorem splitGo_none (sep : Str) (s : Str)
    (h : ∀ a b : Str, s = a ++ b → b ≠ [] → ¬ sep <+: b) :
    splitGo sep s 0 = [s] := by
  induction s with
  | nil => rfl
  | cons x xs ih =>
    have h0 := h [] (x :: xs) rfl (List.cons_ne_nil _ _)
    have ih1 := ih (fun a b hab hb => h (x :: a) b (by rw [hab]; rfl) hb)
    rw [splitGo_cons _ _ _ h0, ih1]
    rfl

/-- Splitting at dots a text without dot before the first dot. -/
theorem split_dot_first (s r : Str) (hs : '.' ∉ s) :
    split (s ++ ['.'] ++ r) ['.'] = s :: split r ['.'] := by
  unfold split
  apply splitGo_first
  intro a b hab hb hpre
  cases b with
  | nil => exact hb rfl
  | cons y ys =>
    have hy : y = '.' := by
      obtain ⟨t, ht⟩ := hpre
      simp only [List.singleton_append, List.cons_append, List.cons.injEq] at ht
      exact ht.1.symm
    apply hs
    rw [hab, hy]
    simp

/-- Splitting at dots a text without dot. -/
theorem split_dot_none (s : Str) (hs : '.' ∉ s) : split s ['.'] = [s] := by
  unfold split
  apply splitGo_none
  intro a b hab hb hpre
  cases b with
  | nil => exact hb rfl
  | cons y ys =>
    have hy : y = '.' := by
      obtain ⟨t, ht⟩ := hpre
      simp only [List.singleton_append, List.cons_append, List.cons.injEq] at ht
      exact ht.1.symm
    apply hs
    rw [hab, hy]
    simp

end Str

theorem assignSep_not_prefix (b r : Str) (hb : b ≠ []) (hn : ¬ assignSep <:+: b) :
    ¬ assignSep <+: (b ++ assignSep ++ r) := by
  intro hpre
  obtain ⟨t, ht⟩ := hpre
  cases b with
  | nil => exact hb rfl
  | cons y ys =>
    cases ys with
    | nil =>
      simp only [assignSep, String.toList, List.cons_append, List.nil_append,
        List.cons.injEq] at ht
      exact absurd ht.2.1 (by decide)
    | cons z zs =>
      apply hn
      simp only [assignSep, String.toList, List.cons_append, List.nil_append,
        List.cons.injEq] at ht
      refine ⟨[], zs, ?_⟩
      rw [← ht.1, ← ht.2.1]
      rfl

theorem infix_of_suffix_part (sep a b : Str) (h : sep <:+: b) : sep <:+: (a ++ b) := by
  obtain ⟨s, t, hst⟩ := h
  exact ⟨a ++ s, t, by rw [← hst]; simp⟩

/-- Splitting at `:=` a text without `:=` before the first `:=`. -/
theorem split_assign_first (n r : Str) (hn : ¬ assignSep <:+: n) :
    Str.split (n ++ assignSep ++ r) assignSep = n :: Str.split r assignSep := by
  unfold Str.split
  have h := Str.splitGo_first ':' ['='] n r (by
    intro a b hab hb
    apply assignSep_not_prefix b r hb
    intro hin
    apply hn
    rw [hab]
    exact infix_of_suffix_part _ _ _ hin)
  exact h

/-- Splitting at `:=` a text without `:=`. -/
theorem split_assign_none (s : Str) (hs : ¬ assignSep <:+: s) : Str.split s assignSep = [s] := by
  unfold Str.split
  apply Str.splitGo_none
  intro a b hab hb hpre
  apply hs
  rw [hab]
  exact infix_of_suffix_part _ _ _ hpre.isInfix

/-! ## The tag of a field (C5, C6) -/

theorem tagOf_checks (body : Str) :
    (Str.hasPrefix (tagOf body) "$\x7b".toList && Str.hasSuffix (tagOf body) "\x7d".toList) = true
    ∧ sliceStr (tagOf body) 2 (((tagOf body).length : Int) - 1) = some body := by
  constructor
  · have h1 : Str.hasPrefix (tagOf body) "$\x7b".toList = true := by
      show List.isPrefixOf _ _ = true
      rw [List.isPrefixOf_iff_prefix]
      exact ⟨body ++ "\x7d".toList, by simp [tagOf]⟩
    have h2 : Str.hasSuffix (tagOf body) "\x7d".toList = true := by
      show List.isPrefixOf _ _ = true
      rw [List.isPrefixOf_iff_prefix]
      refine ⟨body.reverse ++ ("$\x7b".toList).reverse, ?_⟩
      simp [tagOf]
    rw [h1, h2]
    rfl
  · have hlen : (tagOf body).length = body.length + 3 := by
      simp [tagOf]
    unfold sliceStr
    rw [hlen]
    have hc : (0 : Int) ≤ 2 ∧ (2 : Int) ≤ ((body.length + 3 : Nat) : Int) - 1
        ∧ ((body.length + 3 : Nat) : Int) - 1 ≤ ((body.length + 3 : Nat) : Int) := by
      omega
    rw [if_pos hc]
    have h3 : (((body.length + 3 : Nat) : Int) - 1).toNat - (2 : Int).toNat = body.length := by
      omega
    rw [h3]
    have h4 : (tagOf body).drop (2 : Int).toNat = body ++ "\x7d".toList := by
      simp [tagOf]
    rw [h4, List.take_left]

/-- The arguments `bindStructField` computes for a well-formed tag, from the pieces of its
body. -/
theorem bindStructFieldArgs_tagOf (body : Str) (opt : bindOption) :
    bindStructFieldArgs false (tagOf body) opt
      = .ok (lookupKey opt.propNamePrefix ((Str.split body assignSep).headD []),
          (Str.split body assignSep).tail.head?,
          tagOption opt ((Str.split body assignSep).headD [])) := by
  unfold bindStructFieldArgs
  rw [(tagOf_checks body).1, (tagOf_checks body).2]
  simp only [Bool.not_true, Bool.false_eq_true, if_false]
  show (match Str.split body assignSep with
    | [] => _
    | propName :: more => _) = _
  cases hs : Str.split body assignSep with
  | nil => exact absurd hs (Str.splitGo_ne_nil _ _ _)
  | cons a more =>
    cases more <;> rfl

theorem bindStructField_tagOf (tc : TypeConverters) (p : Properties) (t : Ty) (ro : Flags)
    (v : DVal) (body : Str) (opt : bindOption) (hptr : t.isPtr = false) :
    bindStructField tc p t ro v (tagOf body) opt
      = bindValue tc p t ro v
          (lookupKey opt.propNamePrefix ((Str.split body assignSep).headD []))
          (Str.split body assignSep).tail.head?
          (tagOption opt ((Str.split body assignSep).headD [])) := by
  unfold bindStructField
  rw [hptr, bindStructFieldArgs_tagOf]

/-- A tag without `:=` names the property and gives no default. -/
theorem bindStructField_plainTag (tc : TypeConverters) (p : Properties) (t : Ty) (ro : Flags)
    (v : DVal) (opt : bindOption) (n : Str) (hptr : t.isPtr = false)
    (hn : ¬ assignSep <:+: n) :
    bindStructField tc p t ro v (tagOf n) opt
      = bindValue tc p t ro v (lookupKey opt.propNamePrefix n) none (tagOption opt n) := by
  rw [bindStructField_tagOf _ _ _ _ _ _ _ hptr, split_assign_none n hn]
  rfl

/-- C5, as stated, fails: for the tag `${a:=b:=c}` the name is `a` but the default literal
the code passes on is `b`, not `b:=c`. -/
theorem bindStructField_split_counterexample :
    bindStructFieldArgs false (tagOf "a:=b:=c".toList) ⟨[], [], [], false⟩
        = .ok ("a".toList, some "b".toList, ⟨[], "a".toList, [], false⟩) ∧
    ¬ ∃ opt1, bindStructFieldArgs false (tagOf "a:=b:=c".toList) ⟨[], [], [], false⟩
        = .ok ("a".toList, some "b:=c".toList, opt1) := by
  have h : bindStructFieldArgs false (tagOf "a:=b:=c".toList) ⟨[], [], [], false⟩
      = .ok ("a".toList, some "b".toList, ⟨[], "a".toList, [], false⟩) := rfl
  refine ⟨h, ?_⟩
  rintro ⟨opt1, h1⟩
  rw [h] at h1
  injection h1 with h2
  injection h2 with _ h3
  injection h3 with h4 _
  injection h4 with h5
  exact absurd h5 (by decide)

/-- C5, amended: for every well-formed tag `${body}` on a target that is not a pointer,
`bindStructField` splits the body at every `:=`. The property name is the text before the
first `:=`; the default literal is the text between the first and the second `:=`, or all
the text after the first `:=` when there is no second one; and there is no default when the
body contains no `:=`. -/
theorem bindStructField_tag_split (tc : TypeConverters) (p : Properties) (t : Ty) (ro : Flags)
    (v : DVal) (opt : bindOption) (n d rest : Str) (hptr : t.isPtr = false)
    (hn : ¬ assignSep <:+: n) (hd : ¬ assignSep <:+: d) :
    bindStructField tc p t ro v (tagOf n) opt
      = bindValue tc p t ro v (lookupKey opt.propNamePrefix n) none (tagOption opt n) ∧
    bindStructField tc p t ro v (tagOf (n ++ assignSep ++ d)) opt
      = bindValue tc p t ro v (lookupKey opt.propNamePrefix n) (some d) (tagOption opt n) ∧
    bindStructField tc p t ro v (tagOf (n ++ assignSep ++ (d ++ assignSep ++ rest))) opt
      = bindValue tc p t ro v (lookupKey opt.propNamePrefix n) (some d) (tagOption opt n) := by
  refine ⟨?_, ?_, ?_⟩
  · exact bindStructField_plainTag tc p t ro v opt n hptr hn
  · rw [bindStructField_tagOf _ _ _ _ _ _ _ hptr, split_assign_first n d hn,
      split_assign_none d hd]
    rfl
  · rw [bindStructField_tagOf _ _ _ _ _ _ _ hptr, split_assign_first n _ hn,
      split_assign_first d rest hd]
    rfl

/-- C5, amended, at the tag `${a:=b:=c}` on an `int` field: the name is `a` and the default
literal is `b`. -/
theorem bindStructField_tag_split_witness :
    tyInt.isPtr = false ∧ ¬ assignSep <:+: "a".toList ∧ ¬ assignSep <:+: "b".toList ∧
    bindStructField noConverters (defaultProperties.asProperties ⟨[]⟩) tyInt noRO (.int 0)
        (tagOf ("a".toList ++ assignSep ++ ("b".toList ++ assignSep ++ "c".toList)))
        ⟨[], [], [], false⟩
      = bindValue noConverters (defaultProperties.asProperties ⟨[]⟩) tyInt noRO (.int 0)
          (lookupKey [] "a".toList) (some "b".toList) (tagOption ⟨[], [], [], false⟩ "a".toList) :=
  ⟨rfl, by decide, by decide,
   (bindStructField_tag_split noConverters (defaultProperties.asProperties ⟨[]⟩) tyInt noRO
      (.int 0) ⟨[], [], [], false⟩ "a".toList "b".toList "c".toList rfl
      (by decide) (by decide)).2.2⟩

/-- C6 (defect of the code): for a tag with an empty name under the non-empty prefix `a`
the lookup key is `a.`, not `a`. Binding `S{V int "${}"}` under the root key `a` computes
the key `a.` for the field, fails with `not config` on the store `a = 7`, and reads the
entry of the store whose key is `a.`; the full name of the diagnostics is `a`. -/
theorem bindStructField_emptyName_trailingDot :
    bindStructFieldArgs false (tagOf []) ⟨"a".toList, "a".toList, "S.$V".toList, false⟩
      = .ok ("a.".toList, none, ⟨"a".toList, "a".toList, "S.$V".toList, false⟩) ∧
    bindStructFieldArgs false (tagOf ":=d".toList)
        ⟨"a".toList, "a".toList, "S.$V".toList, false⟩
      = .ok ("a.".toList, some "d".toList, ⟨"a".toList, "a".toList, "S.$V".toList, false⟩) ∧
    ((defaultProperties.mk [("a".toList, Value.int 7)]).BindProperty noConverters "a".toList
        (.pointer exEmptyName (zeroVal exEmptyName))).1
      = .abort (Err.notConfig "S.$V".toList "a".toList) (.struct [.int 0]) ∧
    ((defaultProperties.mk [("a.".toList, Value.int 7)]).BindProperty noConverters "a".toList
        (.pointer exEmptyName (zeroVal exEmptyName))).1
      = .ok (.struct [.int 7]) :=
  ⟨rfl, rfl, rfl, rfl⟩

/-! ## Prefix composition (C7) -/

theorem nestTy_isStruct (layers : List (StructField × Str)) (inner : Ty)
    (h : inner.isStruct = true) : (nestTy layers inner).isStruct = true := by
  cases layers with
  | nil => exact h
  | cons l ls =>
    obtain ⟨ft, sn⟩ := l
    rfl

theorem nestOpt_allAccess (layers : List (StructField × Str)) (opt : bindOption) :
    (nestOpt layers opt).allAccess = opt.allAccess := by
  induction layers generalizing opt with
  | nil => rfl
  | cons l ls ih =>
    obtain ⟨ft, sn⟩ := l
    exact ih (subOption opt ft)

theorem nestOpt_propNamePrefix (layers : List (StructField × Str)) (opt : bindOption) :
    (nestOpt layers opt).propNamePrefix = opt.propNamePrefix := by
  induction layers generalizing opt with
  | nil => rfl
  | cons l ls ih =>
    obtain ⟨ft, sn⟩ := l
    exact ih (subOption opt ft)

/-- One round of the loop of `bindStruct` on an untagged field that is embedded or of struct
kind: the field is bound by `bindStruct` under the option of the field. -/
theorem bindFields_untagged (tc : TypeConverters) (p : Properties) (ft : StructField) (t : Ty)
    (rest : List (StructField × Ty)) (ro : Flags) (vs : List DVal) (opt : bindOption)
    (htag : ft.Tag = none) (hs : (ft.Anonymous || t.isStruct) = true) :
    bindFields tc p ((ft, t) :: rest) ro vs opt
      = match bindStruct tc p t (ValuePatchIf (fieldFlags ro ft) opt.allAccess) (vs.headD (zeroVal t))
            (subOption opt ft) with
        | .abort e fv1 => (some e, fv1 :: vs.tail)
        | .ok fv1 =>
          ((bindFields tc p rest ro vs.tail opt).1,
            fv1 :: (bindFields tc p rest ro vs.tail opt).2) := by
  rw [bindFields_cons_eq]
  unfold fieldRound
  rw [htag]
  simp only [hs, if_true]

/-- One round of the loop of `bindStruct` on a tagged field. -/
theorem bindFields_tagged (tc : TypeConverters) (p : Properties) (ft : StructField) (t : Ty)
    (rest : List (StructField × Ty)) (ro : Flags) (vs : List DVal) (opt : bindOption)
    (tag : Str) (htag : ft.Tag = some tag) :
    bindFields tc p ((ft, t) :: rest) ro vs opt
      = match bindStructField tc p t (ValuePatchIf (fieldFlags ro ft) opt.allAccess) (vs.headD (zeroVal t))
            tag (subOption opt ft) with
        | .abort e fv1 => (some e, fv1 :: vs.tail)
        | .ok fv1 =>
          ((bindFields tc p rest ro vs.tail opt).1,
            fv1 :: (bindFields tc p rest ro vs.tail opt).2) := by
  rw [bindFields_cons_eq]
  unfold fieldRound bindStructField
  rw [htag]
  simp only
  cases bindStructFieldArgs t.isPtr tag (subOption opt ft) with
  | error e => rfl
  | ok r =>
    obtain ⟨a, b, c⟩ := r
    rfl

theorem nestOutcome_zero (o : Outcome) : nestOutcome 0 o = o := by
  cases o <;> rfl

theorem nestOutcome_succ (depth : Nat) (o : Outcome) :
    structOutcome (match nestOutcome depth o with
      | .abort e fv1 => (some e, [fv1])
      | .ok fv1 => (none, [fv1])) = nestOutcome (depth + 1) o := by
  cases o <;> rfl

/-- Binding a chain of untagged single-field structs binds the innermost struct, under the
option and flag that the chain hands down. -/
theorem bindStruct_nest (tc : TypeConverters) (p : Properties)
    (layers : List (StructField × Str)) (inner : Ty) (ro : Flags) (v : DVal) (opt : bindOption)
    (hinner : inner.isStruct = true) (hlayers : ∀ l ∈ layers, l.1.Tag = none) :
    bindStruct tc p (nestTy layers inner) ro (wrapVal layers.length v) opt
      = nestOutcome layers.length
          (bindStruct tc p inner (nestRo layers opt.allAccess ro) v (nestOpt layers opt)) := by
  induction layers generalizing ro opt with
  | nil => exact (nestOutcome_zero _).symm
  | cons l ls ih =>
    obtain ⟨ft, sn⟩ := l
    have htag : ft.Tag = none := hlayers (ft, sn) (List.mem_cons_self _ _)
    have ih1 := ih (ValuePatchIf (fieldFlags ro ft) opt.allAccess) (subOption opt ft)
      (fun l hl => hlayers l (List.mem_cons_of_mem _ hl))
    show structOutcome (bindFields tc p [(ft, nestTy ls inner)] ro [wrapVal ls.length v] opt) = _
    rw [bindFields_untagged tc p ft _ [] ro _ opt htag
      (by rw [nestTy_isStruct ls inner hinner]; simp)]
    show structOutcome (match bindStruct tc p (nestTy ls inner) (ValuePatchIf (fieldFlags ro ft) opt.allAccess)
        (wrapVal ls.length v) (subOption opt ft) with
      | .abort e fv1 => (some e, [fv1])
      | .ok fv1 => (none, [fv1])) = _
    rw [ih1]
    exact nestOutcome_succ _ _

theorem bindValue_struct (tc : TypeConverters) (p : Properties) (n : Str)
    (fields : List (StructField × Ty)) (ro : Flags) (v : DVal) (propName : Str)
    (opt : bindOption) (h : tc (.struct n fields) = none) :
    bindValue tc p (.struct n fields) ro v propName none opt
      = bindStruct tc p (.struct n fields) ro v
          { propNamePrefix := propName, fullPropName := opt.fullPropName,
            fieldName := opt.fieldName, allAccess := opt.allAccess } := by
  rw [bindValue_struct_eq, h]
  rfl

/-- Binding `Outer{Inner{Value int "${v}"}}` under the root key `a.b` binds the field from
the effective value of the key `a.b.v`, on every store. -/
theorem bindValue_exOuter (p : Properties) :
    bindValue noConverters p exOuter noRO (zeroVal exOuter) "a.b".toList none
        ⟨[], "a.b".toList, "Outer".toList, false⟩
      = match getPropValue p "a.b.v".toList none
            ⟨"a.b".toList, "a.b.v".toList, "Outer.$Inner.$Value".toList, false⟩ with
        | .error e => .abort e (.struct [.struct [.int 0]])
        | .ok propValue =>
          .ok (.struct [.struct [.int (wrapInt 64 (cast.ToInt64 propValue))]]) := by
  have e3 : bindStruct noConverters p exInner noRO (zeroVal exInner)
        ⟨"a.b".toList, "a.b".toList, "Outer.$Inner".toList, false⟩
      = match getPropValue p "a.b.v".toList none
            ⟨"a.b".toList, "a.b.v".toList, "Outer.$Inner.$Value".toList, false⟩ with
        | .error e => .abort e (.struct [.int 0])
        | .ok propValue => .ok (.struct [.int (wrapInt 64 (cast.ToInt64 propValue))]) := by
    show structOutcome (bindFields noConverters p [(taggedField "Value".toList "v".toList, tyInt)]
      noRO [.int 0] ⟨"a.b".toList, "a.b".toList, "Outer.$Inner".toList, false⟩) = _
    rw [bindFields_tagged noConverters p _ _ _ _ _ _ (tagOf "v".toList) rfl,
      bindStructField_tagOf noConverters p tyInt _ _ _ _ rfl]
    show structOutcome (match bindValue noConverters p (Ty.basic "int".toList .int) noRO
        (.int 0) "a.b.v".toList none
        ⟨"a.b".toList, "a.b.v".toList, "Outer.$Inner.$Value".toList, false⟩ with
      | .abort e fv1 => (some e, [fv1])
      | .ok fv1 => (none, [fv1])) = _
    rw [bindValue_basic noConverters p _ _ _ _ _ _ _ rfl]
    cases getPropValue p "a.b.v".toList none
      ⟨"a.b".toList, "a.b.v".toList, "Outer.$Inner.$Value".toList, false⟩ <;> rfl
  have h1 : bindValue noConverters p exOuter noRO (zeroVal exOuter) "a.b".toList none
        ⟨[], "a.b".toList, "Outer".toList, false⟩
      = bindStruct noConverters p (nestTy [(plainField "Inner".toList, "Outer".toList)] exInner)
          noRO (wrapVal 1 (zeroVal exInner))
          ⟨"a.b".toList, "a.b".toList, "Outer".toList, false⟩ :=
    bindValue_struct noConverters p _ _ noRO _ _ _ rfl
  have h2 : bindStruct noConverters p (nestTy [(plainField "Inner".toList, "Outer".toList)] exInner)
          noRO (wrapVal 1 (zeroVal exInner))
          ⟨"a.b".toList, "a.b".toList, "Outer".toList, false⟩
      = nestOutcome 1 (bindStruct noConverters p exInner noRO (zeroVal exInner)
          ⟨"a.b".toList, "a.b".toList, "Outer.$Inner".toList, false⟩) :=
    bindStruct_nest noConverters p [(plainField "Inner".toList, "Outer".toList)]
      exInner noRO (zeroVal exInner) ⟨"a.b".toList, "a.b".toList, "Outer".toList, false⟩ rfl
      (by intro l hl; rw [List.mem_singleton] at hl; rw [hl]; rfl)
  rw [h1, h2, e3]
  cases getPropValue p "a.b.v".toList none
    ⟨"a.b".toList, "a.b.v".toList, "Outer.$Inner.$Value".toList, false⟩ <;> rfl

/-- C7: prefix composition. When the fields of a struct are bound under the prefix `P`
(the root key of the struct), a field tagged `${n}` is looked up under the key
`P + "." + n` when `P` is not empty and under `n` when `P` is empty; an untagged field of
struct type, or an embedded struct, hands the same prefix `P` to its own fields, and so does
a chain of such fields of any depth. Binding `Outer{Inner{Value int "${v}"}}` under the root
key `a.b` reads the key `a.b.v`. -/
theorem prefix_composition (tc : TypeConverters) (p : Properties) (opt : bindOption) :
    (∀ t ro v n, t.isPtr = false → ¬ assignSep <:+: n → opt.propNamePrefix ≠ [] →
      bindStructField tc p t ro v (tagOf n) opt
        = bindValue tc p t ro v (opt.propNamePrefix ++ ['.'] ++ n) none (tagOption opt n)) ∧
    (∀ t ro v n, t.isPtr = false → ¬ assignSep <:+: n → opt.propNamePrefix = [] →
      bindStructField tc p t ro v (tagOf n) opt
        = bindValue tc p t ro v n none (tagOption opt n)) ∧
    (∀ ft t rest ro vs, ft.Tag = none → (ft.Anonymous || t.isStruct) = true →
      bindFields tc p ((ft, t) :: rest) ro vs opt
        = (match bindStruct tc p t (ValuePatchIf (fieldFlags ro ft) opt.allAccess) (vs.headD (zeroVal t))
              (subOption opt ft) with
          | .abort e fv1 => (some e, fv1 :: vs.tail)
          | .ok fv1 =>
            ((bindFields tc p rest ro vs.tail opt).1,
              fv1 :: (bindFields tc p rest ro vs.tail opt).2))
      ∧ (subOption opt ft).propNamePrefix = opt.propNamePrefix) ∧
    (∀ layers inner ro v, inner.isStruct = true → (∀ l ∈ layers, l.1.Tag = none) →
      bindStruct tc p (nestTy layers inner) ro (wrapVal layers.length v) opt
        = nestOutcome layers.length
            (bindStruct tc p inner (nestRo layers opt.allAccess ro) v (nestOpt layers opt))
      ∧ (nestOpt layers opt).propNamePrefix = opt.propNamePrefix) ∧
    (∀ store : defaultProperties,
      (store.BindProperty noConverters "a.b".toList (.pointer exOuter (zeroVal exOuter))).1
        = match getPropValue store.asProperties "a.b.v".toList none
              ⟨"a.b".toList, "a.b.v".toList, "Outer.$Inner.$Value".toList, false⟩ with
          | .error e => .abort e (.struct [.struct [.int 0]])
          | .ok propValue =>
            .ok (.struct [.struct [.int (wrapInt 64 (cast.ToInt64 propValue))]])) := by
  refine ⟨?_, ?_, ?_, ?_, ?_⟩
  · intro t ro v n hptr hn hP
    rw [bindStructField_plainTag tc p t ro v opt n hptr hn]
    unfold lookupKey
    rw [if_pos hP]
  · intro t ro v n hptr hn hP
    rw [bindStructField_plainTag tc p t ro v opt n hptr hn]
    unfold lookupKey
    rw [if_neg (by rw [hP]; simp)]
  · intro ft t rest ro vs htag hs
    exact ⟨bindFields_untagged tc p ft t rest ro vs opt htag hs, rfl⟩
  · intro layers inner ro v hinner hlayers
    exact ⟨bindStruct_nest tc p layers inner ro v opt hinner hlayers,
      nestOpt_propNamePrefix layers opt⟩
  · intro store
    exact bindValue_exOuter store.asProperties

/-- C7 on the store `a.b.v = 7`: a field tagged `${v}` under the prefix `a.b` is bound from
the key `a.b.v`, and binding `Outer` under `a.b` yields `Outer{Inner{7}}`. -/
theorem prefix_composition_witness :
    bindStructField noConverters
        (defaultProperties.asProperties ⟨[("a.b.v".toList, Value.int 7)]⟩) tyInt noRO (.int 0)
        (tagOf "v".toList) ⟨"a.b".toList, "a.b".toList, "Inner".toList, false⟩
      = bindValue noConverters
          (defaultProperties.asProperties ⟨[("a.b.v".toList, Value.int 7)]⟩) tyInt noRO (.int 0)
          ("a.b".toList ++ ['.'] ++ "v".toList) none
          (tagOption ⟨"a.b".toList, "a.b".toList, "Inner".toList, false⟩ "v".toList) ∧
    ((defaultProperties.mk [("a.b.v".toList, Value.int 7)]).BindProperty noConverters
        "a.b".toList (.pointer exOuter (zeroVal exOuter))).1
      = .ok (.struct [.struct [.int 7]]) :=
  ⟨(prefix_composition noConverters
      (defaultProperties.asProperties ⟨[("a.b.v".toList, Value.int 7)]⟩)
      ⟨"a.b".toList, "a.b".toList, "Inner".toList, false⟩).1 tyInt noRO (.int 0) "v".toList
      rfl (by decide) (by decide),
   ((prefix_composition noConverters (defaultProperties.asProperties ⟨[]⟩)
      ⟨[], [], [], false⟩).2.2.2.2 ⟨[("a.b.v".toList, Value.int 7)]⟩).trans rfl⟩

/-! ## Converter priority (C8) -/

theorem bindValue_of_converter (tc : TypeConverters) (p : Properties) (t : Ty) (ro : Flags)
    (v : DVal) (propName : Str) (dv : Option Str) (opt : bindOption) (fn : Converter)
    (h : tc t = some fn) :
    bindValue tc p t ro v propName dv opt = bindConverted fn p ro v propName dv opt := by
  cases t with
  | basic n k => rw [bindValue_basic_eq, h]
  | slice n e => rw [bindValue_slice_eq, h]
  | map n k e => rw [bindValue_map_eq, h]
  | struct n fs => rw [bindValue_struct_eq, h]

/-- C8, as stated, fails: the struct type `T` has a registered converter, yet as the
untagged field of `Outer` it is bound field by field. Its field `X`, tagged `${x}`, receives
the value of the key `x`, and the binding fails with `not config` for `x` on the empty
store. -/
theorem converter_untagged_counterexample :
    (exConverters exConvT).isSome = true ∧
    ((defaultProperties.mk [("x".toList, Value.int 5)]).BindProperty exConverters []
        (.pointer exConvOuter (zeroVal exConvOuter))).1
      = .ok (.struct [.struct [.int 5]]) ∧
    ((defaultProperties.mk []).BindProperty exConverters []
        (.pointer exConvOuter (zeroVal exConvOuter))).1
      = .abort (Err.notConfig "Outer.$T.$X".toList "x".toList) (.struct [.struct [.int 0]]) :=
  ⟨rfl, rfl, rfl⟩

/-- C8, amended: a struct type with a registered converter is never field-bound by
`bindValue`. Wherever `bindValue` reaches a destination of a type with a converter (as the
top-level destination of `BindPropertyIf` or as a tagged field) it binds it through the
converter, so that the result does not depend on the fields of the type and their tags. An
untagged field of struct type met during the struct field recursion is bound field by field
by `bindStruct`, whatever the registry holds for its type. -/
theorem converter_priority (tc : TypeConverters) (p : Properties) :
    (∀ t fn ro v key dv opt, tc t = some fn →
      bindValue tc p t ro v key dv opt = bindConverted fn p ro v key dv opt) ∧
    (∀ t fn ro v tag opt, tc t = some fn →
      bindStructField tc p t ro v tag opt
        = match bindStructFieldArgs t.isPtr tag opt with
          | .error e => .abort e v
          | .ok (propName, dv, opt1) => bindConverted fn p ro v propName dv opt1) ∧
    (∀ (store : defaultProperties) t fn target key allAccess, tc t = some fn →
      ∃ s, (store.BindPropertyIf tc key (.pointer t target) allAccess).1
        = bindConverted fn store.asProperties noRO target key none ⟨[], key, s, allAccess⟩) ∧
    (∀ n fields1 fields2 fn ro v key dv opt,
      tc (.struct n fields1) = some fn → tc (.struct n fields2) = some fn →
      bindValue tc p (.struct n fields1) ro v key dv opt
        = bindValue tc p (.struct n fields2) ro v key dv opt) ∧
    (∀ ft sn sub rest ro vs opt, ft.Tag = none →
      bindFields tc p ((ft, .struct sn sub) :: rest) ro vs opt
        = match structOutcome (bindFields tc p sub (ValuePatchIf (fieldFlags ro ft) opt.allAccess)
              (vs.headD (zeroVal (.struct sn sub))).fieldsOf (subOption opt ft)) with
          | .abort e fv1 => (some e, fv1 :: vs.tail)
          | .ok fv1 =>
            ((bindFields tc p rest ro vs.tail opt).1,
              fv1 :: (bindFields tc p rest ro vs.tail opt).2)) := by
  refine ⟨?_, ?_, ?_, ?_, ?_⟩
  · intro t fn ro v key dv opt h
    exact bindValue_of_converter tc p t ro v key dv opt fn h
  · intro t fn ro v tag opt h
    unfold bindStructField
    cases bindStructFieldArgs t.isPtr tag opt with
    | error e => rfl
    | ok r =>
      obtain ⟨a, b, c⟩ := r
      exact bindValue_of_converter tc p t ro v a b c fn h
  · intro store t fn target key allAccess h
    exact ⟨_, bindValue_of_converter tc _ t noRO target key none _ fn h⟩
  · intro n fields1 fields2 fn ro v key dv opt h1 h2
    rw [bindValue_of_converter tc p _ ro v key dv opt fn h1,
      bindValue_of_converter tc p _ ro v key dv opt fn h2]
  · intro ft sn sub rest ro vs opt htag
    rw [bindFields_untagged tc p ft _ rest ro vs opt htag (by simp [Ty.isStruct])]
    rfl

/-- C8, amended, on the registry with a converter for `T`: binding `T` itself goes through
the converter, and the untagged field of type `T` is bound field by field. -/
theorem converter_priority_witness :
    bindValue exConverters (defaultProperties.asProperties ⟨[("t".toList, Value.str []),
        ("x".toList, Value.int 5)]⟩) exConvT noRO (zeroVal exConvT) "t".toList none
        ⟨[], [], [], false⟩
      = .ok DVal.other ∧
    bindFields exConverters (defaultProperties.asProperties ⟨[("t".toList, Value.str []),
        ("x".toList, Value.int 5)]⟩) [(plainField "T".toList, exConvT)] noRO
        [zeroVal exConvT] ⟨[], [], "Outer".toList, false⟩
      = (none, [.struct [.int 5]]) :=
  ⟨((converter_priority exConverters (defaultProperties.asProperties
        ⟨[("t".toList, Value.str []), ("x".toList, Value.int 5)]⟩)).1
      exConvT (fun _ => some DVal.other) noRO (zeroVal exConvT) "t".toList none
      ⟨[], [], [], false⟩ rfl).trans rfl,
   ((converter_priority exConverters (defaultProperties.asProperties
        ⟨[("t".toList, Value.str []), ("x".toList, Value.int 5)]⟩)).2.2.2.2
      (plainField "T".toList) "T".toList [(taggedField "X".toList "x".toList, tyInt)] []
      noRO [zeroVal exConvT] ⟨[], [], "Outer".toList, false⟩ rfl).trans rfl⟩

/-! ## Slices of structs (C9) -/

theorem bindSliceElems_cons_map (bindElem : GoMap Value → Nat → Outcome) (fpn : Str)
    (m : GoMap Value) (rest : List Value) (i : Nat) :
    bindSliceElems bindElem fpn (Value.map m :: rest) i
      = match bindElem m i with
        | .abort e _ => .error e
        | .ok ev =>
          match bindSliceElems bindElem fpn rest (i + 1) with
          | .error e => .error e
          | .ok evs => .ok (ev :: evs) := rfl

theorem bindSliceElems_ok (bindElem : GoMap Value → Nat → Outcome) (fpn : Str)
    (s : List (GoMap Value)) (i : Nat) (rs : List DVal)
    (h : List.Forall₂ (fun (im : Nat × GoMap Value) r => bindElem im.2 im.1 = .ok r)
      (s.enumFrom i) rs) :
    bindSliceElems bindElem fpn (s.map Value.map) i = .ok rs := by
  induction s generalizing i rs with
  | nil =>
    cases h
    rfl
  | cons m ms ih =>
    cases h with
    | cons h1 h2 =>
      rw [List.map_cons, bindSliceElems_cons_map]
      simp only at h1
      rw [h1]
      simp only
      rw [ih (i + 1) _ h2]

theorem bindSliceElems_abort (bindElem : GoMap Value → Nat → Outcome) (fpn : Str)
    (s : List (GoMap Value)) (i : Nat)
    (h : ∃ im ∈ s.enumFrom i, ∃ e d, bindElem im.2 im.1 = .abort e d) :
    ∃ e, bindSliceElems bindElem fpn (s.map Value.map) i = .error e := by
  induction s generalizing i with
  | nil =>
    obtain ⟨im, him, _⟩ := h
    cases him
  | cons m ms ih =>
    rw [List.map_cons, bindSliceElems_cons_map]
    cases hb : bindElem m i with
    | abort e d => exact ⟨e, rfl⟩
    | ok ev =>
      simp only
      obtain ⟨im, him, e, d, hab⟩ := h
      rw [List.enumFrom_cons, List.mem_cons] at him
      rcases him with him | him
      · rw [him] at hab
        simp only at hab
        rw [hb] at hab
        cases hab
      · obtain ⟨e1, he1⟩ := ih (i + 1) ⟨im, him, e, d, hab⟩
        rw [he1]
        exact ⟨e1, rfl⟩

/-- C9, as stated, fails: the claim asks for no converter for `E` only. With a converter
registered for the slice type `[]Item` and none for `Item`, binding `[]Item` under `items`
against `items = [{name: foo, age: 3}, {name: bar, age: 4}]` goes through the
converter, whose call on the stored sequence panics, and the destination is left as it
was. -/
theorem bindValue_sliceOfStruct_counterexample :
    exSliceConverters exItem = none ∧
    (exSliceConverters (.slice [] exItem)).isSome = true ∧
    (exItems.BindProperty exSliceConverters "items".toList
        (.pointer (.slice [] exItem) (.slice []))).1
      = .abort Err.reflectPanic (.slice []) :=
  ⟨rfl, rfl, rfl⟩

/-- C9, amended: slice of structs. When the stored value of the key `K` is a sequence
(`[]interface{}`) of `n` string-keyed maps, binding a settable slice of the struct type
`E` (no converter for `E` nor for the slice type itself) under `K` binds, for every index
`i` in order, a fresh `E` field by field against map `i` alone, as a store of its own and
with the empty prefix. When every
element binds, the result is the slice of exactly these `n` elements in index order; when
an element fails, the binding fails and the destination is unchanged. Under the empty
prefix a field of an element tagged `${name}` is bound from the key `name` of its map. -/
theorem bindValue_sliceOfStruct (tc : TypeConverters) (p : defaultProperties) (K : Str)
    (sn en : Str) (fields : List (StructField × Ty)) (v : DVal) (dv : Option Str)
    (opt : bindOption) (s : List (GoMap Value))
    (hslice : tc (.slice sn (.struct en fields)) = none)
    (helem : tc (.struct en fields) = none)
    (hstored : GoMap.find p.properties (Str.toLower K) = some (Value.seq (s.map Value.map))) :
    (∀ rs, List.Forall₂
        (fun (im : Nat × GoMap Value) r =>
          bindStruct tc (defaultProperties.asProperties ⟨im.2⟩) (.struct en fields) noRO
            (zeroVal (.struct en fields)) (elemOption K im.1 opt) = .ok r)
        s.enum rs →
      bindValue tc p.asProperties (.slice sn (.struct en fields)) noRO v K dv opt
        = .ok (.slice rs) ∧ rs.length = s.length) ∧
    ((∃ im ∈ s.enum, ∃ e d,
        bindStruct tc (defaultProperties.asProperties ⟨im.2⟩) (.struct en fields) noRO
          (zeroVal (.struct en fields)) (elemOption K im.1 opt) = .abort e d) →
      ∃ e, bindValue tc p.asProperties (.slice sn (.struct en fields)) noRO v K dv opt
        = .abort e v) ∧
    (∀ (m : GoMap Value) i ft t ro fv n, t.isPtr = false → ¬ assignSep <:+: n →
      bindStructField tc (defaultProperties.asProperties ⟨m⟩) t ro fv (tagOf n)
          (subOption (elemOption K i opt) ft)
        = bindValue tc (defaultProperties.asProperties ⟨m⟩) t ro fv n none
            (tagOption (subOption (elemOption K i opt) ft) n)) := by
  have hunfold : bindValue tc p.asProperties (.slice sn (.struct en fields)) noRO v K dv opt
      = match bindSliceElems
            (fun sv i => bindStruct tc (defaultProperties.asProperties ⟨sv⟩) (.struct en fields)
              noRO (zeroVal (.struct en fields)) (elemOption K i opt))
            opt.fullPropName (s.map Value.map) 0 with
        | .error e => .abort e v
        | .ok result => .ok (.slice result) := by
    rw [bindValue_slice_eq, hslice]
    simp only
    rw [getPropValue_found p K dv opt _ hstored]
    simp only
    unfold bindSliceCase
    rw [helem]
    rfl
  refine ⟨?_, ?_, ?_⟩
  · intro rs hrs
    rw [hunfold, bindSliceElems_ok _ _ s 0 rs hrs]
    have hlen := hrs.length_eq
    rw [List.enum, List.enumFrom_length] at hlen
    exact ⟨rfl, hlen.symm⟩
  · intro hab
    obtain ⟨e, he⟩ := bindSliceElems_abort
      (fun sv i => bindStruct tc (defaultProperties.asProperties ⟨sv⟩) (.struct en fields)
        noRO (zeroVal (.struct en fields)) (elemOption K i opt))
      opt.fullPropName s 0 hab
    exact ⟨e, by rw [hunfold, he]⟩
  · intro m i ft t ro fv n hptr hn
    exact bindStructField_plainTag tc _ t ro fv _ n hptr hn

/-- C9 on `items = [{name: foo, age: 3}, {name: bar, age: 4}]`: binding `[]Item` under
`items` gives `[Item{foo, 3}, Item{bar, 4}]`. -/
theorem bindValue_sliceOfStruct_witness :
    (exItems.BindProperty noConverters "items".toList (.pointer (.slice [] exItem) (.slice []))).1
      = .ok (.slice [.struct [.str "foo".toList, .int 3], .struct [.str "bar".toList, .int 4]]) :=
  ((bindValue_sliceOfStruct noConverters exItems "items".toList [] "Item".toList
      [(taggedField "Name".toList "name".toList, tyString),
       (taggedField "Age".toList "age".toList, tyInt)]
      (.slice []) none ⟨[], "items".toList, "Item".toList, false⟩
      [[("name".toList, Value.str "foo".toList), ("age".toList, Value.int 3)],
       [("name".toList, Value.str "bar".toList), ("age".toList, Value.int 4)]]
      rfl rfl rfl).1
    [.struct [.str "foo".toList, .int 3], .struct [.str "bar".toList, .int 4]]
    (List.Forall₂.cons rfl (List.Forall₂.cons rfl List.Forall₂.nil))).1

/-! ## Maps of structs (C10) -/

namespace GoMap

variable {α : Type}

theorem find_perm (m1 m2 : GoMap α) (k : Str) (h : m1.Perm m2) (hnd : (keys m1).Nodup) :
    find m1 k = find m2 k := by
  have hnd2 : (keys m2).Nodup := (h.map Prod.fst).nodup_iff.1 hnd
  cases hf : find m1 k with
  | none =>
    symm
    rw [find_eq_none_iff] at hf ⊢
    intro hin
    exact hf ((h.map Prod.fst).mem_iff.2 hin)
  | some v =>
    symm
    exact find_eq_some_of_mem m2 k v hnd2 (h.mem_iff.1 (mem_of_find_eq_some m1 k v hf))

theorem assign_append_last (m : GoMap α) (k : Str) (x y : α) (h : k ∉ keys m) :
    assign (m ++ [(k, x)]) k y = m ++ [(k, y)] := by
  induction m with
  | nil =>
    show assign [(k, x)] k y = [(k, y)]
    rw [assign_cons, if_pos rfl]
  | cons e rest ih =>
    obtain ⟨k0, v0⟩ := e
    rw [keys_cons, List.mem_cons, not_or] at h
    have h0 : ¬ k0 = k := fun h2 => h.1 h2.symm
    show assign ((k0, v0) :: (rest ++ [(k, x)])) k y = (k0, v0) :: (rest ++ [(k, y)])
    rw [assign_cons, if_neg h0, ih h.2]

theorem find_map_key (l : List Str) (g : Str → α) (s : Str) :
    find (l.map (fun x => (x, g x))) s = if s ∈ l then some (g s) else none := by
  induction l with
  | nil => rfl
  | cons a rest ih =>
    rw [List.map_cons, find_cons, ih]
    by_cases h : a = s
    · subst h
      simp
    · have h1 : ¬ s = a := fun h2 => h h2.symm
      simp [h, h1]

theorem keys_map_key (l : List Str) (g : Str → α) : keys (l.map (fun x => (x, g x))) = l := by
  induction l with
  | nil => rfl
  | cons a rest ih =>
    rw [List.map_cons, keys_cons, ih]

theorem assign_map_key (l : List Str) (g : Str → α) (s : Str) (y : α) (hnd : l.Nodup)
    (hs : s ∈ l) :
    assign (l.map (fun x => (x, g x))) s y
      = l.map (fun x => (x, if x = s then y else g x)) := by
  induction l with
  | nil => cases hs
  | cons a rest ih =>
    rw [List.nodup_cons] at hnd
    rw [List.map_cons, List.map_cons, assign_cons]
    by_cases h : a = s
    · subst h
      rw [if_pos rfl, if_pos rfl]
      congr 1
      apply List.map_congr_left
      intro x hx
      have hne : ¬ x = a := fun h2 => hnd.1 (h2 ▸ hx)
      rw [if_neg hne]
    · rw [if_neg h, if_neg h]
      rcases List.mem_cons.1 hs with h1 | h1
      · exact absurd h1.symm h
      · rw [ih hnd.2 h1]

/-- With distinct keys, the entries of a key are at most the one that indexing finds. -/
theorem filter_key_eq (m : GoMap α) (q : Str) (hnd : (keys m).Nodup) :
    m.filter (fun kv => decide (kv.1 = q))
      = match find m q with
        | some v => [(q, v)]
        | none => [] := by
  induction m with
  | nil => rfl
  | cons e rest ih =>
    obtain ⟨k0, v0⟩ := e
    rw [keys_cons, List.nodup_cons] at hnd
    rw [find_cons]
    by_cases h : k0 = q
    · subst h
      have hnone : rest.filter (fun kv => decide (kv.1 = k0)) = [] := by
        rw [List.filter_eq_nil_iff]
        intro a ha hd
        have h3 : a.1 = k0 := of_decide_eq_true hd
        apply hnd.1
        have h4 : a.1 ∈ keys rest := List.mem_map_of_mem Prod.fst ha
        rw [h3] at h4
        exact h4
      rw [if_pos rfl, List.filter_cons]
      simp only [decide_True, if_true]
      rw [hnone]
    · rw [if_neg h, List.filter_cons]
      simp only [h, decide_False]
      exact ih hnd.2

end GoMap

theorem mem_firstOcc_foldl (xs acc : List Str) (x : Str) :
    x ∈ xs.foldl (fun acc x => if x ∈ acc then acc else acc ++ [x]) acc ↔ x ∈ acc ∨ x ∈ xs := by
  induction xs generalizing acc with
  | nil => simp
  | cons a rest ih =>
    rw [List.foldl_cons, ih]
    by_cases h : a ∈ acc
    · rw [if_pos h]
      constructor
      · rintro (h1 | h1)
        · exact Or.inl h1
        · exact Or.inr (List.mem_cons_of_mem _ h1)
      · rintro (h1 | h1)
        · exact Or.inl h1
        · rcases List.mem_cons.1 h1 with h2 | h2
          · exact Or.inl (h2 ▸ h)
          · exact Or.inr h2
    · rw [if_neg h]
      simp only [List.mem_append, List.mem_singleton, List.mem_cons]
      tauto

theorem mem_firstOcc (xs : List Str) (x : Str) : x ∈ firstOcc xs ↔ x ∈ xs := by
  unfold firstOcc
  rw [mem_firstOcc_foldl]
  simp

theorem nodup_firstOcc_foldl (xs acc : List Str) (h : acc.Nodup) :
    (xs.foldl (fun acc x => if x ∈ acc then acc else acc ++ [x]) acc).Nodup := by
  induction xs generalizing acc with
  | nil => exact h
  | cons a rest ih =>
    rw [List.foldl_cons]
    apply ih
    by_cases h1 : a ∈ acc
    · rw [if_pos h1]
      exact h
    · rw [if_neg h1]
      rw [List.nodup_append]
      refine ⟨h, List.nodup_singleton _, ?_⟩
      intro b hb hb2
      rw [List.mem_singleton] at hb2
      exact h1 (hb2 ▸ hb)

theorem nodup_firstOcc (xs : List Str) : (firstOcc xs).Nodup :=
  nodup_firstOcc_foldl xs [] List.nodup_nil

theorem firstOcc_snoc (xs : List Str) (x : Str) :
    firstOcc (xs ++ [x]) = if x ∈ firstOcc xs then firstOcc xs else firstOcc xs ++ [x] := by
  unfold firstOcc
  rw [List.foldl_append]
  rfl

theorem subKeys_snoc (ps : List (Str × Str × Value)) (t : Str × Str × Value) :
    subKeys (ps ++ [t]) = if t.1 ∈ subKeys ps then subKeys ps else subKeys ps ++ [t.1] := by
  unfold subKeys
  rw [List.map_append]
  exact firstOcc_snoc _ _

theorem mem_subKeys (ps : List (Str × Str × Value)) (s : Str) :
    s ∈ subKeys ps ↔ ∃ t ∈ ps, t.1 = s := by
  unfold subKeys
  rw [mem_firstOcc, List.mem_map]

theorem bucketOf_snoc (ps : List (Str × Str × Value)) (t : Str × Str × Value) (s : Str) :
    bucketOf (ps ++ [t]) s
      = bucketOf ps s ++ (if t.1 = s then [(t.2.1, t.2.2)] else []) := by
  unfold bucketOf
  rw [List.filter_append, List.map_append]
  by_cases h : t.1 = s
  · simp [h]
  · simp [h]

theorem bucketOf_eq_nil (ps : List (Str × Str × Value)) (s : Str) (h : s ∉ subKeys ps) :
    bucketOf ps s = [] := by
  unfold bucketOf
  rw [List.map_eq_nil_iff, List.filter_eq_nil_iff]
  intro t ht hd
  exact h ((mem_subKeys ps s).2 ⟨t, ht, of_decide_eq_true hd⟩)

theorem mem_keys_bucketOf (ps : List (Str × Str × Value)) (s f : Str)
    (h : f ∈ GoMap.keys (bucketOf ps s)) : (s, f) ∈ ps.map (fun t => (t.1, t.2.1)) := by
  unfold bucketOf GoMap.keys at h
  rw [List.map_map, List.mem_map] at h
  obtain ⟨t, ht, hf⟩ := h
  rw [List.mem_filter] at ht
  have h1 : t.1 = s := of_decide_eq_true ht.2
  rw [List.mem_map]
  exact ⟨t, ht.1, by rw [h1]; simp only [Function.comp] at hf; rw [hf]⟩

theorem trimPrefix_flatKey (K s f : Str) :
    Str.trimPrefix (flatKey K s f) (K ++ ['.']) = s ++ ['.'] ++ f := by
  have h : flatKey K s f = (K ++ ['.']) ++ (s ++ ['.'] ++ f) := by
    simp [flatKey]
  unfold Str.trimPrefix
  rw [h]
  have hp : (K ++ ['.']).isPrefixOf ((K ++ ['.']) ++ (s ++ ['.'] ++ f)) = true := by
    rw [List.isPrefixOf_iff_prefix]
    exact List.prefix_append _ _
  rw [if_pos hp, List.drop_left]

/-- One round of the regrouping loop on a flattened key moves its value to its bucket. -/
theorem regroupStep_flatKey (K s f : Str) (v : Value) (temp : GoMap (GoMap Value))
    (hs : '.' ∉ s) (hf : '.' ∉ f) :
    regroupStep (K ++ ['.']) temp (flatKey K s f) v = .ok (groupStep temp (s, f, v)) := by
  unfold regroupStep
  rw [trimPrefix_flatKey, Str.split_dot_first s f hs, Str.split_dot_none f hf]
  rfl

theorem regroup_cons_eq (trimKey k0 : Str) (v0 : Value) (rest : GoMap Value)
    (temp : GoMap (GoMap Value)) :
    regroup trimKey ((k0, v0) :: rest) temp
      = match regroupStep trimKey temp k0 v0 with
        | Except.error e => Except.error e
        | Except.ok temp1 => regroup trimKey rest temp1 := rfl

theorem bindMapElems_cons_eq (bindElem : Str → GoMap Value → Outcome) (keyOk : Bool)
    (k1 : Str) (v1 : GoMap Value) (rest : GoMap (GoMap Value)) (result : GoMap DVal) :
    bindMapElems bindElem keyOk ((k1, v1) :: rest) result
      = match bindElem k1 v1 with
        | Outcome.abort e _ => Except.error e
        | Outcome.ok ev =>
          if keyOk then bindMapElems bindElem keyOk rest (GoMap.assign result k1 ev)
          else Except.error Err.reflectPanic := rfl

theorem nodup_subKeys (ps : List (Str × Str × Value)) : (subKeys ps).Nodup :=
  nodup_firstOcc _

theorem regroup_flatten (K : Str) (ps : List (Str × Str × Value)) (temp : GoMap (GoMap Value))
    (hdots : ∀ t ∈ ps, '.' ∉ t.1 ∧ '.' ∉ t.2.1) :
    regroup (K ++ ['.']) (flatten K ps) temp = .ok (ps.foldl groupStep temp) := by
  induction ps generalizing temp with
  | nil => rfl
  | cons t rest ih =>
    obtain ⟨s, f, v⟩ := t
    have hd := hdots (s, f, v) (List.mem_cons_self _ _)
    show regroup (K ++ ['.']) ((flatKey K s f, v) :: flatten K rest) temp = _
    rw [regroup_cons_eq, regroupStep_flatKey K s f v temp hd.1 hd.2]
    exact ih _ (fun t ht => hdots t (List.mem_cons_of_mem _ ht))

theorem groups_find (ps : List (Str × Str × Value)) (s : Str) :
    GoMap.find (groups ps) s = if s ∈ subKeys ps then some (bucketOf ps s) else none :=
  GoMap.find_map_key _ _ _

theorem groups_keys (ps : List (Str × Str × Value)) : GoMap.keys (groups ps) = subKeys ps :=
  GoMap.keys_map_key _ _

/-- The regrouping loop builds the buckets of the triples, in the order in which their keys
first occur. -/
theorem foldl_groupStep (ps : List (Str × Str × Value))
    (hnd : (ps.map (fun t => (t.1, t.2.1))).Nodup) :
    ps.foldl groupStep [] = groups ps := by
  induction ps using List.reverseRecOn with
  | nil => rfl
  | append_singleton l a ih =>
    obtain ⟨s, f, v⟩ := a
    rw [List.map_append, List.nodup_append] at hnd
    obtain ⟨hl, _, hdis⟩ := hnd
    rw [List.foldl_append, ih hl]
    show groupStep (groups l) (s, f, v) = _
    unfold groupStep
    simp only
    rw [groups_find]
    by_cases hs : s ∈ subKeys l
    · rw [if_pos hs]
      simp only [Option.getD_some]
      have hf : f ∉ GoMap.keys (bucketOf l s) := by
        intro hin
        exact hdis (mem_keys_bucketOf l s f hin) (List.mem_singleton.2 rfl)
      rw [GoMap.assign_of_not_mem _ _ _ hf]
      unfold groups
      rw [GoMap.assign_map_key _ _ _ _ (nodup_subKeys l) hs, subKeys_snoc, if_pos hs]
      apply List.map_congr_left
      intro x hx
      rw [bucketOf_snoc]
      by_cases hx2 : x = s
      · subst hx2
        simp
      · have hx3 : ¬ s = x := fun h => hx2 h.symm
        simp [hx2, hx3]
    · rw [if_neg hs]
      simp only [Option.getD_none]
      have hk : s ∉ GoMap.keys (groups l) := by
        rw [groups_keys]
        exact hs
      rw [GoMap.assign_of_not_mem _ _ _ hk, GoMap.assign_append_last _ _ _ _ hk]
      unfold groups
      rw [subKeys_snoc, if_neg hs, List.map_append]
      congr 1
      · apply List.map_congr_left
        intro x hx
        rw [bucketOf_snoc]
        have hx3 : ¬ s = x := fun h => hs (h ▸ hx)
        simp [hx3]
      · rw [List.map_singleton, bucketOf_snoc, bucketOf_eq_nil l s hs]
        simp [GoMap.assign]

theorem bindMapElems_ok (bindElem : Str → GoMap Value → Outcome) (l : GoMap (GoMap Value))
    (acc : GoMap DVal)
    (hnd : (GoMap.keys acc ++ GoMap.keys l).Nodup)
    (hok : ∀ kb ∈ l, ∃ r, bindElem kb.1 kb.2 = .ok r) :
    bindMapElems bindElem true l acc
      = .ok (acc ++ l.map (fun kb => (kb.1, (bindElem kb.1 kb.2).dest))) := by
  induction l generalizing acc with
  | nil => simp [bindMapElems]
  | cons kb rest ih =>
    obtain ⟨k1, v1⟩ := kb
    obtain ⟨r, hr⟩ := hok (k1, v1) (List.mem_cons_self _ _)
    simp only at hr
    have hk : k1 ∉ GoMap.keys acc := by
      intro hin
      rw [List.nodup_append] at hnd
      exact hnd.2.2 hin (List.mem_cons_self _ _)
    rw [bindMapElems_cons_eq, hr]
    simp only [if_true]
    rw [GoMap.assign_of_not_mem _ _ _ hk, ih]
    · rw [List.map_cons, hr]
      simp [Outcome.dest]
    · rw [GoMap.keys_append]
      simpa [GoMap.keys, List.append_assoc] using hnd
    · intro kb hkb
      exact hok kb (List.mem_cons_of_mem _ hkb)

theorem bindMapElems_abort (bindElem : Str → GoMap Value → Outcome) (l : GoMap (GoMap Value))
    (acc : GoMap DVal) (keyOk : Bool)
    (hab : ∃ kb ∈ l, ∃ e d, bindElem kb.1 kb.2 = .abort e d) :
    ∃ e, bindMapElems bindElem keyOk l acc = .error e := by
  induction l generalizing acc with
  | nil =>
    obtain ⟨kb, hkb, _⟩ := hab
    cases hkb
  | cons kb rest ih =>
    obtain ⟨k1, v1⟩ := kb
    rw [bindMapElems_cons_eq]
    cases hb : bindElem k1 v1 with
    | abort e d => exact ⟨e, rfl⟩
    | ok ev =>
      simp only
      cases keyOk with
      | false => exact ⟨_, rfl⟩
      | true =>
        simp only [if_true]
        obtain ⟨kb, hkb, e, d, h⟩ := hab
        rcases List.mem_cons.1 hkb with h1 | h1
        · rw [h1] at h
          simp only at h
          rw [hb] at h
          cases h
        · exact ih _ ⟨kb, h1, e, d, h⟩

/-- Two stores with distinct keys without dot that index alike are the same store for the
binder. -/
theorem asProperties_eq_of_find (b1 b2 : GoMap Value)
    (hnd1 : (GoMap.keys b1).Nodup) (hnd2 : (GoMap.keys b2).Nodup)
    (hd1 : ∀ k ∈ GoMap.keys b1, '.' ∉ k) (hd2 : ∀ k ∈ GoMap.keys b2, '.' ∉ k)
    (hfind : ∀ k, GoMap.find b1 k = GoMap.find b2 k) :
    defaultProperties.asProperties ⟨b1⟩ = defaultProperties.asProperties ⟨b2⟩ := by
  have hfilter : ∀ (b : GoMap Value), (∀ k ∈ GoMap.keys b, '.' ∉ k) → ∀ q,
      b.filter (fun kv => defaultProperties.prefixMatch q kv.1)
        = b.filter (fun kv => decide (kv.1 = q)) := by
    intro b hd q
    apply List.filter_congr
    intro kv hkv
    have hk : '.' ∉ kv.1 := hd kv.1 (List.mem_map_of_mem Prod.fst hkv)
    have hp : Str.hasPrefix kv.1 (q ++ ['.']) = false := by
      cases hh : Str.hasPrefix kv.1 (q ++ ['.']) with
      | false => rfl
      | true =>
        exfalso
        unfold Str.hasPrefix at hh
        rw [List.isPrefixOf_iff_prefix] at hh
        obtain ⟨t, ht⟩ := hh
        apply hk
        rw [← ht]
        simp
    unfold defaultProperties.prefixMatch
    rw [hp, Bool.or_false]
  unfold defaultProperties.asProperties
  congr 1
  · funext key d
    show (defaultProperties.GetDefaultProperty ⟨b1⟩ key d).1
      = (defaultProperties.GetDefaultProperty ⟨b2⟩ key d).1
    unfold defaultProperties.GetDefaultProperty
    simp only
    rw [hfind]
    cases GoMap.find b2 (Str.toLower key) <;> rfl
  · funext pre
    rw [GetPrefixProperties_eq_filter ⟨b1⟩ pre hnd1, GetPrefixProperties_eq_filter ⟨b2⟩ pre hnd2]
    simp only
    rw [hfilter b1 hd1, hfilter b2 hd2, GoMap.filter_key_eq b1 _ hnd1,
      GoMap.filter_key_eq b2 _ hnd2, hfind]

theorem perm_map_inv {α β : Type} (g : α → β) (l1 l2 : List β) (h : l1.Perm l2) :
    ∀ ps : List α, ps.map g = l1 → ∃ ps2 : List α, ps2.Perm ps ∧ ps2.map g = l2 := by
  induction h with
  | nil =>
    intro ps hps
    exact ⟨ps, List.Perm.refl _, hps⟩
  | cons x _ ih =>
    intro ps hps
    cases ps with
    | nil => cases hps
    | cons t ts =>
      rw [List.map_cons, List.cons.injEq] at hps
      obtain ⟨ps2, hp, hm⟩ := ih ts hps.2
      exact ⟨t :: ps2, hp.cons t, by rw [List.map_cons, hm, hps.1]⟩
  | swap x y l =>
    intro ps hps
    cases ps with
    | nil => cases hps
    | cons t ts =>
      cases ts with
      | nil => cases hps
      | cons u us =>
        rw [List.map_cons, List.map_cons, List.cons.injEq, List.cons.injEq] at hps
        exact ⟨u :: t :: us, List.Perm.swap t u us,
          by rw [List.map_cons, List.map_cons, hps.1, hps.2.1, hps.2.2]⟩
  | trans _ _ ih1 ih2 =>
    intro ps hps
    obtain ⟨ps2, hp2, hm2⟩ := ih1 ps hps
    obtain ⟨ps3, hp3, hm3⟩ := ih2 ps2 hm2
    exact ⟨ps3, hp3.trans hp2, hm3⟩

theorem nodup_pairs_of_flatten (K : Str) (ps : List (Str × Str × Value))
    (h : (GoMap.keys (flatten K ps)).Nodup) : (ps.map (fun t => (t.1, t.2.1))).Nodup := by
  have h1 : GoMap.keys (flatten K ps)
      = (ps.map (fun t => (t.1, t.2.1))).map (fun q => flatKey K q.1 q.2) := by
    simp [GoMap.keys, flatten, Function.comp]
  rw [h1] at h
  exact List.Nodup.of_map _ h

theorem nodup_keys_bucketOf (ps : List (Str × Str × Value)) (s : Str)
    (h : (ps.map (fun t => (t.1, t.2.1))).Nodup) : (GoMap.keys (bucketOf ps s)).Nodup := by
  have h1 : GoMap.keys (bucketOf ps s)
      = ((ps.filter (fun t => decide (t.1 = s))).map (fun t => (t.1, t.2.1))).map Prod.snd := by
    simp [GoMap.keys, bucketOf, Function.comp]
  rw [h1]
  apply List.Nodup.map_on
  · intro x hx y hy hxy
    rw [List.mem_map] at hx hy
    obtain ⟨tx, htx, hx1⟩ := hx
    obtain ⟨ty, hty, hy1⟩ := hy
    have h2 : tx.1 = s := of_decide_eq_true (List.mem_filter.1 htx).2
    have h3 : ty.1 = s := of_decide_eq_true (List.mem_filter.1 hty).2
    rw [← hx1, ← hy1] at hxy ⊢
    simp only at hxy
    rw [h2, h3, hxy]
  · exact ((List.filter_sublist _).map _).nodup h

theorem dotfree_keys_bucketOf (ps : List (Str × Str × Value)) (s : Str)
    (hdots : ∀ t ∈ ps, '.' ∉ t.1 ∧ '.' ∉ t.2.1) : ∀ k ∈ GoMap.keys (bucketOf ps s), '.' ∉ k := by
  intro k hk
  have h1 := mem_keys_bucketOf ps s k hk
  rw [List.mem_map] at h1
  obtain ⟨t, ht, hp⟩ := h1
  have h2 : t.2.1 = k := by
    have := congrArg Prod.snd hp
    exact this
  rw [← h2]
  exact (hdots t ht).2

theorem mem_bucketOf (ps : List (Str × Str × Value)) (s f : Str) (v : Value) :
    (f, v) ∈ bucketOf ps s ↔ (s, f, v) ∈ ps := by
  unfold bucketOf
  rw [List.mem_map]
  constructor
  · rintro ⟨t, ht, hfv⟩
    rw [List.mem_filter] at ht
    have h1 : t.1 = s := of_decide_eq_true ht.2
    obtain ⟨a, b, c⟩ := t
    simp only [Prod.mk.injEq] at hfv h1
    rw [← h1, ← hfv.1, ← hfv.2]
    exact ht.1
  · intro h
    exact ⟨(s, f, v), List.mem_filter.2 ⟨h, by simp⟩, rfl⟩

/-- The buckets of two enumerations of the same triples are the same store for the
binder. -/
theorem bucketOutcome_perm (tc : TypeConverters) (E : Ty) (K : Str)
    (ps ps2 : List (Str × Str × Value)) (opt : bindOption) (s : Str) (hp : ps2.Perm ps)
    (hnd : (ps.map (fun t => (t.1, t.2.1))).Nodup)
    (hdots : ∀ t ∈ ps, '.' ∉ t.1 ∧ '.' ∉ t.2.1) :
    bucketOutcome tc E K ps2 opt s = bucketOutcome tc E K ps opt s := by
  have hnd2 : (ps2.map (fun t => (t.1, t.2.1))).Nodup := (hp.map _).nodup_iff.2 hnd
  have hdots2 : ∀ t ∈ ps2, '.' ∉ t.1 ∧ '.' ∉ t.2.1 := fun t ht => hdots t (hp.mem_iff.1 ht)
  have hb : (bucketOf ps2 s).Perm (bucketOf ps s) := (hp.filter _).map _
  unfold bucketOutcome
  rw [asProperties_eq_of_find (bucketOf ps2 s) (bucketOf ps s)
    (nodup_keys_bucketOf ps2 s hnd2) (nodup_keys_bucketOf ps s hnd)
    (dotfree_keys_bucketOf ps2 s hdots2) (dotfree_keys_bucketOf ps s hdots)
    (fun k => GoMap.find_perm _ _ k hb (nodup_keys_bucketOf ps2 s hnd2))]

theorem subKeys_perm (ps ps2 : List (Str × Str × Value)) (hp : ps2.Perm ps) :
    (subKeys ps2).Perm (subKeys ps) := by
  rw [List.perm_ext_iff_of_nodup (nodup_subKeys ps2) (nodup_subKeys ps)]
  intro s
  rw [mem_subKeys, mem_subKeys]
  constructor
  · rintro ⟨t, ht, h⟩
    exact ⟨t, hp.mem_iff.1 ht, h⟩
  · rintro ⟨t, ht, h⟩
    exact ⟨t, hp.mem_iff.2 ht, h⟩

theorem flatKey_ne (K s f : Str) : flatKey K s f ≠ K := by
  intro h
  have h1 := congrArg List.length h
  simp [flatKey] at h1

/-- The map-of-struct branch on a store whose entries under the lower-case key `K` are
flattened keys: the buckets of the triples are bound one by one. -/
theorem bindValue_mapOfStruct_eq (tc : TypeConverters) (p : defaultProperties) (K : Str)
    (mn en : Str) (fields : List (StructField × Ty)) (v : DVal) (opt : bindOption)
    (ps : List (Str × Str × Value))
    (hK : Str.toLower K = K)
    (hmap : tc (.map mn tyString (.struct en fields)) = none)
    (helem : tc (.struct en fields) = none)
    (hnd : (GoMap.keys p.properties).Nodup)
    (hflat : p.properties.filter (fun kv => defaultProperties.prefixMatch K kv.1) = flatten K ps)
    (hdots : ∀ t ∈ ps, '.' ∉ t.1 ∧ '.' ∉ t.2.1)
    (hne : ps ≠ []) :
    bindValue tc p.asProperties (.map mn tyString (.struct en fields)) noRO v K none opt
      = match bindMapElems
            (fun k1 v1 => bindStruct tc (defaultProperties.asProperties ⟨v1⟩) (.struct en fields)
              noRO (zeroVal (.struct en fields)) (bucketOption K k1 opt))
            true (groups ps) [] with
        | .error e => .abort e v
        | .ok result => .ok (.map result) := by
  have hfilter : (p.GetPrefixProperties K).1 = flatten K ps := by
    rw [GetPrefixProperties_eq_filter p K hnd, hK, hflat]
  have hfind : GoMap.find p.properties (Str.toLower K) = none := by
    rw [hK]
    cases hf : GoMap.find p.properties K with
    | none => rfl
    | some val =>
      exfalso
      have hin : (K, val) ∈ p.properties.filter
          (fun kv => defaultProperties.prefixMatch K kv.1) := by
        rw [List.mem_filter]
        exact ⟨GoMap.mem_of_find_eq_some _ _ _ hf, (prefixMatch_iff K K).2 (Or.inl rfl)⟩
      rw [hflat] at hin
      unfold flatten at hin
      rw [List.mem_map] at hin
      obtain ⟨t, _, ht⟩ := hin
      exact flatKey_ne K t.1 t.2.1 (congrArg Prod.fst ht)
  have hprop : getPropValue p.asProperties K none opt = .ok (Value.map (flatten K ps)) := by
    rw [getPropValue_absent p K none opt hfind]
    simp only
    rw [hfilter]
    have hl : (flatten K ps).length > 0 := by
      unfold flatten
      rw [List.length_map]
      exact List.length_pos.2 hne
    rw [if_pos hl]
  have hkeys : (GoMap.keys (flatten K ps)).Nodup := by
    rw [← hflat]
    exact ((List.filter_sublist _).map Prod.fst).nodup hnd
  rw [bindValue_map_eq, hmap]
  simp only
  rw [hprop]
  simp only
  unfold bindMapCase
  rw [helem]
  have h1 : regroup (K ++ ['.']) (flatten K ps) [] = .ok (groups ps) := by
    rw [regroup_flatten K ps [] hdots, foldl_groupStep ps (nodup_pairs_of_flatten K ps hkeys)]
  show (match regroup (K ++ ['.']) (flatten K ps) [] with
    | Except.error e => Outcome.abort e v
    | Except.ok temp =>
      match bindMapElems
          (fun k1 v1 => bindStruct tc (defaultProperties.asProperties ⟨v1⟩) (.struct en fields)
            noRO (zeroVal (.struct en fields)) (bucketOption K k1 opt))
          true temp [] with
      | Except.error e => Outcome.abort e v
      | Except.ok result => setValue noRO true v (DVal.map result)) = _
  rw [h1]
  rfl

/-- The outcome of binding a map of structs on flattened keys: the map of the bound buckets
when every bucket binds, a failure that leaves the destination when one does not. -/
theorem bindValue_mapOfStruct_outcome (tc : TypeConverters) (p : defaultProperties) (K : Str)
    (mn en : Str) (fields : List (StructField × Ty)) (v : DVal) (opt : bindOption)
    (ps : List (Str × Str × Value))
    (hK : Str.toLower K = K)
    (hmap : tc (.map mn tyString (.struct en fields)) = none)
    (helem : tc (.struct en fields) = none)
    (hnd : (GoMap.keys p.properties).Nodup)
    (hflat : p.properties.filter (fun kv => defaultProperties.prefixMatch K kv.1) = flatten K ps)
    (hdots : ∀ t ∈ ps, '.' ∉ t.1 ∧ '.' ∉ t.2.1)
    (hne : ps ≠ []) :
    ((∀ s ∈ subKeys ps, ∃ r, bucketOutcome tc (.struct en fields) K ps opt s = .ok r) →
      bindValue tc p.asProperties (.map mn tyString (.struct en fields)) noRO v K none opt
        = .ok (.map (mapOfStructResult tc (.struct en fields) K ps opt))) ∧
    ((∃ s ∈ subKeys ps, ∃ e d, bucketOutcome tc (.struct en fields) K ps opt s = .abort e d) →
      ∃ e, bindValue tc p.asProperties (.map mn tyString (.struct en fields)) noRO v K none opt
        = .abort e v) := by
  have hunfold := bindValue_mapOfStruct_eq tc p K mn en fields v opt ps hK hmap helem hnd hflat
    hdots hne
  constructor
  · intro hok
    rw [hunfold, bindMapElems_ok]
    · simp only [List.nil_append]
      unfold mapOfStructResult groups
      rw [List.map_map]
      rfl
    · rw [groups_keys]
      simpa [GoMap.keys] using nodup_subKeys ps
    · intro kb hkb
      unfold groups at hkb
      rw [List.mem_map] at hkb
      obtain ⟨s, hs, hkb⟩ := hkb
      rw [← hkb]
      exact hok s hs
  · rintro ⟨s, hs, e, d, hab⟩
    obtain ⟨e1, he1⟩ := bindMapElems_abort
      (fun k1 v1 => bindStruct tc (defaultProperties.asProperties ⟨v1⟩) (.struct en fields)
        noRO (zeroVal (.struct en fields)) (bucketOption K k1 opt))
      (groups ps) [] true
      ⟨(s, bucketOf ps s), List.mem_map.2 ⟨s, hs, rfl⟩, e, d, hab⟩
    exact ⟨e1, by rw [hunfold, he1]⟩

theorem outcome_cases (l : List Str) (f : Str → Outcome) :
    (∀ s ∈ l, ∃ r, f s = .ok r) ∨ (∃ s ∈ l, ∃ e d, f s = .abort e d) := by
  by_cases h : ∀ s ∈ l, ∃ r, f s = .ok r
  · exact Or.inl h
  · right
    push_neg at h
    obtain ⟨s, hs, hno⟩ := h
    cases hf : f s with
    | ok r => exact absurd hf (hno r)
    | abort e d => exact ⟨s, hs, e, d, hf⟩

/-- C10, as stated, fails: the claim asks for no converter for `E` only. With a converter
registered for the map type `map[string]Pair` and none for `Pair`, binding it under
`settings` against `settings.a.x = 1, settings.a.y = 2, settings.b.x = 3, settings.b.y = 4`
goes through the converter, whose call on the mapping of the entries panics, and the
destination is left as it was. -/
theorem bindValue_mapOfStruct_counterexample :
    exMapConverters exPair = none ∧
    (exMapConverters (.map [] tyString exPair)).isSome = true ∧
    (exSettings.BindProperty exMapConverters "settings".toList
        (.pointer (.map [] tyString exPair) (.map []))).1
      = .abort Err.reflectPanic (.map []) :=
  ⟨rfl, rfl, rfl⟩

/-- C10, amended: map of structs. Let `K` be a lower-case key and let the entries of the
store under `K` be the flattened keys `K.s.f = v` of the non-empty list of triples `ps`,
with `s` and `f` free of dots. Binding a settable `map[string]E`, for a struct type `E` (no
converter for `E` nor for the map type itself), under `K` binds a fresh `E` against the
bucket `f = v` of every distinct `s`. When every bucket binds, the result is a map whose keys are exactly the
distinct `s`, each with the element bound against its bucket; when a bucket fails, the
binding fails and the destination is unchanged. The result does not depend on the order in
which the entries of the store are enumerated: on a store `p2` with the same entries in
another order the binding succeeds exactly when it does on `p`, with a map that holds the
same entries. -/
theorem bindValue_mapOfStruct (tc : TypeConverters) (p p2 : defaultProperties) (K : Str)
    (mn en : Str) (fields : List (StructField × Ty)) (v : DVal) (opt : bindOption)
    (ps : List (Str × Str × Value))
    (hK : Str.toLower K = K)
    (hmap : tc (.map mn tyString (.struct en fields)) = none)
    (helem : tc (.struct en fields) = none)
    (hnd : (GoMap.keys p.properties).Nodup)
    (hflat : p.properties.filter (fun kv => defaultProperties.prefixMatch K kv.1) = flatten K ps)
    (hdots : ∀ t ∈ ps, '.' ∉ t.1 ∧ '.' ∉ t.2.1)
    (hne : ps ≠ [])
    (hperm : p2.properties.Perm p.properties) :
    ((∀ s ∈ subKeys ps, ∃ r, bucketOutcome tc (.struct en fields) K ps opt s = .ok r) →
      bindValue tc p.asProperties (.map mn tyString (.struct en fields)) noRO v K none opt
        = .ok (.map (mapOfStructResult tc (.struct en fields) K ps opt))) ∧
    ((∃ s ∈ subKeys ps, ∃ e d, bucketOutcome tc (.struct en fields) K ps opt s = .abort e d) →
      ∃ e, bindValue tc p.asProperties (.map mn tyString (.struct en fields)) noRO v K none opt
        = .abort e v) ∧
    (GoMap.keys (mapOfStructResult tc (.struct en fields) K ps opt) = subKeys ps ∧
      (subKeys ps).Nodup ∧ (∀ s, s ∈ subKeys ps ↔ ∃ t ∈ ps, t.1 = s) ∧
      (∀ s f val, (f, val) ∈ bucketOf ps s ↔ (s, f, val) ∈ ps)) ∧
    (∀ m, bindValue tc p.asProperties (.map mn tyString (.struct en fields)) noRO v K none opt
        = .ok (.map m) →
      ∃ m2, bindValue tc p2.asProperties (.map mn tyString (.struct en fields)) noRO v K none
          opt = .ok (.map m2) ∧ m2.Perm m ∧ ∀ k, GoMap.find m2 k = GoMap.find m k) ∧
    ((∃ e, bindValue tc p.asProperties (.map mn tyString (.struct en fields)) noRO v K none opt
        = .abort e v) →
      ∃ e2, bindValue tc p2.asProperties (.map mn tyString (.struct en fields)) noRO v K none
        opt = .abort e2 v) := by
  have hmain := bindValue_mapOfStruct_outcome tc p K mn en fields v opt ps hK hmap helem hnd
    hflat hdots hne
  have hnd2 : (GoMap.keys p2.properties).Nodup := (hperm.map Prod.fst).nodup_iff.2 hnd
  have hkeys : (GoMap.keys (flatten K ps)).Nodup := by
    rw [← hflat]
    exact ((List.filter_sublist _).map Prod.fst).nodup hnd
  have hpairs := nodup_pairs_of_flatten K ps hkeys
  obtain ⟨ps2, hps2, hflat2⟩ := perm_map_inv
    (fun t : Str × Str × Value => (flatKey K t.1 t.2.1, t.2.2)) (flatten K ps)
    (p2.properties.filter (fun kv => defaultProperties.prefixMatch K kv.1))
    (by rw [← hflat]; exact (hperm.filter _).symm) ps rfl
  have hdots2 : ∀ t ∈ ps2, '.' ∉ t.1 ∧ '.' ∉ t.2.1 := fun t ht => hdots t (hps2.mem_iff.1 ht)
  have hne2 : ps2 ≠ [] := by
    intro h
    rw [h] at hps2
    exact hne hps2.nil_eq.symm
  have hmain2 := bindValue_mapOfStruct_outcome tc p2 K mn en fields v opt ps2 hK hmap helem hnd2
    hflat2.symm hdots2 hne2
  have hout : ∀ s, bucketOutcome tc (.struct en fields) K ps2 opt s
      = bucketOutcome tc (.struct en fields) K ps opt s :=
    fun s => bucketOutcome_perm tc _ K ps ps2 opt s hps2 hpairs hdots
  have hsub : (subKeys ps2).Perm (subKeys ps) := subKeys_perm ps ps2 hps2
  have hres : (mapOfStructResult tc (.struct en fields) K ps2 opt).Perm
      (mapOfStructResult tc (.struct en fields) K ps opt) := by
    unfold mapOfStructResult
    have hfun : (fun s => (s, (bucketOutcome tc (.struct en fields) K ps2 opt s).dest))
        = (fun s => (s, (bucketOutcome tc (.struct en fields) K ps opt s).dest)) := by
      funext s
      rw [hout]
    rw [hfun]
    exact hsub.map _
  have hreskeys : GoMap.keys (mapOfStructResult tc (.struct en fields) K ps2 opt) = subKeys ps2 :=
    GoMap.keys_map_key _ _
  refine ⟨hmain.1, hmain.2, ⟨GoMap.keys_map_key _ _, nodup_subKeys ps, mem_subKeys ps,
    mem_bucketOf ps⟩, ?_, ?_⟩
  · intro m hm
    rcases outcome_cases (subKeys ps) (bucketOutcome tc (.struct en fields) K ps opt) with hok | hab
    · have h1 := hmain.1 hok
      rw [hm] at h1
      injection h1 with h2
      injection h2 with h3
      have hok2 : ∀ s ∈ subKeys ps2, ∃ r,
          bucketOutcome tc (.struct en fields) K ps2 opt s = .ok r := by
        intro s hs
        rw [hout]
        exact hok s (hsub.mem_iff.1 hs)
      refine ⟨_, hmain2.1 hok2, ?_, ?_⟩
      · rw [h3]
        exact hres
      · intro k
        rw [h3]
        exact GoMap.find_perm _ _ k hres (by rw [hreskeys]; exact nodup_subKeys ps2)
    · obtain ⟨e, he⟩ := hmain.2 hab
      rw [hm] at he
      cases he
  · rintro ⟨e, he⟩
    rcases outcome_cases (subKeys ps) (bucketOutcome tc (.struct en fields) K ps opt) with hok | hab
    · have h1 := hmain.1 hok
      rw [he] at h1
      cases h1
    · obtain ⟨s, hs, e1, d1, h1⟩ := hab
      exact hmain2.2 ⟨s, hsub.mem_iff.2 hs, e1, d1, by rw [hout]; exact h1⟩

theorem exSettings_buckets_ok :
    ∀ s ∈ subKeys exSettingsTriples, ∃ r,
      bucketOutcome noConverters exPair "settings".toList exSettingsTriples
        ⟨[], "settings".toList, "Pair".toList, false⟩ s = .ok r := by
  intro s hs
  have hs1 : s ∈ ["a".toList, "b".toList] := hs
  rcases List.mem_cons.1 hs1 with h | h
  · subst h
    exact ⟨_, rfl⟩
  · rcases List.mem_cons.1 h with h | h
    · subst h
      exact ⟨_, rfl⟩
    · cases h

/-- C10 on `settings.a.x = 1, settings.a.y = 2, settings.b.x = 3, settings.b.y = 4`:
binding `map[string]Pair` under `settings` gives `{a: Pair{1, 2}, b: Pair{3, 4}}`, and the
store enumerated in the opposite order gives a map with the same entries. -/
theorem bindValue_mapOfStruct_witness :
    (exSettings.BindProperty noConverters "settings".toList
        (.pointer (.map [] tyString exPair) (.map []))).1
      = .ok (.map [("a".toList, .struct [.int 1, .int 2]),
          ("b".toList, .struct [.int 3, .int 4])]) ∧
    ∃ m2, (exSettingsReversed.BindProperty noConverters "settings".toList
        (.pointer (.map [] tyString exPair) (.map []))).1 = .ok (.map m2) ∧
      m2.Perm [("a".toList, .struct [.int 1, .int 2]), ("b".toList, .struct [.int 3, .int 4])] ∧
      ∀ k, GoMap.find m2 k
        = GoMap.find [("a".toList, DVal.struct [.int 1, .int 2]),
            ("b".toList, DVal.struct [.int 3, .int 4])] k :=
  ⟨(bindValue_mapOfStruct noConverters exSettings exSettingsReversed "settings".toList []
      "Pair".toList
      [(taggedField "X".toList "x".toList, tyInt), (taggedField "Y".toList "y".toList, tyInt)]
      (.map []) ⟨[], "settings".toList, "Pair".toList, false⟩ exSettingsTriples
      (by decide) rfl rfl (by decide) rfl (by decide) (List.cons_ne_nil _ _)
      (List.reverse_perm exSettings.properties)).1 exSettings_buckets_ok,
   (bindValue_mapOfStruct noConverters exSettings exSettingsReversed "settings".toList []
      "Pair".toList
      [(taggedField "X".toList "x".toList, tyInt), (taggedField "Y".toList "y".toList, tyInt)]
      (.map []) ⟨[], "settings".toList, "Pair".toList, false⟩ exSettingsTriples
      (by decide) rfl rfl (by decide) rfl (by decide) (List.cons_ne_nil _ _)
      (List.reverse_perm exSettings.properties)).2.2.2.1 _ rfl⟩

/-! ## Nested maps for a map of structs (C11) -/

/-- C11 (defect of the code): binding `map[string]Pair` under `settings` against the store
that holds the nested value `settings = {a: {x: 1, y: 2}, b: {x: 3, y: 4}}` does not
succeed. The regrouping loop splits the key `a` into the single segment `a` and reads its
second segment, so the binding stops with an index out of range and assigns nothing, while
the flattened entries `settings.a.x = 1, ...` give `{a: Pair{1, 2}, b: Pair{3, 4}}`. -/
theorem bindValue_nestedMap_indexOutOfRange :
    (exSettingsNested.BindProperty noConverters "settings".toList
        (.pointer (.map [] tyString exPair) (.map []))).1
      = .abort Err.indexOutOfRange (.map []) ∧
    regroupStep "settings.".toList [] "a".toList
        (Value.map [("x".toList, Value.int 1), ("y".toList, Value.int 2)])
      = .error Err.indexOutOfRange ∧
    (exSettings.BindProperty noConverters "settings".toList
        (.pointer (.map [] tyString exPair) (.map []))).1
      = .ok (.map [("a".toList, .struct [.int 1, .int 2]),
          ("b".toList, .struct [.int 3, .int 4])]) :=
  ⟨rfl, rfl, rfl⟩

/-! ## Element kinds that are not supported (C12) -/

/-- C12, as stated, fails: with a converter registered for the map type itself, binding a
`map[string]uint32` goes through the converter and assigns its result to the destination. -/
theorem unsupported_elements_counterexample :
    (exMapConverters (.map [] tyString tyUint32)).isSome = true ∧
    bindValue exMapConverters
        (defaultProperties.asProperties ⟨[("k".toList, Value.str "x".toList)]⟩)
        (.map [] tyString tyUint32) noRO (.map [("old".toList, .uint 1)]) "k".toList none
        ⟨[], "k".toList, [], false⟩
      = .ok (.map []) :=
  ⟨rfl, rfl⟩

/-- C12, amended: unsupported element kinds fail fast and are never coerced. For every
store, every key and every content of the converter registry that holds no converter for the
type of the destination itself, `bindValue` aborts without assigning to the destination when
the destination is a map with string keys whose element kind is a signed or unsigned
integer, a float or a bool, or a slice whose element kind is an unsigned integer or a float:
with the "not supported" error when an effective value is found, with the error of the
missing value otherwise. A converter for the element type does not change this. -/
theorem unsupported_elements_abort (tc : TypeConverters) (p : Properties) (ro : Flags)
    (v : DVal) (key : Str) (dv : Option Str) (opt : bindOption) :
    (∀ n keyType elemType, tc (.map n keyType elemType) = none → keyType.cls = .string →
      (elemType.cls = .uint ∨ elemType.cls = .int ∨ elemType.cls = .float
        ∨ elemType.cls = .bool) →
      bindValue tc p (.map n keyType elemType) ro v key dv opt
        = .abort (match getPropValue p key dv opt with
            | .error e => e
            | .ok _ => Err.notSupported) v) ∧
    (∀ n elemType, tc (.slice n elemType) = none →
      (elemType.cls = .uint ∨ elemType.cls = .float) →
      bindValue tc p (.slice n elemType) ro v key dv opt
        = .abort (match getPropValue p key dv opt with
            | .error e => e
            | .ok _ => Err.notSupported) v) := by
  constructor
  · intro n keyType elemType htc hkey helem
    rw [bindValue_map_eq, htc]
    simp only
    cases getPropValue p key dv opt with
    | error e => rfl
    | ok propValue =>
      simp only
      unfold bindMapCase
      rw [hkey]
      simp only [ne_eq, not_true_eq_false, if_false]
      rcases helem with h | h | h | h <;> rw [h]
  · intro n elemType htc helem
    rw [bindValue_slice_eq, htc]
    simp only
    cases getPropValue p key dv opt with
    | error e => rfl
    | ok propValue =>
      simp only
      unfold bindSliceCase
      rcases helem with h | h <;> rw [h]

/-- C12, amended, on `map[string]uint32` and `[]uint32` with the store `k = 7` and the
empty registry: both bindings abort with "not supported" and leave the destination. -/
theorem unsupported_elements_abort_witness :
    bindValue noConverters (defaultProperties.asProperties ⟨[("k".toList, Value.int 7)]⟩)
        (.map [] tyString tyUint32) noRO (.map []) "k".toList none ⟨[], "k".toList, [], false⟩
      = .abort Err.notSupported (.map []) ∧
    bindValue noConverters (defaultProperties.asProperties ⟨[("k".toList, Value.int 7)]⟩)
        (.slice [] tyUint32) noRO (.slice []) "k".toList none ⟨[], "k".toList, [], false⟩
      = .abort Err.notSupported (.slice []) :=
  ⟨((unsupported_elements_abort noConverters
        (defaultProperties.asProperties ⟨[("k".toList, Value.int 7)]⟩) noRO (.map [])
        "k".toList none ⟨[], "k".toList, [], false⟩).1 [] tyString tyUint32 rfl rfl
        (Or.inl rfl)).trans rfl,
   ((unsupported_elements_abort noConverters
        (defaultProperties.asProperties ⟨[("k".toList, Value.int 7)]⟩) noRO (.slice [])
        "k".toList none ⟨[], "k".toList, [], false⟩).2 [] tyUint32 rfl (Or.inl rfl)).trans rfl⟩

/-! ## Fatal errors of the binder (C13, C14, C15, C16) -/

/-- C13: a struct destination cannot carry a default literal. For every struct type without
a registered converter, every store and every present default value, `bindValue` aborts with
the error that a struct field cannot specify a default, and the destination is as it was: no
field was bound. A tag with a `:=`, such as `${x:=}` with its empty literal, brings a
struct field to this error. -/
theorem struct_default_rejected (tc : TypeConverters) (p : Properties) (n : Str)
    (fields : List (StructField × Ty)) (ro : Flags) (v : DVal) (opt : bindOption)
    (h : tc (.struct n fields) = none) :
    (∀ key d, bindValue tc p (.struct n fields) ro v key (some d) opt
      = .abort (Err.structDefault opt.fieldName) v) ∧
    (∀ name rest, ¬ assignSep <:+: name →
      bindStructField tc p (.struct n fields) ro v (tagOf (name ++ assignSep ++ rest)) opt
        = .abort (Err.structDefault opt.fieldName) v) := by
  have h1 : ∀ key d (o : bindOption), bindValue tc p (.struct n fields) ro v key (some d) o
      = .abort (Err.structDefault o.fieldName) v := by
    intro key d o
    rw [bindValue_struct_eq, h]
  refine ⟨fun key d => h1 key d opt, ?_⟩
  intro name rest hname
  rw [bindStructField_tagOf tc p (.struct n fields) ro v _ opt rfl,
    split_assign_first name rest hname]
  cases hs : Str.split rest assignSep with
  | nil => exact absurd hs (Str.splitGo_ne_nil _ _ _)
  | cons d more => exact h1 _ d _

/-- C13 on the struct `Pair` and the tag `${x:=}`. -/
theorem struct_default_rejected_witness :
    bindStructField noConverters (defaultProperties.asProperties ⟨[]⟩) exPair noRO
        (zeroVal exPair) (tagOf ("x".toList ++ assignSep ++ []))
        ⟨[], [], "Outer.$P".toList, false⟩
      = .abort (Err.structDefault "Outer.$P".toList) (zeroVal exPair) :=
  (struct_default_rejected noConverters (defaultProperties.asProperties ⟨[]⟩) "Pair".toList
    [(taggedField "X".toList "x".toList, tyInt), (taggedField "Y".toList "y".toList, tyInt)]
    noRO (zeroVal exPair) ⟨[], [], "Outer.$P".toList, false⟩ rfl).2 "x".toList []
    (by decide)

theorem hasPrefix_iff (s pre : Str) : Str.hasPrefix s pre = true ↔ pre <+: s := by
  unfold Str.hasPrefix
  exact List.isPrefixOf_iff_prefix

theorem hasSuffix_iff (s suf : Str) : Str.hasSuffix s suf = true ↔ suf <:+ s := by
  unfold Str.hasSuffix
  rw [List.isPrefixOf_iff_prefix, List.reverse_prefix]

/-- C14: malformed tags are errors. For every tag that does not both start with `${` and end
with `}`, `bindStructField` aborts with the tag-syntax error that names the field, for every
destination type, every flag and every store, and the destination is as it was; the outcome
is the same whatever the store holds. -/
theorem malformed_tag_rejected (tc : TypeConverters) (p : Properties) (t : Ty) (ro : Flags)
    (v : DVal) (tag : Str) (opt : bindOption)
    (h : ¬ ("$\x7b".toList <+: tag ∧ "\x7d".toList <:+ tag)) :
    bindStructField tc p t ro v tag opt = .abort (Err.tagSyntax opt.fieldName) v := by
  have hc : (!(Str.hasPrefix tag "$\x7b".toList && Str.hasSuffix tag "\x7d".toList)) = true := by
    rw [Bool.not_eq_true', Bool.and_eq_false_iff]
    by_cases h1 : "$\x7b".toList <+: tag
    · right
      cases hs : Str.hasSuffix tag "\x7d".toList with
      | false => rfl
      | true => exact absurd ⟨h1, (hasSuffix_iff _ _).1 hs⟩ h
    · left
      cases hs : Str.hasPrefix tag "$\x7b".toList with
      | false => rfl
      | true => exact absurd ((hasPrefix_iff _ _).1 hs) h1
  unfold bindStructField bindStructFieldArgs
  rw [if_pos hc]

/-- C14 on the tag `a.b` of an `int` field. -/
theorem malformed_tag_rejected_witness :
    ¬ ("$\x7b".toList <+: "a.b".toList ∧ "\x7d".toList <:+ "a.b".toList) ∧
    bindStructField noConverters
        (defaultProperties.asProperties ⟨[("a.b".toList, Value.int 1)]⟩) tyInt noRO (.int 0)
        "a.b".toList ⟨[], [], "S.$V".toList, false⟩
      = .abort (Err.tagSyntax "S.$V".toList) (.int 0) :=
  ⟨by decide,
   malformed_tag_rejected noConverters
     (defaultProperties.asProperties ⟨[("a.b".toList, Value.int 1)]⟩) tyInt noRO (.int 0)
     "a.b".toList ⟨[], [], "S.$V".toList, false⟩ (by decide)⟩

/-- C15: `BindPropertyIf` and `BindProperty` called with a destination that is not a pointer
abort with the error of the invalid target, for every store, key, registry and flag. The
outcome does not depend on the store, so that no lookup stands behind it, and the store is
unchanged. -/
theorem BindPropertyIf_nonPointer (tc : TypeConverters) (p : defaultProperties) (key : Str)
    (t : Ty) (v : DVal) (allAccess : Bool) :
    p.BindPropertyIf tc key (.value t v) allAccess = (.abort Err.notPointer v, p) ∧
    p.BindProperty tc key (.value t v) = (.abort Err.notPointer v, p) :=
  ⟨rfl, rfl⟩

/-- C16: a tagged struct field of pointer kind is never bound. For every well-formed tag,
every store, every registry and every binding option, `bindStructField` on a destination of
pointer kind aborts with the error that the target of a binding cannot be a pointer; the
outcome is the same whatever the store holds, and the field is unchanged. -/
theorem pointer_field_rejected (tc : TypeConverters) (p : Properties) (t : Ty) (ro : Flags)
    (v : DVal) (tag : Str) (opt : bindOption) (hptr : t.isPtr = true)
    (hpre : "$\x7b".toList <+: tag) (hsuf : "\x7d".toList <:+ tag) :
    bindStructField tc p t ro v tag opt = .abort (Err.pointerTarget opt.fieldName) v := by
  have hc : (!(Str.hasPrefix tag "$\x7b".toList && Str.hasSuffix tag "\x7d".toList)) = false := by
    rw [(hasPrefix_iff _ _).2 hpre, (hasSuffix_iff _ _).2 hsuf]
    rfl
  unfold bindStructField bindStructFieldArgs
  rw [hc, hptr]
  rfl

/-- C16 on a field of type `*int` tagged `${a}`, with the key `a` in the store. -/
theorem pointer_field_rejected_witness :
    tyIntPtr.isPtr = true ∧
    bindStructField noConverters
        (defaultProperties.asProperties ⟨[("a".toList, Value.int 1)]⟩) tyIntPtr noRO DVal.other
        (tagOf "a".toList) ⟨[], [], "S.$P".toList, false⟩
      = .abort (Err.pointerTarget "S.$P".toList) DVal.other :=
  ⟨rfl,
   pointer_field_rejected noConverters
     (defaultProperties.asProperties ⟨[("a".toList, Value.int 1)]⟩) tyIntPtr noRO DVal.other
     (tagOf "a".toList) ⟨[], [], "S.$P".toList, false⟩ rfl (by decide) (by decide)⟩

/-! ## Determinism (C17) -/

/-- C17 (defect of the code): the result of a binding depends on the order in which the
entries of the store are enumerated. The store `m.a.x.p = 1, m.a.x.q = 2` and the same store
enumerated in the opposite order bind `map[string]E`, with `E{X int "${x}"}`, under `m` to
`{a: E{2}}` and to `{a: E{1}}`: the regrouping loop files both entries under the segments
`a` and `x` and the later one overwrites the earlier one. -/
theorem binding_order_dependent :
    exDeepSwapped.properties.Perm exDeep.properties ∧
    (GoMap.keys exDeep.properties).Nodup ∧
    (exDeep.BindProperty noConverters "m".toList
        (.pointer (.map [] tyString exOnlyX) (zeroVal (.map [] tyString exOnlyX)))).1
      = .ok (.map [("a".toList, .struct [.int 2])]) ∧
    (exDeepSwapped.BindProperty noConverters "m".toList
        (.pointer (.map [] tyString exOnlyX) (zeroVal (.map [] tyString exOnlyX)))).1
      = .ok (.map [("a".toList, .struct [.int 1])]) :=
  ⟨List.Perm.swap _ _ _, by decide, rfl, rfl⟩

/-! ## The case of the property name for a map destination (C18) -/

/-- C18 (defect of the code): for a `map[string]string` destination the property name is
not treated case-insensitively. On the store `db.host = h, db.port = p` binding under `db`
yields `{host: h, port: p}`, but binding under `DB` finds the same entries and yields
`{db.host: h, db.port: p}`: the prefix `DB.` that is trimmed from the keys is not
lower-cased. -/
theorem BindProperty_map_caseSensitive :
    (exDb.BindProperty noConverters "db".toList (.pointer tyStringMap (zeroVal tyStringMap))).1
      = .ok (.map [("host".toList, .str "h".toList), ("port".toList, .str "p".toList)]) ∧
    (exDb.BindProperty noConverters "DB".toList (.pointer tyStringMap (zeroVal tyStringMap))).1
      = .ok (.map [("db.host".toList, .str "h".toList), ("db.port".toList, .str "p".toList)]) :=
  ⟨rfl, rfl⟩

/-! ## Fields that are skipped (C19) -/

theorem fieldRound_snd (ft : StructField) (t : Ty) (ro : Flags) (vs : List DVal)
    (opt : bindOption) (viaTag : Flags → DVal → Str → Option Str → bindOption → Outcome)
    (viaStruct : Flags → DVal → bindOption → Outcome) (next : FieldsOutcome) :
    ∃ x, (fieldRound ft t ro vs opt viaTag viaStruct next).2 = x :: vs.tail
      ∨ (fieldRound ft t ro vs opt viaTag viaStruct next).2 = x :: next.2 := by
  unfold fieldRound
  cases ft.Tag with
  | some tag =>
    simp only
    cases bindStructFieldArgs t.isPtr tag (subOption opt ft) with
    | error e => exact ⟨_, Or.inl rfl⟩
    | ok r =>
      obtain ⟨a, b, c⟩ := r
      simp only
      cases viaTag (ValuePatchIf (fieldFlags ro ft) opt.allAccess) (vs.headD (zeroVal t)) a b c with
      | abort e fv1 => exact ⟨_, Or.inl rfl⟩
      | ok fv1 => exact ⟨_, Or.inr rfl⟩
  | none =>
    simp only
    split
    · cases viaStruct (ValuePatchIf (fieldFlags ro ft) opt.allAccess) (vs.headD (zeroVal t))
        (subOption opt ft) with
      | abort e fv1 => exact ⟨_, Or.inl rfl⟩
      | ok fv1 => exact ⟨_, Or.inr rfl⟩
    · exact ⟨_, Or.inr rfl⟩

/-- The round of the loop of `bindStruct` on an untagged field that is neither embedded nor
of struct kind: the value of the field is kept and the loop goes on. -/
theorem bindFields_skip (tc : TypeConverters) (p : Properties) (ft : StructField) (t : Ty)
    (rest : List (StructField × Ty)) (ro : Flags) (vs : List DVal) (opt : bindOption)
    (htag : ft.Tag = none) (hanon : ft.Anonymous = false) (hkind : t.isStruct = false) :
    bindFields tc p ((ft, t) :: rest) ro vs opt
      = ((bindFields tc p rest ro vs.tail opt).1,
          vs.headD (zeroVal t) :: (bindFields tc p rest ro vs.tail opt).2) := by
  rw [bindFields_cons_eq]
  unfold fieldRound
  rw [htag, hanon, hkind]
  rfl

theorem bindFields_keeps_skipped (tc : TypeConverters) (p : Properties)
    (fields : List (StructField × Ty)) (ro : Flags) (vs : List DVal) (opt : bindOption)
    (i : Nat) (ft : StructField) (t : Ty) (hi : fields[i]? = some (ft, t))
    (htag : ft.Tag = none) (hanon : ft.Anonymous = false) (hkind : t.isStruct = false)
    (hlen : i < vs.length) :
    (bindFields tc p fields ro vs opt).2[i]? = vs[i]? := by
  induction fields generalizing vs i with
  | nil => simp at hi
  | cons f rest ih =>
    obtain ⟨f0, t0⟩ := f
    cases vs with
    | nil => simp at hlen
    | cons a as =>
      cases i with
      | zero =>
        simp only [List.getElem?_cons_zero, Option.some.injEq, Prod.mk.injEq] at hi
        obtain ⟨h1, h2⟩ := hi
        subst h1 h2
        rw [bindFields_skip tc p f0 t0 rest ro _ opt htag hanon hkind]
        simp
      | succ j =>
        simp only [List.getElem?_cons_succ] at hi
        simp only [List.length_cons, Nat.add_lt_add_iff_right] at hlen
        have ih1 := ih as j hi hlen
        rw [bindFields_cons_eq]
        obtain ⟨x, hx | hx⟩ := fieldRound_snd f0 t0 ro (a :: as) opt
          (fun fro fv propName defaultValue opt1 =>
            bindValue tc p t0 fro fv propName defaultValue opt1)
          (fun fro fv subOpt => bindStruct tc p t0 fro fv subOpt)
          (bindFields tc p rest ro (a :: as).tail opt)
        · rw [hx]
          rfl
        · rw [hx]
          simp only [List.getElem?_cons_succ, List.tail_cons]
          exact ih1

theorem bindFields_all_skipped (tc : TypeConverters) (p : Properties)
    (fields : List (StructField × Ty)) (ro : Flags) (vs : List DVal) (opt : bindOption)
    (hall : ∀ f ∈ fields, f.1.Tag = none ∧ f.1.Anonymous = false ∧ f.2.isStruct = false)
    (hlen : vs.length = fields.length) :
    bindFields tc p fields ro vs opt = (none, vs) := by
  induction fields generalizing vs with
  | nil => rfl
  | cons f rest ih =>
    obtain ⟨f0, t0⟩ := f
    cases vs with
    | nil => simp at hlen
    | cons a as =>
      have h0 := hall (f0, t0) (List.mem_cons_self _ _)
      rw [bindFields_skip tc p f0 t0 rest ro _ opt h0.1 h0.2.1 h0.2.2,
        List.tail_cons, ih as (fun f hf => hall f (List.mem_cons_of_mem _ hf))
          (by simpa using hlen)]
      rfl

/-- C19: `bindStruct` leaves every untagged field that is neither embedded nor of struct
kind as it was. For every store, registry, struct type and struct value, whether the call
returns or aborts, the field at such a position holds the value it held before; the round
of the loop for such a field only passes on to the next field, without a call that receives
the store; and a struct all of whose fields are of this sort is returned unchanged on every
store. -/
theorem bindStruct_skips_untagged (tc : TypeConverters) (p : Properties) (n : Str)
    (fields : List (StructField × Ty)) (ro : Flags) (vs : List DVal) (opt : bindOption) :
    (∀ i ft t, fields[i]? = some (ft, t) → ft.Tag = none → ft.Anonymous = false →
      t.isStruct = false → i < vs.length →
      (bindStruct tc p (.struct n fields) ro (.struct vs) opt).dest.fieldsOf[i]? = vs[i]?) ∧
    (∀ ft t rest, ft.Tag = none → ft.Anonymous = false → t.isStruct = false →
      bindFields tc p ((ft, t) :: rest) ro vs opt
        = ((bindFields tc p rest ro vs.tail opt).1,
            vs.headD (zeroVal t) :: (bindFields tc p rest ro vs.tail opt).2)) ∧
    ((∀ f ∈ fields, f.1.Tag = none ∧ f.1.Anonymous = false ∧ f.2.isStruct = false) →
      vs.length = fields.length →
      bindStruct tc p (.struct n fields) ro (.struct vs) opt = .ok (.struct vs)) := by
  refine ⟨?_, ?_, ?_⟩
  · intro i ft t hi htag hanon hkind hlen
    have h := bindFields_keeps_skipped tc p fields ro vs opt i ft t hi htag hanon hkind hlen
    show (structOutcome (bindFields tc p fields ro vs opt)).dest.fieldsOf[i]? = vs[i]?
    rcases hb : bindFields tc p fields ro vs opt with ⟨e, fs⟩
    rw [hb] at h
    cases e <;> exact h
  · intro ft t rest htag hanon hkind
    exact bindFields_skip tc p ft t rest ro vs opt htag hanon hkind
  · intro hall hlen
    show structOutcome (bindFields tc p fields ro vs opt) = _
    rw [bindFields_all_skipped tc p fields ro vs opt hall hlen]
    rfl

/-- C19 on `S{A int "${a}"; B int}` with the value `S{0, 9}`: the untagged field `B` keeps
the value 9, on the store `a = 1, b = 5` where the binding returns and on the empty store
where it aborts. -/
theorem bindStruct_skips_untagged_witness :
    (bindStruct noConverters
        (defaultProperties.asProperties ⟨[("a".toList, Value.int 1), ("b".toList, Value.int 5)]⟩)
        (.struct "S".toList
          [(taggedField "A".toList "a".toList, tyInt), (plainField "B".toList, tyInt)])
        noRO (.struct [.int 0, .int 9]) ⟨[], [], "S".toList, false⟩).dest.fieldsOf[1]?
      = some (DVal.int 9) ∧
    (bindStruct noConverters (defaultProperties.asProperties ⟨[]⟩)
        (.struct "S".toList
          [(taggedField "A".toList "a".toList, tyInt), (plainField "B".toList, tyInt)])
        noRO (.struct [.int 0, .int 9]) ⟨[], [], "S".toList, false⟩).dest.fieldsOf[1]?
      = some (DVal.int 9) :=
  ⟨(bindStruct_skips_untagged noConverters
      (defaultProperties.asProperties ⟨[("a".toList, Value.int 1), ("b".toList, Value.int 5)]⟩)
      "S".toList [(taggedField "A".toList "a".toList, tyInt), (plainField "B".toList, tyInt)]
      noRO [.int 0, .int 9] ⟨[], [], "S".toList, false⟩).1 1 (plainField "B".toList) tyInt
      rfl rfl rfl rfl (by decide),
   (bindStruct_skips_untagged noConverters (defaultProperties.asProperties ⟨[]⟩)
      "S".toList [(taggedField "A".toList "a".toList, tyInt), (plainField "B".toList, tyInt)]
      noRO [.int 0, .int 9] ⟨[], [], "S".toList, false⟩).1 1 (plainField "B".toList) tyInt
      rfl rfl rfl rfl (by decide)⟩

/-! ## The temporary stores of slice and map elements (C20) -/

/-- C20 (defect of the code): the temporary store of a slice element is the map of the
element as it is, its keys not lower-cased, while every lookup lower-cases the name. On
`items = [{Name: foo}]` a field tagged `${name}`, and as well a field tagged `${Name}`, finds
nothing and the binding aborts with `not config`; with the key `name` in the map of the
element the field is bound to `foo`. -/
theorem tempStore_keys_not_normalised :
    (exItemsUpperKey.BindProperty noConverters "items".toList
        (.pointer (.slice [] exItemLower) (.slice []))).1
      = .abort (Err.notConfig "ItemN.$Name".toList "items[0].name".toList) (.slice []) ∧
    (exItemsUpperKey.BindProperty noConverters "items".toList
        (.pointer (.slice [] exItemUpper) (.slice []))).1
      = .abort (Err.notConfig "ItemN.$Name".toList "items[0].Name".toList) (.slice []) ∧
    (exItemsLowerKey.BindProperty noConverters "items".toList
        (.pointer (.slice [] exItemLower) (.slice []))).1
      = .ok (.slice [.struct [.str "foo".toList]]) ∧
    (defaultProperties.GetDefaultProperty ⟨[("Name".toList, Value.str "foo".toList)]⟩
        "Name".toList Value.nil).1
      = (Value.nil, false) :=
  ⟨rfl, rfl, rfl, rfl⟩

/-! ## The second segment of a regrouped key (C22) -/

/-- A text with a dot splits at dots into at least two pieces. -/
theorem split_dot_two (s : Str) (h : '.' ∈ s) :
    ∃ a b more, Str.split s ['.'] = a :: b :: more := by
  unfold Str.split
  induction s with
  | nil => cases h
  | cons c cs ih =>
    by_cases hc : c = '.'
    · subst hc
      have h1 := Str.splitGo_sep '.' [] cs
      simp only [List.singleton_append] at h1
      rw [h1]
      cases hs : Str.splitGo ['.'] cs 0 with
      | nil => exact absurd hs (Str.splitGo_ne_nil _ _ _)
      | cons b more => exact ⟨[], b, more, rfl⟩
    · have hcs : '.' ∈ cs := by
        rcases List.mem_cons.1 h with h1 | h1
        · exact absurd h1.symm hc
        · exact h1
      obtain ⟨a, b, more, hab⟩ := ih hcs
      have hnp : ¬ ['.'] <+: (c :: cs) := by
        rintro ⟨t, ht⟩
        simp only [List.singleton_append, List.cons.injEq] at ht
        exact hc ht.1.symm
      rw [Str.splitGo_cons _ _ _ hnp, hab]
      exact ⟨c :: a, b, more, rfl⟩

theorem regroupStep_dotted (trimKey k0 : Str) (v0 : Value) (temp : GoMap (GoMap Value))
    (h : '.' ∈ Str.trimPrefix k0 trimKey) :
    ∃ temp1, regroupStep trimKey temp k0 v0 = .ok temp1 := by
  obtain ⟨a, b, more, hab⟩ := split_dot_two _ h
  unfold regroupStep
  rw [hab]
  exact ⟨_, rfl⟩

theorem regroupStep_undotted (trimKey k0 : Str) (v0 : Value) (temp : GoMap (GoMap Value))
    (h : '.' ∉ Str.trimPrefix k0 trimKey) :
    regroupStep trimKey temp k0 v0 = .error Err.indexOutOfRange := by
  unfold regroupStep
  rw [Str.split_dot_none _ h]

theorem regroup_all_dotted (trimKey : Str) (m : GoMap Value)
    (h : ∀ kv ∈ m, '.' ∈ Str.trimPrefix kv.1 trimKey) :
    ∀ temp, ∃ temp1, regroup trimKey m temp = .ok temp1 := by
  induction m with
  | nil => exact fun temp => ⟨temp, rfl⟩
  | cons kv rest ih =>
    intro temp
    obtain ⟨k0, v0⟩ := kv
    obtain ⟨t1, ht1⟩ := regroupStep_dotted trimKey k0 v0 temp (h (k0, v0) (List.mem_cons_self _ _))
    rw [regroup_cons_eq, ht1]
    exact ih (fun kv hkv => h kv (List.mem_cons_of_mem _ hkv)) t1

theorem regroup_some_undotted (trimKey : Str) (m : GoMap Value)
    (h : ∃ kv ∈ m, '.' ∉ Str.trimPrefix kv.1 trimKey) :
    ∀ temp, regroup trimKey m temp = .error Err.indexOutOfRange := by
  induction m with
  | nil =>
    obtain ⟨kv, hkv, _⟩ := h
    cases hkv
  | cons kv rest ih =>
    intro temp
    obtain ⟨k0, v0⟩ := kv
    rw [regroup_cons_eq]
    by_cases hd : '.' ∈ Str.trimPrefix k0 trimKey
    · obtain ⟨t1, ht1⟩ := regroupStep_dotted trimKey k0 v0 temp hd
      rw [ht1]
      apply ih
      obtain ⟨kv, hkv, hno⟩ := h
      rcases List.mem_cons.1 hkv with h1 | h1
      · rw [h1] at hno
        exact absurd hd hno
      · exact ⟨kv, h1, hno⟩
    · rw [regroupStep_undotted trimKey k0 v0 temp hd]

/-- C22: in the binding of a map of structs the regrouping loop reads the second
dot-separated segment of every stripped key without a check. For a map destination without
converter, with string keys and an element of struct kind (or any other kind outside the
scalar ones) without converter, whose effective value is the mapping `m`: when `m` has a key
that holds no dot after the prefix `propName + "."` is stripped, `bindValue` aborts with
the access out of range and the destination is as it was; and when every stripped key
holds a dot, the regrouping loop returns its buckets. -/
theorem regroup_reads_second_segment (tc : TypeConverters) (p : Properties) (n : Str)
    (keyType elemType : Ty) (ro : Flags) (v : DVal) (propName : Str) (dv : Option Str)
    (opt : bindOption) (m : GoMap Value)
    (hmap : tc (.map n keyType elemType) = none) (hkey : keyType.cls = .string)
    (hcls : elemType.cls = .other) (helem : tc elemType = none)
    (hval : getPropValue p propName dv opt = .ok (Value.map m)) :
    ((∃ kv ∈ m, '.' ∉ Str.trimPrefix kv.1 (propName ++ ['.'])) →
      bindValue tc p (.map n keyType elemType) ro v propName dv opt
        = .abort Err.indexOutOfRange v) ∧
    ((∀ kv ∈ m, '.' ∈ Str.trimPrefix kv.1 (propName ++ ['.'])) →
      ∃ temp, regroup (propName ++ ['.']) m [] = .ok temp) := by
  constructor
  · intro hno
    rw [bindValue_map_eq, hmap]
    simp only
    rw [hval]
    simp only
    unfold bindMapCase
    rw [hkey, hcls, helem]
    simp only [ne_eq, not_true_eq_false, if_false, cast.ToStringMapE]
    rw [regroup_some_undotted _ m hno []]
  · intro hall
    exact regroup_all_dotted _ m hall []

/-- C22 on the nested value `settings = {a: {...}, b: {...}}`: the key `a` holds no dot,
and binding `map[string]Pair` under `settings` aborts with the access out of range. -/
theorem regroup_reads_second_segment_witness :
    bindValue noConverters exSettingsNested.asProperties (.map [] tyString exPair) noRO (.map [])
        "settings".toList none ⟨[], "settings".toList, "Pair".toList, false⟩
      = .abort Err.indexOutOfRange (.map []) :=
  (regroup_reads_second_segment noConverters exSettingsNested.asProperties [] tyString exPair
    noRO (.map []) "settings".toList none ⟨[], "settings".toList, "Pair".toList, false⟩
    [("a".toList, Value.map [("x".toList, Value.int 1), ("y".toList, Value.int 2)]),
     ("b".toList, Value.map [("x".toList, Value.int 3), ("y".toList, Value.int 4)])]
    rfl rfl rfl rfl rfl).1
    ⟨("a".toList, Value.map [("x".toList, Value.int 1), ("y".toList, Value.int 2)]),
      List.mem_cons_self _ _, by decide⟩

/-! ## The slicing of the tag (C23) -/

/-- A text that starts with `${` and ends with `}` is `${body}` for some body. -/
theorem eq_tagOf_of_checks (tag : Str) (hpre : "$\x7b".toList <+: tag)
    (hsuf : "\x7d".toList <:+ tag) : ∃ body, tag = tagOf body := by
  obtain ⟨r, hr⟩ := hpre
  obtain ⟨q, hq⟩ := hsuf
  rcases List.eq_nil_or_concat r with h | ⟨body, c, h⟩
  · exfalso
    rw [h] at hr
    rw [← hr] at hq
    have h2 : q = ['$'] := by
      have h3 : q ++ ['\x7d'] = ['$'] ++ ['\x7b'] := hq
      exact (List.append_inj' h3 rfl).1
    rw [h2] at hq
    exact absurd hq (by decide)
  · refine ⟨body, ?_⟩
    rw [h] at hr
    rw [← hr] at hq
    have h3 : q ++ ['\x7d'] = ('$' :: '\x7b' :: body) ++ [c] := by
      rw [List.concat_eq_append] at hq
      exact hq
    have h4 := (List.append_inj' h3 rfl).2
    rw [← hr, List.concat_eq_append, ← List.singleton_inj.1 h4]
    rfl

/-- C23: the slicing of the tag in `bindStructField` is always in bounds. Every text that
starts with `${` and ends with `}` has at least 3 characters; the slice
`tag[2:len(tag)-1]` taken after the check of the syntax exists, and it is the body of the
tag; `strings.Split` of it yields at least one piece, so that piece 0 can be read; and the
body of `bindStructField` before its call of `bindValue` never stops with an access out of
range. -/
theorem tag_slicing_in_bounds (tag : Str) (hpre : "$\x7b".toList <+: tag)
    (hsuf : "\x7d".toList <:+ tag) :
    3 ≤ tag.length ∧
    (∃ body, sliceStr tag 2 ((tag.length : Int) - 1) = some body ∧ tag = tagOf body ∧
      1 ≤ (Str.split body assignSep).length) ∧
    (∀ isPtr opt, bindStructFieldArgs isPtr tag opt ≠ .error Err.indexOutOfRange) := by
  obtain ⟨body, hb⟩ := eq_tagOf_of_checks tag hpre hsuf
  subst hb
  refine ⟨?_, ⟨body, (tagOf_checks body).2, rfl, ?_⟩, ?_⟩
  · simp [tagOf]
  · cases hs : Str.split body assignSep with
    | nil => exact absurd hs (Str.splitGo_ne_nil _ _ _)
    | cons a more => simp
  · intro isPtr opt
    cases isPtr with
    | false =>
      rw [bindStructFieldArgs_tagOf]
      intro h
      cases h
    | true =>
      unfold bindStructFieldArgs
      rw [(tagOf_checks body).1]
      intro h
      simp at h

/-- C23 on the shortest well-formed tag `${}`: it has 3 characters and its slice is the
empty body. -/
theorem tag_slicing_in_bounds_witness :
    3 ≤ (tagOf []).length ∧
    bindStructFieldArgs false (tagOf []) ⟨[], [], [], false⟩ ≠ .error Err.indexOutOfRange :=
  ⟨(tag_slicing_in_bounds (tagOf []) (by decide) (by decide)).1,
   (tag_slicing_in_bounds (tagOf []) (by decide) (by decide)).2.2 false ⟨[], [], [], false⟩⟩

/-! ## Termination and the depth of the recursion (C21) -/

theorem sliceElemsDepth_le (bindElem : GoMap Value → Nat → Outcome)
    (elemDepth : GoMap Value → Nat → Nat) (b : Nat) (h : ∀ sv i, elemDepth sv i ≤ b) :
    ∀ (s : List Value) (i : Nat), sliceElemsDepth bindElem elemDepth s i ≤ b := by
  intro s
  induction s with
  | nil => intro i; exact Nat.zero_le _
  | cons si rest ih =>
    intro i
    unfold sliceElemsDepth
    split
    · exact Nat.zero_le _
    · split
      · exact h _ _
      · exact max_le (h _ _) (ih (i + 1))

theorem mapElemsDepth_le (bindElem : Str → GoMap Value → Outcome)
    (elemDepth : Str → GoMap Value → Nat) (keyOk : Bool) (b : Nat)
    (h : ∀ k1 v1, elemDepth k1 v1 ≤ b) :
    ∀ temp : GoMap (GoMap Value), mapElemsDepth bindElem elemDepth keyOk temp ≤ b := by
  intro temp
  induction temp with
  | nil => exact Nat.zero_le _
  | cons kv rest ih =>
    obtain ⟨k1, v1⟩ := kv
    unfold mapElemsDepth
    split
    · exact h _ _
    · split
      · exact max_le (h _ _) ih
      · exact h _ _

theorem sliceCaseDepth_le (tc : TypeConverters) (elemType : Ty) (propValue : Value)
    (bindElem : GoMap Value → Nat → Outcome) (elemDepth : GoMap Value → Nat → Nat) (b : Nat)
    (h : ∀ sv i, elemDepth sv i ≤ b) :
    sliceCaseDepth tc elemType propValue bindElem elemDepth ≤ b := by
  unfold sliceCaseDepth
  split
  · split
    · exact Nat.zero_le _
    · split
      · exact sliceElemsDepth_le bindElem elemDepth b h _ _
      · exact Nat.zero_le _
  · exact Nat.zero_le _

theorem mapCaseDepth_le (tc : TypeConverters) (keyType elemType : Ty) (propName : Str)
    (propValue : Value) (bindElem : Str → GoMap Value → Outcome)
    (elemDepth : Str → GoMap Value → Nat) (b : Nat) (h : ∀ k1 v1, elemDepth k1 v1 ≤ b) :
    mapCaseDepth tc keyType elemType propName propValue bindElem elemDepth ≤ b := by
  unfold mapCaseDepth
  split
  · exact Nat.zero_le _
  · split
    · split
      · exact Nat.zero_le _
      · split
        · split
          · exact Nat.zero_le _
          · exact mapElemsDepth_le bindElem elemDepth _ b h _
        · exact Nat.zero_le _
    · exact Nat.zero_le _

theorem fieldRoundDepth_le (ft : StructField) (t : Ty) (ro : Flags) (vs : List DVal)
    (opt : bindOption)
    (viaTag : Flags → DVal → Str → Option Str → bindOption → Outcome)
    (tagDepth : Flags → DVal → Str → Option Str → bindOption → Nat)
    (viaStruct : Flags → DVal → bindOption → Outcome)
    (structDepth : Flags → DVal → bindOption → Nat) (next b : Nat)
    (htag : ∀ fro fv pn dv o, 1 + tagDepth fro fv pn dv o ≤ b)
    (hstruct : ∀ fro fv o, structDepth fro fv o ≤ b) (hnext : next ≤ b) :
    fieldRoundDepth ft t ro vs opt viaTag tagDepth viaStruct structDepth next ≤ b := by
  have h1 : 1 ≤ b := le_trans (Nat.le_add_right 1 _) (htag noRO (zeroVal t) [] none ⟨[], [], [], false⟩)
  unfold fieldRoundDepth
  split
  · split
    · exact h1
    · split
      · exact htag _ _ _ _ _
      · exact max_le (htag _ _ _ _ _) hnext
  · split
    · split
      · exact hstruct _ _ _
      · exact max_le (hstruct _ _ _) hnext
    · exact hnext

theorem Ty.depth_struct_eq (name : Str) (fields : List (StructField × Ty)) :
    (Ty.struct name fields).depth = fieldsDepth fields + 1 := by
  simp [Ty.depth]

theorem Ty.depth_slice_eq (name : Str) (elem : Ty) :
    (Ty.slice name elem).depth = elem.depth + 1 := by
  simp [Ty.depth]

theorem Ty.depth_map_eq (name : Str) (key elem : Ty) :
    (Ty.map name key elem).depth = max key.depth elem.depth + 1 := by
  simp [Ty.depth]

theorem fieldsDepth_cons_eq (ft : StructField) (t : Ty) (rest : List (StructField × Ty)) :
    fieldsDepth ((ft, t) :: rest) = max t.depth (fieldsDepth rest) := by
  simp [fieldsDepth]

theorem bindValueDepth_basic_eq (tc : TypeConverters) (p : Properties) (name : Str)
    (k : BasicKind) (ro : Flags) (v : DVal) (propName : Str) (dv : Option Str)
    (opt : bindOption) : bindValueDepth tc p (.basic name k) ro v propName dv opt = 1 := rfl

theorem bindValueDepth_struct_eq (tc : TypeConverters) (p : Properties) (name : Str)
    (fields : List (StructField × Ty)) (ro : Flags) (v : DVal) (propName : Str)
    (dv : Option Str) (opt : bindOption) :
    bindValueDepth tc p (.struct name fields) ro v propName dv opt
      = match tc (.struct name fields) with
        | some _ => 1
        | none =>
          match dv with
          | some _ => 1
          | none =>
            1 + (1 + bindFieldsDepth tc p fields ro v.fieldsOf
              ⟨propName, opt.fullPropName, opt.fieldName, opt.allAccess⟩) := rfl

theorem bindValueDepth_slice_eq (tc : TypeConverters) (p : Properties) (name : Str)
    (elemType : Ty) (ro : Flags) (v : DVal) (propName : Str) (dv : Option Str)
    (opt : bindOption) :
    bindValueDepth tc p (.slice name elemType) ro v propName dv opt
      = match tc (.slice name elemType) with
        | some _ => 1
        | none =>
          match getPropValue p propName dv opt with
          | .error _ => 1
          | .ok propValue =>
            1 + sliceCaseDepth tc elemType propValue
              (fun sv i =>
                bindStruct tc (defaultProperties.asProperties ⟨sv⟩) elemType noRO
                  (zeroVal elemType)
                  ⟨[], indexName propName i, opt.fieldName, opt.allAccess⟩)
              (fun sv i =>
                bindStructDepth tc (defaultProperties.asProperties ⟨sv⟩) elemType noRO
                  (zeroVal elemType)
                  ⟨[], indexName propName i, opt.fieldName, opt.allAccess⟩) := by
  cases elemType <;> rfl

theorem bindValueDepth_map_eq (tc : TypeConverters) (p : Properties) (name : Str)
    (keyType elemType : Ty) (ro : Flags) (v : DVal) (propName : Str) (dv : Option Str)
    (opt : bindOption) :
    bindValueDepth tc p (.map name keyType elemType) ro v propName dv opt
      = match tc (.map name keyType elemType) with
        | some _ => 1
        | none =>
          match getPropValue p propName dv opt with
          | .error _ => 1
          | .ok propValue =>
            1 + mapCaseDepth tc keyType elemType propName propValue
              (fun k1 v1 =>
                bindStruct tc (defaultProperties.asProperties ⟨v1⟩) elemType noRO
                  (zeroVal elemType)
                  ⟨[], propName ++ ['.'] ++ k1, opt.fieldName, opt.allAccess⟩)
              (fun k1 v1 =>
                bindStructDepth tc (defaultProperties.asProperties ⟨v1⟩) elemType noRO
                  (zeroVal elemType)
                  ⟨[], propName ++ ['.'] ++ k1, opt.fieldName, opt.allAccess⟩) := by
  cases elemType <;> rfl

theorem bindFieldsDepth_nil_eq (tc : TypeConverters) (p : Properties) (ro : Flags)
    (vs : List DVal) (opt : bindOption) : bindFieldsDepth tc p [] ro vs opt = 0 := rfl

theorem bindFieldsDepth_cons_eq (tc : TypeConverters) (p : Properties) (ft : StructField)
    (t : Ty) (rest : List (StructField × Ty)) (ro : Flags) (vs : List DVal)
    (opt : bindOption) :
    bindFieldsDepth tc p ((ft, t) :: rest) ro vs opt
      = fieldRoundDepth ft t ro vs opt
          (fun fro fv propName dv opt1 => bindValue tc p t fro fv propName dv opt1)
          (fun fro fv propName dv opt1 => bindValueDepth tc p t fro fv propName dv opt1)
          (fun fro fv subOpt => bindStruct tc p t fro fv subOpt)
          (fun fro fv subOpt => bindStructDepth tc p t fro fv subOpt)
          (bindFieldsDepth tc p rest ro vs.tail opt) := by
  cases t <;> rfl

theorem bindStructDepth_struct_eq (tc : TypeConverters) (p : Properties) (name : Str)
    (fields : List (StructField × Ty)) (ro : Flags) (v : DVal) (opt : bindOption) :
    bindStructDepth tc p (.struct name fields) ro v opt
      = 1 + bindFieldsDepth tc p fields ro v.fieldsOf opt := rfl

mutual
theorem bindValueDepth_le (tc : TypeConverters) :
    ∀ (t : Ty) (p : Properties) (ro : Flags) (v : DVal) (propName : Str) (dv : Option Str)
      (opt : bindOption), bindValueDepth tc p t ro v propName dv opt ≤ 3 * t.depth + 1
  | .basic name k, p, ro, v, propName, dv, opt => by
    rw [bindValueDepth_basic_eq]
    omega
  | .struct name fields, p, ro, v, propName, dv, opt => by
    rw [bindValueDepth_struct_eq, Ty.depth_struct_eq]
    have h := bindFieldsDepth_le tc fields p ro v.fieldsOf
      ⟨propName, opt.fullPropName, opt.fieldName, opt.allAccess⟩
    split
    · omega
    · split
      · omega
      · refine le_trans (Nat.add_le_add_left (Nat.add_le_add_left h 1) 1) ?_
        omega
  | .slice name elemType, p, ro, v, propName, dv, opt => by
    rw [bindValueDepth_slice_eq, Ty.depth_slice_eq]
    split
    · omega
    · split
      · omega
      · have h := sliceCaseDepth_le tc elemType ‹Value›
          (fun sv i =>
            bindStruct tc (defaultProperties.asProperties ⟨sv⟩) elemType noRO
              (zeroVal elemType) ⟨[], indexName propName i, opt.fieldName, opt.allAccess⟩)
          (fun sv i =>
            bindStructDepth tc (defaultProperties.asProperties ⟨sv⟩) elemType noRO
              (zeroVal elemType) ⟨[], indexName propName i, opt.fieldName, opt.allAccess⟩)
          (3 * elemType.depth + 1)
          (fun sv i => bindStructDepth_le tc elemType _ _ _ _)
        refine le_trans (Nat.add_le_add_left h 1) ?_
        omega
  | .map name keyType elemType, p, ro, v, propName, dv, opt => by
    rw [bindValueDepth_map_eq, Ty.depth_map_eq]
    split
    · omega
    · split
      · omega
      · have h := mapCaseDepth_le tc keyType elemType propName ‹Value›
          (fun k1 v1 =>
            bindStruct tc (defaultProperties.asProperties ⟨v1⟩) elemType noRO
              (zeroVal elemType) ⟨[], propName ++ ['.'] ++ k1, opt.fieldName, opt.allAccess⟩)
          (fun k1 v1 =>
            bindStructDepth tc (defaultProperties.asProperties ⟨v1⟩) elemType noRO
              (zeroVal elemType) ⟨[], propName ++ ['.'] ++ k1, opt.fieldName, opt.allAccess⟩)
          (3 * elemType.depth + 1)
          (fun k1 v1 => bindStructDepth_le tc elemType _ _ _ _)
        have h2 : elemType.depth ≤ max keyType.depth elemType.depth := le_max_right _ _
        refine le_trans (Nat.add_le_add_left h 1) ?_
        omega
theorem bindStructDepth_le (tc : TypeConverters) :
    ∀ (t : Ty) (p : Properties) (ro : Flags) (v : DVal) (opt : bindOption),
      bindStructDepth tc p t ro v opt ≤ 3 * t.depth + 1
  | .basic name k, p, ro, v, opt => by simp only [bindStructDepth]; omega
  | .slice name e, p, ro, v, opt => by simp only [bindStructDepth]; omega
  | .map name k e, p, ro, v, opt => by simp only [bindStructDepth]; omega
  | .struct name fields, p, ro, v, opt => by
    rw [bindStructDepth_struct_eq, Ty.depth_struct_eq]
    have h := bindFieldsDepth_le tc fields p ro v.fieldsOf opt
    omega
theorem bindFieldsDepth_le (tc : TypeConverters) :
    ∀ (fields : List (StructField × Ty)) (p : Properties) (ro : Flags) (vs : List DVal)
      (opt : bindOption), bindFieldsDepth tc p fields ro vs opt ≤ 3 * fieldsDepth fields + 2
  | [], p, ro, vs, opt => by
    rw [bindFieldsDepth_nil_eq]
    omega
  | (ft, t) :: rest, p, ro, vs, opt => by
    rw [bindFieldsDepth_cons_eq, fieldsDepth_cons_eq]
    apply fieldRoundDepth_le
    · intro fro fv pn dv o
      have h := bindValueDepth_le tc t p fro fv pn dv o
      have h2 : t.depth ≤ max t.depth (fieldsDepth rest) := le_max_left _ _
      omega
    · intro fro fv o
      have h := bindStructDepth_le tc t p fro fv o
      have h2 : t.depth ≤ max t.depth (fieldsDepth rest) := le_max_left _ _
      omega
    · have h := bindFieldsDepth_le tc rest p ro vs.tail opt
      have h2 : fieldsDepth rest ≤ max t.depth (fieldsDepth rest) := le_max_right _ _
      omega
end

/-- The chain of calls on the struct `Outer`, whose untagged field is the struct `Inner`
with the field `Value int` tagged `${v}`, against the store `v = 7`:
`bindValue`, `bindStruct` on `Outer`, `bindStruct` on `Inner`, `bindStructField` and
`bindValue` on the field `Value`, 5 calls for a type of nesting depth 2. -/
theorem bindValueDepth_exOuter :
    exOuter.depth = 2 ∧
    bindValueDepth noConverters (defaultProperties.asProperties ⟨[("v".toList, Value.int 7)]⟩)
      exOuter noRO (zeroVal exOuter) [] none ⟨[], [], "Outer".toList, false⟩ = 5 :=
  ⟨rfl, rfl⟩

/-! ## The budget and the depth of the recursion -/

theorem bindSliceElemsFuel_eq (fuel : Nat) (B : GoMap Value → Nat → Outcome)
    (D : GoMap Value → Nat → Nat) (fpn : Str) :
    ∀ (s : List Value) (i : Nat),
      bindSliceElemsFuel (fun sv i => if D sv i ≤ fuel then some (B sv i) else none) fpn s i
        = if sliceElemsDepth B D s i ≤ fuel then some (bindSliceElems B fpn s i) else none := by
  intro s
  induction s with
  | nil =>
    intro i
    simp [bindSliceElemsFuel, sliceElemsDepth, bindSliceElems]
  | cons si rest ih =>
    intro i
    simp only [bindSliceElemsFuel, sliceElemsDepth, bindSliceElems]
    cases cast.ToStringMapE si with
    | none => simp
    | some sv =>
      simp only
      by_cases hD : D sv i ≤ fuel
      · rw [if_pos hD]
        cases hB : B sv i with
        | abort e d => simp [hD]
        | ok ev =>
          simp only
          rw [ih (i + 1)]
          by_cases hR : sliceElemsDepth B D rest (i + 1) ≤ fuel
          · rw [if_pos hR, if_pos (max_le hD hR)]
            cases bindSliceElems B fpn rest (i + 1) <;> rfl
          · rw [if_neg hR, if_neg (fun h => hR (le_trans (le_max_right _ _) h))]
      · rw [if_neg hD]
        cases hB : B sv i with
        | abort e d => simp [hD]
        | ok ev =>
          simp only
          rw [if_neg (fun h => hD (le_trans (le_max_left _ _) h))]

theorem bindMapElemsFuel_eq (fuel : Nat) (B : Str → GoMap Value → Outcome)
    (D : Str → GoMap Value → Nat) (keyOk : Bool) :
    ∀ (temp : GoMap (GoMap Value)) (result : GoMap DVal),
      bindMapElemsFuel (fun k1 v1 => if D k1 v1 ≤ fuel then some (B k1 v1) else none) keyOk
          temp result
        = if mapElemsDepth B D keyOk temp ≤ fuel then some (bindMapElems B keyOk temp result)
          else none := by
  intro temp
  induction temp with
  | nil =>
    intro result
    simp [bindMapElemsFuel, mapElemsDepth, bindMapElems]
  | cons kv rest ih =>
    intro result
    obtain ⟨k1, v1⟩ := kv
    simp only [bindMapElemsFuel, mapElemsDepth, bindMapElems]
    by_cases hD : D k1 v1 ≤ fuel
    · rw [if_pos hD]
      cases hB : B k1 v1 with
      | abort e d => simp [hD]
      | ok ev =>
        simp only
        cases keyOk with
        | false => simp [hD]
        | true =>
          simp only [if_true]
          rw [ih]
          by_cases hR : mapElemsDepth B D true rest ≤ fuel
          · rw [if_pos hR, if_pos (max_le hD hR)]
          · rw [if_neg hR, if_neg (fun h => hR (le_trans (le_max_right _ _) h))]
    · rw [if_neg hD]
      cases hB : B k1 v1 with
      | abort e d => simp [hD]
      | ok ev =>
        simp only
        cases keyOk with
        | false => simp [hD]
        | true =>
          simp only [if_true]
          rw [if_neg (fun h => hD (le_trans (le_max_left _ _) h))]

theorem bindSliceCaseFuel_eq (fuel : Nat) (tc : TypeConverters) (elemType : Ty) (ro : Flags)
    (v : DVal) (propValue : Value) (opt : bindOption) (B : GoMap Value → Nat → Outcome)
    (D : GoMap Value → Nat → Nat) :
    bindSliceCaseFuel tc elemType ro v propValue opt
        (fun sv i => if D sv i ≤ fuel then some (B sv i) else none)
      = if sliceCaseDepth tc elemType propValue B D ≤ fuel
        then some (bindSliceCase tc elemType ro v propValue opt B) else none := by
  unfold bindSliceCaseFuel sliceCaseDepth bindSliceCase
  cases elemType.cls with
  | other =>
    simp only
    cases tc elemType with
    | some fn =>
      simp only [Nat.zero_le, if_true]
      cases convertAll fn (cast.ToStringSlice propValue) <;> rfl
    | none =>
      simp only
      cases propValue with
      | seq s =>
        simp only
        rw [bindSliceElemsFuel_eq]
        by_cases h : sliceElemsDepth B D s 0 ≤ fuel
        · rw [if_pos h, if_pos h]
          cases bindSliceElems B opt.fullPropName s 0 <;> rfl
        · rw [if_neg h, if_neg h]
      | _ => simp
  | _ => simp

theorem bindMapCaseFuel_eq (fuel : Nat) (tc : TypeConverters) (keyType elemType : Ty)
    (ro : Flags) (v : DVal) (propName : Str) (propValue : Value) (opt : bindOption)
    (B : Str → GoMap Value → Outcome) (D : Str → GoMap Value → Nat) :
    bindMapCaseFuel tc keyType elemType ro v propName propValue opt
        (fun k1 v1 => if D k1 v1 ≤ fuel then some (B k1 v1) else none)
      = if mapCaseDepth tc keyType elemType propName propValue B D ≤ fuel
        then some (bindMapCase tc keyType elemType ro v propName propValue opt B)
        else none := by
  unfold bindMapCaseFuel mapCaseDepth bindMapCase
  by_cases hk : keyType.cls ≠ .string
  · simp [hk]
  · rw [if_neg hk, if_neg hk, if_neg hk]
    cases elemType.cls with
    | other =>
      simp only
      cases tc elemType with
      | some fn =>
        simp only [Nat.zero_le, if_true]
        cases cast.ToStringMapStringE propValue with
        | none => rfl
        | some mapValue =>
          simp only
          cases convertMap fn (propName ++ ['.'])
            (keyType.isPredeclared "string".toList .string) mapValue [] <;> rfl
      | none =>
        simp only
        cases cast.ToStringMapE propValue with
        | none => simp
        | some mapValue =>
          simp only
          cases regroup (propName ++ ['.']) mapValue [] with
          | error e => simp
          | ok temp =>
            simp only
            rw [bindMapElemsFuel_eq]
            by_cases h : mapElemsDepth B D
                (keyType.isPredeclared "string".toList .string) temp ≤ fuel
            · rw [if_pos h, if_pos h]
              cases bindMapElems B (keyType.isPredeclared "string".toList .string) temp []
                <;> rfl
            · rw [if_neg h, if_neg h]
    | string =>
      simp only [Nat.zero_le, if_true]
      cases cast.ToStringMapStringE propValue <;> rfl
    | _ => simp

theorem bindValueDepth_pos (tc : TypeConverters) (p : Properties) (t : Ty) (ro : Flags)
    (v : DVal) (propName : Str) (dv : Option Str) (opt : bindOption) :
    1 ≤ bindValueDepth tc p t ro v propName dv opt := by
  cases t with
  | basic name k => rw [bindValueDepth_basic_eq]
  | struct name fields =>
    rw [bindValueDepth_struct_eq]
    split
    · exact le_refl _
    · split
      · exact le_refl _
      · exact Nat.le_add_right _ _
  | slice name elemType =>
    rw [bindValueDepth_slice_eq]
    split
    · exact le_refl _
    · split
      · exact le_refl _
      · exact Nat.le_add_right _ _
  | map name keyType elemType =>
    rw [bindValueDepth_map_eq]
    split
    · exact le_refl _
    · split
      · exact le_refl _
      · exact Nat.le_add_right _ _

theorem bindStructDepth_pos (tc : TypeConverters) (p : Properties) (t : Ty) (ro : Flags)
    (v : DVal) (opt : bindOption) : 1 ≤ bindStructDepth tc p t ro v opt := by
  cases t with
  | struct name fields =>
    rw [bindStructDepth_struct_eq]
    exact Nat.le_add_right _ _
  | basic name k => exact le_refl _
  | slice name e => exact le_refl _
  | map name k e => exact le_refl _

theorem bindStructFieldDepth_pos (tc : TypeConverters) (p : Properties) (t : Ty) (ro : Flags)
    (v : DVal) (tag : Str) (opt : bindOption) :
    1 ≤ bindStructFieldDepth tc p t ro v tag opt := by
  unfold bindStructFieldDepth
  split
  · exact le_refl _
  · exact Nat.le_add_right _ _

theorem bindValueFuel_zero (tc : TypeConverters) (p : Properties) (t : Ty) (ro : Flags)
    (v : DVal) (propName : Str) (dv : Option Str) (opt : bindOption) :
    bindValueFuel tc 0 p t ro v propName dv opt = none := rfl

theorem bindStructFuel_zero (tc : TypeConverters) (p : Properties) (t : Ty) (ro : Flags)
    (v : DVal) (opt : bindOption) : bindStructFuel tc 0 p t ro v opt = none := rfl

theorem bindStructFieldFuel_zero (tc : TypeConverters) (p : Properties) (t : Ty) (ro : Flags)
    (v : DVal) (tag : Str) (opt : bindOption) :
    bindStructFieldFuel tc 0 p t ro v tag opt = none := rfl

theorem bindValueFuel_succ (tc : TypeConverters) (fuel : Nat) (p : Properties) (t : Ty)
    (ro : Flags) (v : DVal) (propName : Str) (dv : Option Str) (opt : bindOption) :
    bindValueFuel tc (fuel + 1) p t ro v propName dv opt
      = match tc t with
        | some fn => some (bindConverted fn p ro v propName dv opt)
        | none =>
          match t with
          | .struct _ _ =>
            match dv with
            | some _ => some (.abort (Err.structDefault opt.fieldName) v)
            | none =>
              bindStructFuel tc fuel p t ro v
                ⟨propName, opt.fullPropName, opt.fieldName, opt.allAccess⟩
          | .basic _ k =>
            match getPropValue p propName dv opt with
            | .error e => some (.abort e v)
            | .ok propValue => some (bindBasic k ro v propValue opt)
          | .slice _ elemType =>
            match getPropValue p propName dv opt with
            | .error e => some (.abort e v)
            | .ok propValue =>
              bindSliceCaseFuel tc elemType ro v propValue opt
                (fun sv i =>
                  bindStructFuel tc fuel (defaultProperties.asProperties ⟨sv⟩) elemType noRO
                    (zeroVal elemType)
                    ⟨[], indexName propName i, opt.fieldName, opt.allAccess⟩)
          | .map _ keyType elemType =>
            match getPropValue p propName dv opt with
            | .error e => some (.abort e v)
            | .ok propValue =>
              bindMapCaseFuel tc keyType elemType ro v propName propValue opt
                (fun k1 v1 =>
                  bindStructFuel tc fuel (defaultProperties.asProperties ⟨v1⟩) elemType noRO
                    (zeroVal elemType)
                    ⟨[], propName ++ ['.'] ++ k1, opt.fieldName, opt.allAccess⟩) := rfl

theorem bindStructFuel_succ (tc : TypeConverters) (fuel : Nat) (p : Properties) (t : Ty)
    (ro : Flags) (v : DVal) (opt : bindOption) :
    bindStructFuel tc (fuel + 1) p t ro v opt
      = match t with
        | .struct _ fields =>
          match bindFieldsFuel (fun fty fro fv tag subOpt =>
                bindStructFieldFuel tc fuel p fty fro fv tag subOpt)
              (fun fty fro fv subOpt => bindStructFuel tc fuel p fty fro fv subOpt)
              fields ro v.fieldsOf opt with
          | none => none
          | some r => some (structOutcome r)
        | _ => some (.abort Err.reflectPanic v) := rfl

theorem bindStructFieldFuel_succ (tc : TypeConverters) (fuel : Nat) (p : Properties) (t : Ty)
    (ro : Flags) (v : DVal) (tag : Str) (opt : bindOption) :
    bindStructFieldFuel tc (fuel + 1) p t ro v tag opt
      = match bindStructFieldArgs t.isPtr tag opt with
        | .error e => some (.abort e v)
        | .ok (propName, dv, opt1) => bindValueFuel tc fuel p t ro v propName dv opt1 := rfl

/-- One round of the loop of `bindStruct`: under the budget it gives the round of the
binder when the calls of the round and of the later rounds fit the budget. -/
theorem fieldRoundFuel_eq (fuel : Nat) (tc : TypeConverters) (p : Properties)
    (ft : StructField) (t : Ty) (ro : Flags) (vs : List DVal) (opt : bindOption)
    (nextDepth : Nat) (next : FieldsOutcome) :
    fieldRoundFuel ft t ro vs opt
        (fun fro fv tag o =>
          if bindStructFieldDepth tc p t fro fv tag o ≤ fuel
          then some (bindStructField tc p t fro fv tag o) else none)
        (fun fro fv o =>
          if bindStructDepth tc p t fro fv o ≤ fuel then some (bindStruct tc p t fro fv o)
          else none)
        (if nextDepth ≤ fuel then some next else none)
      = if fieldRoundDepth ft t ro vs opt
            (fun fro fv propName dv opt1 => bindValue tc p t fro fv propName dv opt1)
            (fun fro fv propName dv opt1 => bindValueDepth tc p t fro fv propName dv opt1)
            (fun fro fv subOpt => bindStruct tc p t fro fv subOpt)
            (fun fro fv subOpt => bindStructDepth tc p t fro fv subOpt) nextDepth ≤ fuel
        then some (fieldRound ft t ro vs opt
            (fun fro fv propName dv opt1 => bindValue tc p t fro fv propName dv opt1)
            (fun fro fv subOpt => bindStruct tc p t fro fv subOpt) next)
        else none := by
  unfold fieldRoundFuel fieldRoundDepth fieldRound bindStructFieldDepth bindStructField
  cases ft.Tag with
  | some tag =>
    simp only
    cases bindStructFieldArgs t.isPtr tag (subOption opt ft) with
    | error e =>
      simp only
      by_cases h1 : 1 ≤ fuel
      · simp [h1]
      · simp [h1]
    | ok r =>
      obtain ⟨pn, dv, o1⟩ := r
      simp only
      by_cases hD : 1 + bindValueDepth tc p t (ValuePatchIf (fieldFlags ro ft) opt.allAccess)
          (vs.headD (zeroVal t)) pn dv o1 ≤ fuel
      · rw [if_pos hD]
        cases bindValue tc p t (ValuePatchIf (fieldFlags ro ft) opt.allAccess)
            (vs.headD (zeroVal t)) pn dv o1 with
        | abort e fv1 =>
          simp only
          rw [if_pos hD]
        | ok fv1 =>
          simp only
          by_cases hN : nextDepth ≤ fuel
          · rw [if_pos hN, if_pos (max_le hD hN)]
          · rw [if_neg hN, if_neg (fun h => hN (le_trans (le_max_right _ _) h))]
      · rw [if_neg hD]
        cases bindValue tc p t (ValuePatchIf (fieldFlags ro ft) opt.allAccess)
            (vs.headD (zeroVal t)) pn dv o1 with
        | abort e fv1 =>
          simp only
          rw [if_neg hD]
        | ok fv1 =>
          simp only
          rw [if_neg (fun h => hD (le_trans (le_max_left _ _) h))]
  | none =>
    simp only
    by_cases hs : (ft.Anonymous || t.isStruct) = true
    · rw [if_pos hs, if_pos hs, if_pos hs]
      by_cases hD : bindStructDepth tc p t (ValuePatchIf (fieldFlags ro ft) opt.allAccess)
          (vs.headD (zeroVal t)) (subOption opt ft) ≤ fuel
      · rw [if_pos hD]
        cases bindStruct tc p t (ValuePatchIf (fieldFlags ro ft) opt.allAccess)
            (vs.headD (zeroVal t)) (subOption opt ft) with
        | abort e fv1 =>
          simp only
          rw [if_pos hD]
        | ok fv1 =>
          simp only
          by_cases hN : nextDepth ≤ fuel
          · rw [if_pos hN, if_pos (max_le hD hN)]
          · rw [if_neg hN, if_neg (fun h => hN (le_trans (le_max_right _ _) h))]
      · rw [if_neg hD]
        cases bindStruct tc p t (ValuePatchIf (fieldFlags ro ft) opt.allAccess)
            (vs.headD (zeroVal t)) (subOption opt ft) with
        | abort e fv1 =>
          simp only
          rw [if_neg hD]
        | ok fv1 =>
          simp only
          rw [if_neg (fun h => hD (le_trans (le_max_left _ _) h))]
    · rw [if_neg hs, if_neg hs, if_neg hs]
      by_cases hN : nextDepth ≤ fuel
      · rw [if_pos hN, if_pos hN]
      · rw [if_neg hN, if_neg hN]

/-- The loop of `bindStruct` under a budget, its calls being the binder within the budget. -/
theorem bindFieldsFuel_eq (fuel : Nat) (tc : TypeConverters) (p : Properties) :
    ∀ (fields : List (StructField × Ty)) (ro : Flags) (vs : List DVal) (opt : bindOption),
      bindFieldsFuel
          (fun t fro fv tag o =>
            if bindStructFieldDepth tc p t fro fv tag o ≤ fuel
            then some (bindStructField tc p t fro fv tag o) else none)
          (fun t fro fv o =>
            if bindStructDepth tc p t fro fv o ≤ fuel then some (bindStruct tc p t fro fv o)
            else none)
          fields ro vs opt
        = if bindFieldsDepth tc p fields ro vs opt ≤ fuel
          then some (bindFields tc p fields ro vs opt) else none := by
  intro fields
  induction fields with
  | nil =>
    intro ro vs opt
    rw [bindFieldsDepth_nil_eq, bindFields_nil_eq, if_pos (Nat.zero_le _)]
    rfl
  | cons f rest ih =>
    intro ro vs opt
    obtain ⟨ft, t⟩ := f
    rw [bindFieldsDepth_cons_eq, bindFields_cons_eq]
    simp only [bindFieldsFuel]
    rw [ih ro vs.tail opt]
    exact fieldRoundFuel_eq fuel tc p ft t ro vs opt _ _

theorem if_succ_budget {α : Type} (d fuel : Nat) (x : α) :
    (if 1 + d ≤ fuel + 1 then some x else none) = if d ≤ fuel then some x else none := by
  by_cases h : d ≤ fuel
  · rw [if_pos h, if_pos (by omega)]
  · rw [if_neg h, if_neg (by omega)]

/-- Under the budget `fuel` each of the three functions gives the outcome of the binder
when the depth of the call is at most `fuel`, and runs out of budget otherwise. -/
theorem fuel_depth_all (tc : TypeConverters) :
    ∀ fuel : Nat,
      (∀ p t ro v propName dv opt,
        bindValueFuel tc fuel p t ro v propName dv opt
          = if bindValueDepth tc p t ro v propName dv opt ≤ fuel
            then some (bindValue tc p t ro v propName dv opt) else none) ∧
      (∀ p t ro v opt,
        bindStructFuel tc fuel p t ro v opt
          = if bindStructDepth tc p t ro v opt ≤ fuel then some (bindStruct tc p t ro v opt)
            else none) ∧
      (∀ p t ro v tag opt,
        bindStructFieldFuel tc fuel p t ro v tag opt
          = if bindStructFieldDepth tc p t ro v tag opt ≤ fuel
            then some (bindStructField tc p t ro v tag opt) else none) := by
  intro fuel
  induction fuel with
  | zero =>
    refine ⟨?_, ?_, ?_⟩
    · intro p t ro v propName dv opt
      have h := bindValueDepth_pos tc p t ro v propName dv opt
      rw [bindValueFuel_zero, if_neg (by omega)]
    · intro p t ro v opt
      have h := bindStructDepth_pos tc p t ro v opt
      rw [bindStructFuel_zero, if_neg (by omega)]
    · intro p t ro v tag opt
      have h := bindStructFieldDepth_pos tc p t ro v tag opt
      rw [bindStructFieldFuel_zero, if_neg (by omega)]
  | succ fuel ih =>
    obtain ⟨ihV, ihS, ihF⟩ := ih
    refine ⟨?_, ?_, ?_⟩
    · intro p t ro v propName dv opt
      rw [bindValueFuel_succ]
      cases t with
      | basic name k =>
        rw [bindValueDepth_basic_eq, bindValue_basic_eq, if_pos (by omega)]
        cases tc (.basic name k) with
        | some fn => rfl
        | none =>
          simp only
          cases getPropValue p propName dv opt <;> rfl
      | struct name fields =>
        rw [bindValueDepth_struct_eq, bindValue_struct_eq]
        cases tc (.struct name fields) with
        | some fn =>
          simp only
          rw [if_pos (by omega)]
        | none =>
          simp only
          cases dv with
          | some d =>
            simp only
            rw [if_pos (by omega)]
          | none =>
            simp only
            rw [ihS, if_succ_budget]
            rfl
      | slice name elemType =>
        rw [bindValueDepth_slice_eq, bindValue_slice_eq]
        cases tc (.slice name elemType) with
        | some fn =>
          simp only
          rw [if_pos (by omega)]
        | none =>
          simp only
          cases getPropValue p propName dv opt with
          | error e =>
            simp only
            rw [if_pos (by omega)]
          | ok propValue =>
            simp only
            rw [if_succ_budget, ← bindSliceCaseFuel_eq]
            congr 1
            funext sv i
            exact ihS _ _ _ _ _
      | map name keyType elemType =>
        rw [bindValueDepth_map_eq, bindValue_map_eq]
        cases tc (.map name keyType elemType) with
        | some fn =>
          simp only
          rw [if_pos (by omega)]
        | none =>
          simp only
          cases getPropValue p propName dv opt with
          | error e =>
            simp only
            rw [if_pos (by omega)]
          | ok propValue =>
            simp only
            rw [if_succ_budget, ← bindMapCaseFuel_eq]
            congr 1
            funext k1 v1
            exact ihS _ _ _ _ _
    · intro p t ro v opt
      rw [bindStructFuel_succ]
      cases t with
      | struct name fields =>
        simp only
        have hcb : bindFieldsFuel
            (fun fty fro fv tag subOpt => bindStructFieldFuel tc fuel p fty fro fv tag subOpt)
            (fun fty fro fv subOpt => bindStructFuel tc fuel p fty fro fv subOpt)
            fields ro v.fieldsOf opt
          = if bindFieldsDepth tc p fields ro v.fieldsOf opt ≤ fuel
            then some (bindFields tc p fields ro v.fieldsOf opt) else none := by
          rw [← bindFieldsFuel_eq]
          congr 1
          · funext ft fro fv tag subOpt
            exact ihF _ _ _ _ _ _
          · funext ft fro fv subOpt
            exact ihS _ _ _ _ _
        rw [hcb, bindStructDepth_struct_eq, if_succ_budget]
        by_cases h : bindFieldsDepth tc p fields ro v.fieldsOf opt ≤ fuel
        · rw [if_pos h, if_pos h]
          rfl
        · rw [if_neg h, if_neg h]
      | basic name k => exact (if_pos (by show 1 ≤ fuel + 1; omega)).symm
      | slice name e => exact (if_pos (by show 1 ≤ fuel + 1; omega)).symm
      | map name k e => exact (if_pos (by show 1 ≤ fuel + 1; omega)).symm
    · intro p t ro v tag opt
      rw [bindStructFieldFuel_succ]
      unfold bindStructFieldDepth bindStructField
      cases bindStructFieldArgs t.isPtr tag opt with
      | error e =>
        simp only
        rw [if_pos (by omega)]
      | ok r =>
        obtain ⟨pn, dv, o1⟩ := r
        simp only
        rw [ihV, if_succ_budget]

theorem bindValueFuel_eq (tc : TypeConverters) (fuel : Nat) (p : Properties) (t : Ty)
    (ro : Flags) (v : DVal) (propName : Str) (dv : Option Str) (opt : bindOption) :
    bindValueFuel tc fuel p t ro v propName dv opt
      = if bindValueDepth tc p t ro v propName dv opt ≤ fuel
        then some (bindValue tc p t ro v propName dv opt) else none :=
  (fuel_depth_all tc fuel).1 p t ro v propName dv opt

theorem bindStructFuel_eq (tc : TypeConverters) (fuel : Nat) (p : Properties) (t : Ty)
    (ro : Flags) (v : DVal) (opt : bindOption) :
    bindStructFuel tc fuel p t ro v opt
      = if bindStructDepth tc p t ro v opt ≤ fuel then some (bindStruct tc p t ro v opt)
        else none :=
  (fuel_depth_all tc fuel).2.1 p t ro v opt

/-! ## The recursion on a type declared in terms of itself -/

theorem exNode_unfold_succ (k : Nat) :
    exNode.unfold (k + 1)
      = .struct "Node".toList
          [(taggedField "Kids".toList "kids".toList, .slice [] (exNode.unfold k))] := rfl

theorem exNode_unfold_cls (k : Nat) : (exNode.unfold k).cls = .other := by
  cases k <;> rfl

theorem valuePatchIf_tagged (name body : Str) (allAccess : Bool) :
    ValuePatchIf (fieldFlags noRO (taggedField name body)) allAccess = noRO := by
  cases allAccess <;> rfl

/-- The call of `bindStruct` on a fresh `Node` against the store `kids = val`, in terms of
the call of `bindValue` on the field `Kids`. -/
theorem bindStruct_exNode (p : Properties) (k : Nat) (fpn fn : Str) (acc : Bool) :
    bindStruct noConverters p (exNode.unfold (k + 1)) noRO (zeroVal (exNode.unfold (k + 1)))
        ⟨[], fpn, fn, acc⟩
      = match bindValue noConverters p (.slice [] (exNode.unfold k)) noRO (.slice [])
            "kids".toList none
            (tagOption (subOption ⟨[], fpn, fn, acc⟩
              (taggedField "Kids".toList "kids".toList)) "kids".toList) with
        | .abort e fv1 => .abort e (.struct [fv1])
        | .ok fv1 => .ok (.struct [fv1]) := by
  rw [exNode_unfold_succ]
  unfold bindStruct
  simp only
  rw [bindFields_tagged noConverters p _ _ _ _ _ _ (tagOf "kids".toList) rfl,
    bindStructField_tagOf noConverters p (.slice [] (exNode.unfold k)) _ _ _ _ rfl,
    valuePatchIf_tagged]
  have hs : Str.split "kids".toList assignSep = ["kids".toList] := by decide
  rw [hs]
  change structOutcome
      (match bindValue noConverters p (.slice [] (exNode.unfold k)) noRO (.slice [])
          "kids".toList none
          (tagOption (subOption ⟨[], fpn, fn, acc⟩
            (taggedField "Kids".toList "kids".toList)) "kids".toList) with
        | Outcome.abort e fv1 => ((some e, [fv1]) : FieldsOutcome)
        | Outcome.ok fv1 => ((none, [fv1]) : FieldsOutcome)) = _
  cases bindValue noConverters p (.slice [] (exNode.unfold k)) noRO (.slice [])
      "kids".toList none
      (tagOption (subOption ⟨[], fpn, fn, acc⟩
        (taggedField "Kids".toList "kids".toList)) "kids".toList) <;> rfl

theorem bindStructDepth_exNode (p : Properties) (k : Nat) (fpn fn : Str) (acc : Bool) :
    bindStructDepth noConverters p (exNode.unfold (k + 1)) noRO
        (zeroVal (exNode.unfold (k + 1))) ⟨[], fpn, fn, acc⟩
      = 1 + (1 + bindValueDepth noConverters p (.slice [] (exNode.unfold k)) noRO (.slice [])
          "kids".toList none
          (tagOption (subOption ⟨[], fpn, fn, acc⟩
            (taggedField "Kids".toList "kids".toList)) "kids".toList)) := by
  rw [exNode_unfold_succ, bindStructDepth_struct_eq, bindFieldsDepth_cons_eq,
    bindFieldsDepth_nil_eq]
  unfold fieldRoundDepth
  have htag : (taggedField "Kids".toList "kids".toList).Tag = some (tagOf "kids".toList) := rfl
  have hptr : (Ty.slice [] (exNode.unfold k)).isPtr = false := rfl
  have hs : Str.split "kids".toList assignSep = ["kids".toList] := by decide
  simp only [htag, hptr, bindStructFieldArgs_tagOf, hs, valuePatchIf_tagged]
  change 1 + (match bindValue noConverters p (.slice [] (exNode.unfold k)) noRO (.slice [])
          "kids".toList none
          (tagOption (subOption ⟨[], fpn, fn, acc⟩
            (taggedField "Kids".toList "kids".toList)) "kids".toList) with
        | Outcome.abort _ _ =>
          1 + bindValueDepth noConverters p (.slice [] (exNode.unfold k)) noRO (.slice [])
            "kids".toList none
            (tagOption (subOption ⟨[], fpn, fn, acc⟩
              (taggedField "Kids".toList "kids".toList)) "kids".toList)
        | Outcome.ok _ =>
          max (1 + bindValueDepth noConverters p (.slice [] (exNode.unfold k)) noRO (.slice [])
            "kids".toList none
            (tagOption (subOption ⟨[], fpn, fn, acc⟩
              (taggedField "Kids".toList "kids".toList)) "kids".toList)) 0) = _
  cases bindValue noConverters p (.slice [] (exNode.unfold k)) noRO (.slice [])
      "kids".toList none
      (tagOption (subOption ⟨[], fpn, fn, acc⟩
        (taggedField "Kids".toList "kids".toList)) "kids".toList) with
  | abort e d => rfl
  | ok d => simp only [Nat.max_zero, max_eq_left (Nat.zero_le _)]

/-- The run on the declaration `Node`: against the store whose entry `kids` nests `n`
levels, `bindValue` on a `[]Node` returns the slice that nests `n` levels, and the chain of
nested calls has `3 * n + 1` calls, on every unfolding of at least `n` levels. -/
theorem bindValue_exNode (n : Nat) :
    ∀ (k : Nat) (v : DVal) (opt : bindOption), n ≤ k →
      bindValue noConverters (exKidsStore n).asProperties (.slice [] (exNode.unfold k)) noRO v
          "kids".toList none opt = .ok (exKidsResult n) ∧
      bindValueDepth noConverters (exKidsStore n).asProperties (.slice [] (exNode.unfold k))
          noRO v "kids".toList none opt = 3 * n + 1 := by
  induction n with
  | zero =>
    intro k v opt _
    have hv : getPropValue (exKidsStore 0).asProperties "kids".toList none opt
        = .ok (Value.seq []) := getPropValue_found _ _ _ _ _ rfl
    constructor
    · rw [bindValue_slice_eq]
      show (match getPropValue (exKidsStore 0).asProperties "kids".toList none opt with
        | Except.error e => Outcome.abort e v
        | Except.ok propValue => bindSliceCase noConverters (exNode.unfold k) noRO v propValue
            opt _) = _
      rw [hv]
      unfold bindSliceCase
      rw [exNode_unfold_cls]
      rfl
    · rw [bindValueDepth_slice_eq]
      show (match getPropValue (exKidsStore 0).asProperties "kids".toList none opt with
        | Except.error _ => 1
        | Except.ok propValue => 1 + sliceCaseDepth noConverters (exNode.unfold k) propValue
            _ _) = _
      rw [hv]
      unfold sliceCaseDepth
      rw [exNode_unfold_cls]
      rfl
  | succ n ih =>
    intro k v opt hk
    obtain ⟨k, rfl⟩ : ∃ j, k = j + 1 := ⟨k - 1, by omega⟩
    have hn : n ≤ k := by omega
    have hv : getPropValue (exKidsStore (n + 1)).asProperties "kids".toList none opt
        = .ok (Value.seq [Value.map [("kids".toList, exKids n)]]) :=
      getPropValue_found _ _ _ _ _ rfl
    have hB : ∀ i, bindStruct noConverters
        (defaultProperties.asProperties ⟨[("kids".toList, exKids n)]⟩) (exNode.unfold (k + 1))
        noRO (zeroVal (exNode.unfold (k + 1)))
        ⟨[], indexName "kids".toList i, opt.fieldName, opt.allAccess⟩
          = .ok (.struct [exKidsResult n]) := by
      intro i
      rw [bindStruct_exNode]
      have h1 := (ih k (.slice []) (tagOption (subOption
        ⟨[], indexName "kids".toList i, opt.fieldName, opt.allAccess⟩
        (taggedField "Kids".toList "kids".toList)) "kids".toList) hn).1
      have h2 : (exKidsStore n).asProperties
          = defaultProperties.asProperties ⟨[("kids".toList, exKids n)]⟩ := rfl
      rw [h2] at h1
      rw [h1]
    have hD : ∀ i, bindStructDepth noConverters
        (defaultProperties.asProperties ⟨[("kids".toList, exKids n)]⟩) (exNode.unfold (k + 1))
        noRO (zeroVal (exNode.unfold (k + 1)))
        ⟨[], indexName "kids".toList i, opt.fieldName, opt.allAccess⟩ = 3 * n + 3 := by
      intro i
      rw [bindStructDepth_exNode]
      have h1 := (ih k (.slice []) (tagOption (subOption
        ⟨[], indexName "kids".toList i, opt.fieldName, opt.allAccess⟩
        (taggedField "Kids".toList "kids".toList)) "kids".toList) hn).2
      have h2 : (exKidsStore n).asProperties
          = defaultProperties.asProperties ⟨[("kids".toList, exKids n)]⟩ := rfl
      rw [h2] at h1
      rw [h1]
      omega
    constructor
    · rw [bindValue_slice_eq]
      show (match getPropValue (exKidsStore (n + 1)).asProperties "kids".toList none opt with
        | Except.error e => Outcome.abort e v
        | Except.ok propValue => bindSliceCase noConverters (exNode.unfold (k + 1)) noRO v
            propValue opt _) = _
      rw [hv]
      unfold bindSliceCase
      rw [exNode_unfold_cls]
      simp only [noConverters, bindSliceElems, cast.ToStringMapE]
      rw [hB 0]
      rfl
    · rw [bindValueDepth_slice_eq]
      show (match getPropValue (exKidsStore (n + 1)).asProperties "kids".toList none opt with
        | Except.error _ => 1
        | Except.ok propValue => 1 + sliceCaseDepth noConverters (exNode.unfold (k + 1))
            propValue _ _) = _
      rw [hv]
      unfold sliceCaseDepth
      rw [exNode_unfold_cls]
      simp only [noConverters, sliceElemsDepth, cast.ToStringMapE]
      rw [hB 0, hD 0]
      simp only [Nat.max_zero, max_eq_left (Nat.zero_le _)]
      show 1 + (3 * n + 3) = 3 * (n + 1) + 1
      omega

/-- The budgeted run on the declaration `Node`: against the store whose entry `kids` nests
`n` levels the budget `3 * n` runs out and the budget `3 * n + 1` gives the result. -/
theorem bindValueFuel_exNode (n k : Nat) (v : DVal) (opt : bindOption) (hk : n ≤ k) :
    bindValueFuel noConverters (3 * n) (exKidsStore n).asProperties
        (.slice [] (exNode.unfold k)) noRO v "kids".toList none opt = none ∧
    bindValueFuel noConverters (3 * n + 1) (exKidsStore n).asProperties
        (.slice [] (exNode.unfold k)) noRO v "kids".toList none opt
      = some (.ok (exKidsResult n)) := by
  obtain ⟨h1, h2⟩ := bindValue_exNode n k v opt hk
  constructor
  · rw [bindValueFuel_eq, h2, if_neg (by omega)]
  · rw [bindValueFuel_eq, h2, h1, if_pos (le_refl _)]

theorem bindValueFuel_mono_none (tc : TypeConverters) (fuel fuel2 : Nat) (p : Properties)
    (t : Ty) (ro : Flags) (v : DVal) (propName : Str) (dv : Option Str) (opt : bindOption)
    (h : fuel ≤ fuel2) (hnone : bindValueFuel tc fuel2 p t ro v propName dv opt = none) :
    bindValueFuel tc fuel p t ro v propName dv opt = none := by
  rw [bindValueFuel_eq] at hnone ⊢
  by_cases hd : bindValueDepth tc p t ro v propName dv opt ≤ fuel
  · rw [if_pos (le_trans hd h)] at hnone
    cases hnone
  · rw [if_neg hd]

/-- C21, as stated, fails on a destination type declared in terms of itself. For
`type Node struct { Kids []Node "value:${kids}" }` and the destination type `[]Node` no
bound on the depth of the recursion comes from the type: whatever the budget `bound` of
nested calls, against the store with the single entry `kids` whose value nests `bound`
levels the run is still going on when the budget is spent, and it returns with the budget
`3 * bound + 1`, on every unfolding of the declaration of at least `bound` levels. On the
value `[{kids: [{kids: []}]}]` the budget of 6 calls runs out and the budget of 7 calls
gives the slice that nests 2 levels. -/
theorem recursion_depth_follows_data :
    (∀ bound : Nat, ∃ store : defaultProperties, store.properties.length = 1 ∧
      ∀ k v opt, bound ≤ k →
        bindValueFuel noConverters bound store.asProperties (.slice [] (exNode.unfold k)) noRO
            v "kids".toList none opt = none ∧
        bindValueFuel noConverters (3 * bound + 1) store.asProperties
            (.slice [] (exNode.unfold k)) noRO v "kids".toList none opt
          = some (.ok (exKidsResult bound))) ∧
    bindValueFuel noConverters 6
        (defaultProperties.asProperties
          ⟨[("kids".toList,
            Value.seq [Value.map [("kids".toList,
              Value.seq [Value.map [("kids".toList, Value.seq [])]])]])]⟩)
        (.slice [] (exNode.unfold 2)) noRO (.slice []) "kids".toList none
        ⟨[], "kids".toList, [], false⟩ = none ∧
    bindValueFuel noConverters 7
        (defaultProperties.asProperties
          ⟨[("kids".toList,
            Value.seq [Value.map [("kids".toList,
              Value.seq [Value.map [("kids".toList, Value.seq [])]])]])]⟩)
        (.slice [] (exNode.unfold 2)) noRO (.slice []) "kids".toList none
        ⟨[], "kids".toList, [], false⟩
      = some (.ok (.slice [.struct [.slice [.struct [.slice []]]]])) := by
  refine ⟨?_, rfl, rfl⟩
  intro bound
  refine ⟨exKidsStore bound, rfl, ?_⟩
  intro k v opt hk
  obtain ⟨h1, h2⟩ := bindValueFuel_exNode bound k v opt hk
  exact ⟨bindValueFuel_mono_none noConverters bound (3 * bound) _ _ _ _ _ _ _ (by omega) h1, h2⟩

/-- C21, amended: `bindValue` and `bindStruct` terminate on every store and every
destination type that is not declared in terms of itself (a finite tree of types, `Ty`), and
the depth of their recursion is bounded by the nesting depth of the type, whatever the store
holds. Under a budget `fuel` of nested calls of `bindValue`, `bindStruct` and
`bindStructField`, each function gives the outcome of the binder exactly when the depth of
the call is at most `fuel`; this depth is at most `3 * depth + 1` for a type of nesting depth
`depth`, so every budget from `3 * depth + 1` on gives the outcome, for every store. For a
type declared in terms of itself the depth follows the stored value instead: on `[]Node`
with `type Node struct { Kids []Node "value:${kids}" }` and the store whose single entry
nests `n` levels, the run returns with the budget `3 * n + 1` and not with the budget
`3 * n`. -/
theorem binder_terminates_within_type_depth (tc : TypeConverters) (p : Properties) (t : Ty)
    (ro : Flags) (v : DVal) (propName : Str) (defaultValue : Option Str) (opt : bindOption) :
    (∀ fuel, 3 * t.depth + 1 ≤ fuel →
      bindValueFuel tc fuel p t ro v propName defaultValue opt
        = some (bindValue tc p t ro v propName defaultValue opt) ∧
      bindStructFuel tc fuel p t ro v opt = some (bindStruct tc p t ro v opt)) ∧
    (∀ fuel, bindValueFuel tc fuel p t ro v propName defaultValue opt
      = if bindValueDepth tc p t ro v propName defaultValue opt ≤ fuel
        then some (bindValue tc p t ro v propName defaultValue opt) else none) ∧
    (∀ fuel, bindStructFuel tc fuel p t ro v opt
      = if bindStructDepth tc p t ro v opt ≤ fuel then some (bindStruct tc p t ro v opt)
        else none) ∧
    bindValueDepth tc p t ro v propName defaultValue opt ≤ 3 * t.depth + 1 ∧
    bindStructDepth tc p t ro v opt ≤ 3 * t.depth + 1 ∧
    (∀ n k w o, n ≤ k →
      bindValueFuel noConverters (3 * n) (exKidsStore n).asProperties
          (.slice [] (exNode.unfold k)) noRO w "kids".toList none o = none ∧
      bindValueFuel noConverters (3 * n + 1) (exKidsStore n).asProperties
          (.slice [] (exNode.unfold k)) noRO w "kids".toList none o
        = some (.ok (exKidsResult n))) := by
  have hV := bindValueDepth_le tc t p ro v propName defaultValue opt
  have hS := bindStructDepth_le tc t p ro v opt
  refine ⟨?_, fun fuel => bindValueFuel_eq tc fuel p t ro v propName defaultValue opt,
    fun fuel => bindStructFuel_eq tc fuel p t ro v opt, hV, hS,
    fun n k w o hk => bindValueFuel_exNode n k w o hk⟩
  intro fuel hfuel
  rw [bindValueFuel_eq, bindStructFuel_eq, if_pos (le_trans hV hfuel),
    if_pos (le_trans hS hfuel)]
  exact ⟨rfl, rfl⟩

/-- C21 on the struct `Outer` around the struct `Inner` with the field `Value int` tagged
`${v}`, a type of nesting depth 2: the budget of 7 calls gives the outcome of `bindValue`
against the store `v = 7`. -/
theorem binder_terminates_within_type_depth_witness :
    3 * exOuter.depth + 1 ≤ 7 ∧
    bindValueFuel noConverters 7
        (defaultProperties.asProperties ⟨[("v".toList, Value.int 7)]⟩) exOuter noRO
        (zeroVal exOuter) [] none ⟨[], [], "Outer".toList, false⟩
      = some (.ok (.struct [.struct [.int 7]])) :=
  ⟨by decide,
   ((binder_terminates_within_type_depth noConverters
      (defaultProperties.asProperties ⟨[("v".toList, Value.int 7)]⟩) exOuter noRO
      (zeroVal exOuter) [] none ⟨[], [], "Outer".toList, false⟩).1 7 (by decide)).1⟩
